import Mathlib

/-!
# OPHD tile map, mine facility and user interface lists

A shallow embedding of `OPHD/Map/TileMap.cpp`, of `MineFacility.cpp`, and of the
methods `MapViewState::checkConnectedness`, `ListBox` selection and
`ResearchReport::refresh`, with the properties proved about them.

Conventions of the embedding:

* C++ `int` values are `Int`; conversions to `std::size_t` and `std::size_t`
  arithmetic are made explicit with `toSizeT` and `wrapSizeT` (64 bit).
* `std::vector<T>` is `List T`; an access outside the vector, or any other
  undefined behaviour, is the result `Error.undefinedBehaviour` (or `none`).
* A thrown `std::runtime_error` is `Error.runtimeError` with the message text;
  a thrown `std::length_error` is `Error.lengthError` and a thrown
  `std::bad_alloc` is `Error.badAlloc`. Apart from the call of `reserve` with
  a count chosen by the caller, allocations are taken to succeed.
* A mutable reference `Tile&` into the tile vector is the pair of the slot it
  designates and the tile stored there.
* The random number generator is an oracle: the sequence of values it returns
  is a parameter of the functions that draw from it.
-/

namespace OPHD

set_option maxRecDepth 4000

/-! ## Machine integers -/

/-- Value of a C++ `int` after conversion to a 64-bit `std::size_t`. -/
def toSizeT (i : Int) : Nat := (i % 2 ^ 64).toNat

/-- Wrap-around of `std::size_t` arithmetic. -/
def wrapSizeT (n : Nat) : Nat := n % 2 ^ 64

/-! ## Geometry (NAS2D) -/

/-- The type `NAS2D::Point<int>`. -/
structure Point where
  x : Int
  y : Int
deriving DecidableEq, Repr

/-- The type `NAS2D::Vector<int>`. -/
structure Vector where
  x : Int
  y : Int
deriving DecidableEq, Repr

/-- Translation of a point by a vector: `point + offset`. -/
def Point.add (p : Point) (v : Vector) : Point := ⟨p.x + v.x, p.y + v.y⟩

/-- Difference `point - vector`. -/
def Point.sub (p : Point) (v : Vector) : Point := ⟨p.x - v.x, p.y - v.y⟩

/-- Division of a vector by a scalar, `vector / scalar`, with C++ integer
division (truncation toward zero). -/
def Vector.divScalar (v : Vector) (s : Int) : Vector := ⟨v.x.tdiv s, v.y.tdiv s⟩

/-- The type `MapCoordinate`: a surface point and a depth. -/
structure MapCoordinate where
  xy : Point
  z : Int
deriving DecidableEq, Repr

/-- The type `NAS2D::Rectangle<int>`. -/
structure Rectangle where
  x : Int
  y : Int
  width : Int
  height : Int
deriving DecidableEq, Repr

/-- Modelled from the spec: `NAS2D::Rectangle::contains` (the NAS2D header is
not part of the sources). The rectangle is half open, `[x, x + width)` by
`[y, y + height)`. -/
def Rectangle.contains (r : Rectangle) (p : Point) : Bool :=
  decide (r.x ≤ p.x) && decide (p.x < r.x + r.width) &&
    decide (r.y ≤ p.y) && decide (p.y < r.y + r.height)

/-- The function `std::clamp(v, lo, hi)`: `lo` when `v < lo`, `hi` when
`hi < v`, else `v`. (For `hi < lo` the standard leaves the call undefined; the
value here is then the one of the usual implementation.) -/
def clamp (v lo hi : Int) : Int :=
  if v < lo then lo else if hi < v then hi else v

/-! ## Tiles -/

/-- Modelled from the spec: `TerrainType` (declared in a header that is not
part of the sources): an ordered scale stored as an integer. -/
abbrev TerrainType := Int

/-- Modelled from the spec: the terrain category `Dozed`. -/
def TerrainType.Dozed : TerrainType := 0

/-- Yield category of a mine, `MineProductionRate`. -/
inductive MineProductionRate
  | Low
  | Medium
  | High
deriving DecidableEq, Repr

/-- Modelled from the spec: `Mine` (class not part of the sources): the
deposit with its yield category, depth reached, active flag, remaining ore
and per-ore enabled bits. -/
structure Mine where
  productionRate : MineProductionRate := MineProductionRate.Low
  depth : Int := 0
  active : Bool := false
  remaining : List Int := [0, 0, 0, 0]
  miningEnabled : List Bool := [true, true, true, true]
deriving DecidableEq, Repr

/-- Modelled from the spec: the occupant of a tile (class `Thing`, not part of
the sources): a structure or a mobile unit, identified by a number. -/
inductive Thing
  | structure (id : Nat)
  | robot (id : Nat)
deriving DecidableEq, Repr

/-- Modelled from the spec: `Tile` (class not part of the sources): terrain
category, position, optional occupant, optional mine reference, excavated
flag and connected flag. A default tile is excavated, empty and without mine. -/
structure Tile where
  mIndex : TerrainType := TerrainType.Dozed
  mPosition : MapCoordinate := ⟨⟨0, 0⟩, 0⟩
  mThing : Option Thing := none
  mMine : Option Mine := none
  mExcavated : Bool := true
  mConnected : Bool := false
deriving DecidableEq, Repr

/-- Modelled from the spec: `Tile::hasMine`. -/
def Tile.hasMine (t : Tile) : Bool := t.mMine.isSome

/-- Modelled from the spec: `Tile::pushMine`, which replaces the mine reference. -/
def Tile.pushMine (t : Tile) (mine : Option Mine) : Tile := { t with mMine := mine }

/-- Modelled from the spec: the setter `Tile::index(TerrainType)`. -/
def Tile.setIndex (t : Tile) (index : TerrainType) : Tile := { t with mIndex := index }

/-- Modelled from the spec: the setter `Tile::excavated(bool)`. -/
def Tile.setExcavated (t : Tile) (value : Bool) : Tile := { t with mExcavated := value }

/-- Modelled from the spec: `Tile::empty`, true when the tile has no occupant. -/
def Tile.empty (t : Tile) : Bool := t.mThing.isNone

/-- Modelled from the spec: the constructor `Tile{position, index}`. -/
def Tile.create (position : MapCoordinate) (index : TerrainType) : Tile :=
  { mIndex := index, mPosition := position }

/-! ## The tile map -/

/-- Failures of the embedded code. -/
inductive Error
  | runtimeError (what : String)
  | lengthError
  | badAlloc
  | undefinedBehaviour
deriving DecidableEq, Repr

/-- The state of a `TileMap` object. The class is declared in a header that is
not part of the sources; the members are those that `TileMap.cpp` uses, and
the initial values of the view members (origin and edge length) are taken to
be zero. The two `void*` of `mPathStartEndPair` are slots of the tile vector,
or `none` for a pointer that addresses no tile of the map. -/
structure TileMap where
  mSizeInTiles : Vector
  mMaxDepth : Int
  mTileMap : List Tile := []
  mMineLocations : List Point := []
  mOriginTilePosition : MapCoordinate := ⟨⟨0, 0⟩, 0⟩
  mEdgeLength : Int := 0
  mPathStartEndPair : Option Nat × Option Nat := (none, none)
deriving DecidableEq, Repr

/-- Message of the exception thrown by `TileMap::getTile`. -/
def outOfBoundsMessage (position : MapCoordinate) : String :=
  "Tile coordinates out of bounds: \x7b" ++ toString position.xy.x ++ ", " ++
    toString position.xy.y ++ ", " ++ toString position.z ++ "\x7d"

/-- The method `TileMap::isValidPosition`. -/
def TileMap.isValidPosition (m : TileMap) (position : MapCoordinate) : Bool :=
  (Rectangle.mk 0 0 m.mSizeInTiles.x m.mSizeInTiles.y).contains position.xy &&
    decide (position.z ≥ 0) && decide (position.z ≤ m.mMaxDepth)

/-- The flat index computed by `TileMap::getTile`:
`((level * mSizeInTiles.y) + mapPosition.y) * mSizeInTiles.x + mapPosition.x`
in `std::size_t` arithmetic. -/
def TileMap.tileSlot (m : TileMap) (position : MapCoordinate) : Nat :=
  let mapPositionX := toSizeT position.xy.x
  let mapPositionY := toSizeT position.xy.y
  let level := toSizeT position.z
  wrapSizeT (((level * toSizeT m.mSizeInTiles.y) + mapPositionY) * toSizeT m.mSizeInTiles.x
    + mapPositionX)

/-- The const overload of `TileMap::getTile`. -/
def TileMap.getTile (m : TileMap) (position : MapCoordinate) : Except Error Tile :=
  if !m.isValidPosition position then
    Except.error (Error.runtimeError (outOfBoundsMessage position))
  else
    match m.mTileMap[m.tileSlot position]? with
    | some tile => Except.ok tile
    | none => Except.error Error.undefinedBehaviour

/-- The mutable overload of `TileMap::getTile`: it calls the const overload
and casts the constness of the returned reference away. -/
def TileMap.getTileMut (m : TileMap) (position : MapCoordinate) : Except Error (Nat × Tile) :=
  match m.getTile position with
  | Except.ok tile => Except.ok (m.tileSlot position, tile)
  | Except.error e => Except.error e

/-- Assignment through a mutable tile reference. -/
def TileMap.writeTile (m : TileMap) (slot : Nat) (tile : Tile) : TileMap :=
  { m with mTileMap := m.mTileMap.set slot tile }

/-- The position `(x, y, z)` lies in `[0, width) x [0, height) x [0, maxDepth]`. -/
def TileMap.InBounds (m : TileMap) (position : MapCoordinate) : Prop :=
  0 ≤ position.xy.x ∧ position.xy.x < m.mSizeInTiles.x ∧
  0 ≤ position.xy.y ∧ position.xy.y < m.mSizeInTiles.y ∧
  0 ≤ position.z ∧ position.z ≤ m.mMaxDepth

instance (m : TileMap) (position : MapCoordinate) : Decidable (m.InBounds position) := by
  unfold TileMap.InBounds; infer_instance

/-- A map as the constructor leaves it: non-negative dimensions and a tile
vector of `width * height * (maxDepth + 1)` tiles (a size a `std::vector` can
have). -/
structure TileMap.WellFormed (m : TileMap) : Prop where
  width_nonneg : 0 ≤ m.mSizeInTiles.x
  height_nonneg : 0 ≤ m.mSizeInTiles.y
  depth_nonneg : 0 ≤ m.mMaxDepth
  size_eq : (m.mTileMap.length : Int) = m.mSizeInTiles.x * m.mSizeInTiles.y * (m.mMaxDepth + 1)
  size_lt : m.mTileMap.length < 2 ^ 64

/-- The method `TileMap::removeMineLocation`: the outcome of the call and the
state of the map after it (the state at the throw when it throws). Erasing
the iterator returned by `find` removes the first occurrence of `pt`; erasing
`end()` (no occurrence) is undefined behaviour. -/
def TileMap.removeMineLocation (m : TileMap) (pt : Point) : Except Error Unit × TileMap :=
  match m.getTileMut ⟨pt, 0⟩ with
  | Except.error e => (Except.error e, m)
  | Except.ok (slot, tile) =>
    if !tile.hasMine then
      (Except.error (Error.runtimeError "No mine found to remove"), m)
    else if pt ∈ m.mMineLocations then
      let m1 : TileMap := { m with mMineLocations := m.mMineLocations.erase pt }
      (Except.ok (), m1.writeTile slot (tile.pushMine none))
    else
      (Except.error Error.undefinedBehaviour, m)

/-! ## Mine placement -/

/-- Modelled from the spec: the table `DirectionScan3x3` (declared in a header
that is not part of the sources): the nine offsets of the 3x3 neighbourhood,
the centre included. -/
def DirectionScan3x3 : List Vector :=
  [⟨-1, -1⟩, ⟨0, -1⟩, ⟨1, -1⟩, ⟨-1, 0⟩, ⟨0, 0⟩, ⟨1, 0⟩, ⟨-1, 1⟩, ⟨0, 1⟩, ⟨1, 1⟩]

/-- The index `point.x + mapSize.x * point.y` into `usedLocations`. -/
def usedIndex (mapSize : Vector) (point : Point) : Int := point.x + mapSize.x * point.y

/-- Read of `usedLocations[index]`; `none` outside the vector. -/
def readUsed (usedLocations : List Bool) (index : Int) : Option Bool :=
  if index < 0 then none else usedLocations[index.toNat]?

/-- The assignment `usedLocations[index] = true`; `none` outside the vector. -/
def writeUsed (usedLocations : List Bool) (index : Int) : Option (List Bool) :=
  if 0 ≤ index ∧ index.toNat < usedLocations.length then
    some (usedLocations.set index.toNat true)
  else
    none

/-- The inner loop of `generateMineLocations` over `DirectionScan3x3`. -/
def markUsed (mapSize : Vector) (point : Point) : List Vector → List Bool → Option (List Bool)
  | [], usedLocations => some usedLocations
  | offset :: rest, usedLocations =>
    match writeUsed usedLocations (usedIndex mapSize (point.add offset)) with
    | some usedLocations1 => markUsed mapSize point rest usedLocations1
    | none => none

/-- Variables of the loop of `generateMineLocations`. The counter `i` is also
the number of calls of `randPoint` made so far. -/
structure MineLoopState where
  i : Nat
  locations : List Point
  usedLocations : List Bool
deriving DecidableEq, Repr

/-- Loop test of `generateMineLocations`:
`(locations.size() < mineCount) && (i < mineCount * 2)`. -/
def mineLoopTest (mineCount : Nat) (st : MineLoopState) : Bool :=
  decide (st.locations.length < mineCount) && decide (st.i < wrapSizeT (mineCount * 2))

/-- One iteration of the loop of `generateMineLocations` with the drawn point. -/
def mineLoopBody (mapSize : Vector) (point : Point) (st : MineLoopState) :
    Option MineLoopState :=
  match readUsed st.usedLocations (usedIndex mapSize point) with
  | none => none
  | some used =>
    if !used then
      match markUsed mapSize point DirectionScan3x3 st.usedLocations with
      | some usedLocations1 =>
        some { i := st.i + 1, locations := st.locations ++ [point],
               usedLocations := usedLocations1 }
      | none => none
    else
      some { st with i := st.i + 1 }

/-- The loop of `generateMineLocations`. The call number `k` of `randPoint`
returns `randPoint k`. The fuel is the number of iterations the counter `i`
still allows. -/
def mineLoop (mapSize : Vector) (mineCount : Nat) (randPoint : Nat → Point) :
    Nat → MineLoopState → Option MineLoopState
  | 0, st => some st
  | fuel + 1, st =>
    if mineLoopTest mineCount st then
      match mineLoopBody mapSize (randPoint st.i) st with
      | some st1 => mineLoop mapSize mineCount randPoint fuel st1
      | none => none
    else
      some st

/-- State at the entry of the loop of `generateMineLocations`: `i = 0`, no
location, and a `usedLocations` vector of `mapSize.x * mapSize.y` cleared bits. -/
def mineLoopStart (mapSize : Vector) : MineLoopState :=
  { i := 0, locations := [],
    usedLocations := List.replicate (toSizeT (mapSize.x * mapSize.y)) false }

/-- The loop of `generateMineLocations` run from its entry state: the final
loop state, or `none` when an access to `usedLocations` is outside the vector. -/
def mineLoopRun (mapSize : Vector) (mineCount : Nat) (randPoint : Nat → Point) :
    Option MineLoopState :=
  mineLoop mapSize mineCount randPoint (wrapSizeT (mineCount * 2)) (mineLoopStart mapSize)

/-- The limits of the platform for the vector of locations: the value of
`std::vector<NAS2D::Point<int>>::max_size()`, which is implementation defined,
and the largest number of points for which the allocation made by `reserve`
succeeds. -/
structure VectorLimits where
  maxSize : Nat
  available : Nat
deriving DecidableEq, Repr

/-- Both limits admit the count: `reserve` returns. -/
def VectorLimits.Accepts (limits : VectorLimits) (count : Nat) : Prop :=
  count ≤ limits.maxSize ∧ count ≤ limits.available

instance (limits : VectorLimits) (count : Nat) : Decidable (limits.Accepts count) := by
  unfold VectorLimits.Accepts; infer_instance

/-- The call `locations.reserve(mineCount)` on the empty vector: it throws
`std::length_error` when `mineCount` exceeds `max_size()`, it throws
`std::bad_alloc` when the allocation of `mineCount` points fails, and it
changes no value otherwise. -/
def reserveLocations (limits : VectorLimits) (mineCount : Nat) : Except Error Unit :=
  if mineCount > limits.maxSize then Except.error Error.lengthError
  else if mineCount > limits.available then Except.error Error.badAlloc
  else Except.ok ()

/-- The body of `generateMineLocations` up to the end of its loop: the call of
`reserve`, then the loop; the result is the final loop state. -/
def generateMineLocationsRun (limits : VectorLimits) (mapSize : Vector) (mineCount : Nat)
    (randPoint : Nat → Point) : Except Error MineLoopState :=
  match reserveLocations limits mineCount with
  | Except.error e => Except.error e
  | Except.ok _ =>
    match mineLoopRun mapSize mineCount randPoint with
    | none => Except.error Error.undefinedBehaviour
    | some final => Except.ok final

/-- The function `generateMineLocations`. -/
def generateMineLocations (limits : VectorLimits) (mapSize : Vector) (mineCount : Nat)
    (randPoint : Nat → Point) : Except Error (List Point) :=
  match generateMineLocationsRun limits mapSize mineCount randPoint with
  | Except.error e => Except.error e
  | Except.ok final => Except.ok final.locations

/-- The keys of `HostilityMineYields`, the levels of `Planet::Hostility` that
the sources name. -/
inductive Hostility
  | Low
  | Medium
  | High
deriving DecidableEq, Repr

/-- The table `HostilityMineYields`: relative proportion of mines with yields
low, medium and high. -/
def HostilityMineYields : List (Hostility × (Int × Int × Int)) :=
  [(Hostility.Low, (30, 50, 20)),
   (Hostility.Medium, (45, 35, 20)),
   (Hostility.High, (35, 20, 45))]

/-- The sum `std::accumulate(mineYields.begin(), mineYields.end(), 0)`. -/
def yieldTotal (mineYields : Int × Int × Int) : Int :=
  0 + mineYields.1 + mineYields.2.1 + mineYields.2.2

/-- The lambda `randYield` of `placeMines`, applied to the value drawn. -/
def randYield (mineYields : Int × Int × Int) (randValue : Int) : MineProductionRate :=
  if randValue ≤ mineYields.1 then MineProductionRate.Low
  else if randValue ≤ mineYields.1 + mineYields.2.1 then MineProductionRate.Medium
  else MineProductionRate.High

/-- Modelled from the spec: the constructor `Mine(MineProductionRate)`. -/
def Mine.create (rate : MineProductionRate) : Mine := { productionRate := rate }

/-- The loop of `placeMines`; the call number `k` of the random generator
returns `randValue k`. -/
def placeMinesLoop (mineYields : Int × Int × Int) (randValue : Nat → Int) :
    List Point → Nat → TileMap → Except Error TileMap
  | [], _, tileMap => Except.ok tileMap
  | location :: rest, k, tileMap =>
    match tileMap.getTileMut ⟨location, 0⟩ with
    | Except.error e => Except.error e
    | Except.ok (slot, tile) =>
      let tile1 := tile.pushMine (some (Mine.create (randYield mineYields (randValue k))))
      let tile2 := tile1.setIndex TerrainType.Dozed
      placeMinesLoop mineYields randValue rest (k + 1) (tileMap.writeTile slot tile2)

/-- The function `placeMines`. A hostility without entry in the table makes
`std::map::at` throw. -/
def placeMines (tileMap : TileMap) (hostility : Hostility) (locations : List Point)
    (randValue : Nat → Int) : Except Error TileMap :=
  match HostilityMineYields.lookup hostility with
  | none => Except.error (Error.runtimeError "map::at")
  | some mineYields => placeMinesLoop mineYields randValue locations 0 tileMap

/-! ## Construction -/

/-- The constant `MapSize`. -/
def MapSize : Vector := ⟨300, 150⟩

/-- Colour of a pixel; the channels are bytes. Only the red channel is read. -/
structure Color where
  red : Fin 256
deriving DecidableEq, Repr

/-- The height map image, through its accessor `pixelColor`. -/
abbrev Image := Point → Color

/-- The call `std::vector::resize(n)`: the first `n` elements are kept and
default elements fill up to `n`. -/
def resize (tiles : List Tile) (n : Nat) : List Tile :=
  tiles.take n ++ List.replicate (n - tiles.length) ({} : Tile)

/-- The points visited by `PointInRectangleRange` for the rectangle with
corner `(0, 0)` and the given size: row by row. -/
def pointsInRectangle (size : Vector) : List Point :=
  (List.range size.y.toNat).flatMap fun (y : Nat) =>
    (List.range size.x.toNat).map fun (x : Nat) => (⟨Int.ofNat x, Int.ofNat y⟩ : Point)

/-- Inner loop of `TileMap::buildTerrainMap` over the points of one level. -/
def buildTerrainMapPoints (heightmap : Image) (depth : Int) :
    List Point → TileMap → Except Error TileMap
  | [], m => Except.ok m
  | point :: rest, m =>
    match m.getTileMut ⟨point, depth⟩ with
    | Except.error e => Except.error e
    | Except.ok (slot, _) =>
      let color := heightmap point
      let tile := Tile.create ⟨point, depth⟩ ((color.red.val : Int) / 50)
      let tile1 := if depth > 0 then tile.setExcavated false else tile
      buildTerrainMapPoints heightmap depth rest (m.writeTile slot tile1)

/-- Outer loop of `TileMap::buildTerrainMap` over the levels. -/
def buildTerrainMapLevels (heightmap : Image) : List Int → TileMap → Except Error TileMap
  | [], m => Except.ok m
  | depth :: rest, m =>
    match buildTerrainMapPoints heightmap depth (pointsInRectangle m.mSizeInTiles) m with
    | Except.error e => Except.error e
    | Except.ok m1 => buildTerrainMapLevels heightmap rest m1

/-- The levels `0, 1, ..., maxDepth` visited by the loops over the depth. -/
def levels (maxDepth : Int) : List Int :=
  (List.range (maxDepth + 1).toNat).map fun (depth : Nat) => Int.ofNat depth

/-- The method `TileMap::buildTerrainMap`. -/
def TileMap.buildTerrainMap (m : TileMap) (heightmap : Image) : Except Error TileMap :=
  let levelCount := wrapSizeT (toSizeT m.mMaxDepth + 1)
  let size := wrapSizeT (toSizeT (m.mSizeInTiles.x * m.mSizeInTiles.y) * levelCount)
  let m1 : TileMap := { m with mTileMap := resize m.mTileMap size }
  buildTerrainMapLevels heightmap (levels m1.mMaxDepth) m1

/-- The constructor `TileMap::TileMap`. The parameter `mineCount` is an `int`
passed to a `std::size_t` parameter; `limits` are the limits of the platform
for the vector of locations. -/
def TileMap.create (limits : VectorLimits) (heightmap : Image) (maxDepth : Int) (mineCount : Int)
    (hostility : Hostility) (shouldSetupMines : Bool)
    (randPoint : Nat → Point) (randValue : Nat → Int) : Except Error TileMap :=
  match ({ mSizeInTiles := MapSize, mMaxDepth := maxDepth } : TileMap).buildTerrainMap
      heightmap with
  | Except.error e => Except.error e
  | Except.ok m1 =>
    if shouldSetupMines then
      match generateMineLocations limits m1.mSizeInTiles (toSizeT mineCount) randPoint with
      | Except.error e => Except.error e
      | Except.ok locations =>
        placeMines { m1 with mMineLocations := locations } hostility locations randValue
    else
      Except.ok m1

/-! ## View window -/

/-- The method `TileMap::viewArea`. -/
def TileMap.viewArea (m : TileMap) : Rectangle :=
  ⟨m.mOriginTilePosition.xy.x, m.mOriginTilePosition.xy.y, m.mEdgeLength, m.mEdgeLength⟩

/-- The method `TileMap::currentDepth(int)`. -/
def TileMap.currentDepth (m : TileMap) (i : Int) : TileMap :=
  { m with mOriginTilePosition := { m.mOriginTilePosition with z := clamp i 0 m.mMaxDepth } }

/-- The method `TileMap::mapViewLocation(const MapCoordinate&)`. -/
def TileMap.mapViewLocation (m : TileMap) (position : MapCoordinate) : TileMap :=
  let m1 : TileMap :=
    { m with mOriginTilePosition := { m.mOriginTilePosition with
        xy := ⟨clamp position.xy.x 0 (m.mSizeInTiles.x - m.mEdgeLength),
               clamp position.xy.y 0 (m.mSizeInTiles.y - m.mEdgeLength)⟩ } }
  m1.currentDepth position.z

/-- The method `TileMap::centerOn(const MapCoordinate&)`. -/
def TileMap.centerOn (m : TileMap) (position : MapCoordinate) : TileMap :=
  m.mapViewLocation
    ⟨position.xy.sub ((Vector.mk m.mEdgeLength m.mEdgeLength).divScalar 2), position.z⟩

/-- The method `TileMap::centerOn(NAS2D::Point<int>)`. -/
def TileMap.centerOnPoint (m : TileMap) (point : Point) : TileMap :=
  m.centerOn ⟨point, m.mOriginTilePosition.z⟩

/-- The method `TileMap::moveView`. The enumeration `Direction` and the tables
`directionEnumToOffset` and `directionEnumToVerticalOffset` are declared in a
header that is not part of the sources; they are parameters. -/
def TileMap.moveView {Direction : Type} (directionEnumToOffset : Direction → Vector)
    (directionEnumToVerticalOffset : Direction → Int) (m : TileMap) (direction : Direction) :
    TileMap :=
  m.mapViewLocation
    ⟨m.mOriginTilePosition.xy.add (directionEnumToOffset direction),
     m.mOriginTilePosition.z + directionEnumToVerticalOffset direction⟩

/-- The method `TileMap::viewSize(int)`. -/
def TileMap.viewSize (m : TileMap) (sizeInTiles : Int) : TileMap :=
  { m with mEdgeLength := max 3 sizeInTiles }

/-- The method `TileMap::isVisibleTile`. -/
def TileMap.isVisibleTile (m : TileMap) (position : MapCoordinate) : Bool :=
  m.viewArea.contains position.xy && decide (position.z = m.mOriginTilePosition.z)

/-! ## Loading -/

/-- A `mine` element of a saved map: the coordinates and the state that
`Mine::deserialize` reads. -/
structure MineRecord where
  x : Int
  y : Int
  mine : Mine
deriving DecidableEq, Repr

/-- A `tile` element of a saved map. -/
structure TileRecord where
  x : Int
  y : Int
  depth : Int
  index : Int
deriving DecidableEq, Repr

/-- The XML element read by `TileMap::deserialize`, with its attributes parsed. -/
structure SavedMap where
  currentdepth : Int
  viewlocation_x : Int
  viewlocation_y : Int
  mines : List MineRecord
  tiles : List TileRecord
deriving DecidableEq, Repr

/-- The call `mMineLocations.push_back(point)`. -/
def TileMap.pushMineLocation (m : TileMap) (point : Point) : TileMap :=
  { m with mMineLocations := m.mMineLocations ++ [point] }

/-- The loop of `TileMap::deserialize` over the `mine` elements. -/
def deserializeMines : List MineRecord → TileMap → Except Error TileMap
  | [], m => Except.ok m
  | mineElement :: rest, m =>
    match m.getTileMut ⟨⟨mineElement.x, mineElement.y⟩, 0⟩ with
    | Except.error e => Except.error e
    | Except.ok (slot, tile) =>
      let tile1 := tile.pushMine (some mineElement.mine)
      let tile2 := tile1.setIndex TerrainType.Dozed
      deserializeMines rest
        ((m.writeTile slot tile2).pushMineLocation ⟨mineElement.x, mineElement.y⟩)

/-- The loop of `TileMap::deserialize` over the `tile` elements. -/
def deserializeTiles : List TileRecord → TileMap → Except Error TileMap
  | [], m => Except.ok m
  | tileElement :: rest, m =>
    match m.getTileMut ⟨⟨tileElement.x, tileElement.y⟩, tileElement.depth⟩ with
    | Except.error e => Except.error e
    | Except.ok (slot, tile) =>
      let tile1 := tile.setIndex tileElement.index
      let tile2 := if tileElement.depth > 0 then tile1.setExcavated true else tile1
      deserializeTiles rest (m.writeTile slot tile2)

/-- The method `TileMap::deserialize`. -/
def TileMap.deserialize (m : TileMap) (element : SavedMap) : Except Error TileMap :=
  let m1 := m.mapViewLocation
    ⟨⟨element.viewlocation_x, element.viewlocation_y⟩, element.currentdepth⟩
  match deserializeMines element.mines m1 with
  | Except.error e => Except.error e
  | Except.ok m2 => deserializeTiles element.tiles m2

/-! ## Invariants -/

/-- The tile at the position exists and holds a mine. -/
def TileMap.HasMineAt (m : TileMap) (position : MapCoordinate) : Prop :=
  ∃ tile, m.getTile position = Except.ok tile ∧ tile.hasMine = true

/-- Two maps with the same dimensions. -/
def TileMap.SameShape (m1 m : TileMap) : Prop :=
  m1.mSizeInTiles = m.mSizeInTiles ∧ m1.mMaxDepth = m.mMaxDepth

/-- The flat index of a position without conversions and wrap-around. -/
def flatIndex (m : TileMap) (p : MapCoordinate) : Nat :=
  (p.z.toNat * m.mSizeInTiles.y.toNat + p.xy.y.toNat) * m.mSizeInTiles.x.toNat + p.xy.x.toNat

/-- The view window lies within the map. -/
def TileMap.ViewInMap (m : TileMap) : Prop :=
  0 ≤ m.mOriginTilePosition.xy.x ∧
  m.mOriginTilePosition.xy.x ≤ m.mSizeInTiles.x - m.mEdgeLength ∧
  0 ≤ m.mOriginTilePosition.xy.y ∧
  m.mOriginTilePosition.xy.y ≤ m.mSizeInTiles.y - m.mEdgeLength

/-- The current depth is a level of the map. -/
def TileMap.DepthInMap (m : TileMap) : Prop :=
  0 ≤ m.mOriginTilePosition.z ∧ m.mOriginTilePosition.z ≤ m.mMaxDepth

/-- A drawn point as `randPoint` returns it: both coordinates between 5 and
the size minus 5, ends included. -/
def DrawInRange (mapSize : Vector) (point : Point) : Prop :=
  5 ≤ point.x ∧ point.x ≤ mapSize.x - 5 ∧ 5 ≤ point.y ∧ point.y ≤ mapSize.y - 5

instance (mapSize : Vector) (point : Point) : Decidable (DrawInRange mapSize point) := by
  unfold DrawInRange; infer_instance

instance (m : TileMap) : Decidable m.ViewInMap := by
  unfold TileMap.ViewInMap; infer_instance

instance (m : TileMap) : Decidable m.DepthInMap := by
  unfold TileMap.DepthInMap; infer_instance

/-- Two points differ by at least `k` in `x` or in `y`. -/
def Separated (k : Int) (p q : Point) : Prop :=
  p.x + k ≤ q.x ∨ q.x + k ≤ p.x ∨ p.y + k ≤ q.y ∨ q.y + k ≤ p.y

instance (k : Int) (p q : Point) : Decidable (Separated k p q) := by
  unfold Separated; infer_instance

/-- Invariant of the loop of `generateMineLocations`: the `usedLocations`
vector keeps its size, every location is a drawn point, the 3x3 neighbourhood
of every location is marked used, and the locations keep their distance. -/
structure MineLoopInv (mapSize : Vector) (st : MineLoopState) : Prop where
  size_eq : (st.usedLocations.length : Int) = mapSize.x * mapSize.y
  in_range : ∀ p ∈ st.locations, DrawInRange mapSize p
  claimed : ∀ p ∈ st.locations, ∀ offset ∈ DirectionScan3x3,
    readUsed st.usedLocations (usedIndex mapSize (p.add offset)) = some true
  separated : st.locations.Pairwise (Separated 2)

/-- Coordinates of the `mine` elements of a saved map. -/
def mineRecordPoints (records : List MineRecord) : List Point :=
  records.map fun r => ⟨r.x, r.y⟩

/-- The draw values `1, ..., total`. -/
def drawValues (total : Int) : List Int :=
  (List.range total.toNat).map fun (k : Nat) => Int.ofNat k + 1

/-! ## Concrete states -/

/-- A map of 2 by 2 tiles on one level with one mine, on the tile at (1, 0),
and a view window of one tile. -/
def smallMap : TileMap :=
  { mSizeInTiles := ⟨2, 2⟩, mMaxDepth := 0,
    mTileMap := [{ mPosition := ⟨⟨0, 0⟩, 0⟩ }, { mPosition := ⟨⟨1, 0⟩, 0⟩, mMine := some {} },
                 { mPosition := ⟨⟨0, 1⟩, 0⟩ }, { mPosition := ⟨⟨1, 1⟩, 0⟩ }],
    mMineLocations := [⟨1, 0⟩], mEdgeLength := 1 }

/-- Limits for the vector of locations: the `max_size()` of the usual 64-bit
implementations, the largest `std::ptrdiff_t` divided by the size of a point,
`(2^63 - 1) / 8`, and memory for `2^32` points. -/
def sampleLimits : VectorLimits := ⟨2 ^ 60 - 1, 2 ^ 32⟩

/-- Two draws two tiles apart: first (5, 5), then (7, 5) for every later call. -/
def closeDraws (k : Nat) : Point := if k = 0 then ⟨5, 5⟩ else ⟨7, 5⟩

/-- A map of `MapSize` on one level whose 3 by 3 view window was moved to the
bottom right corner: the origin is clamped to (297, 147). -/
def viewAtCorner : TileMap :=
  (({ mSizeInTiles := MapSize, mMaxDepth := 0,
      mTileMap := List.replicate 45000 {} } : TileMap).viewSize 3).mapViewLocation
    ⟨⟨300, 150⟩, 0⟩

/-! ## Path cost model -/

/-- A `float` value, given by the expression that computes it. The literals
are the decimal literals of the source (`0.5f`, `0.75f`, `1.0f`). -/
inductive FloatExpr
  | RouteBaseCost
  | FLT_MAX
  | literal (value : Rat)
  | ofInt (value : Int)
  | add (a b : FloatExpr)
  | mul (a b : FloatExpr)
  | sqrtf (a : FloatExpr)
deriving DecidableEq, Repr

/-- Modelled from the spec: the terrain category `Difficult`. -/
def TerrainType.Difficult : TerrainType := 3

/-- Modelled from the spec: the terrain category `Impassable`. -/
def TerrainType.Impassable : TerrainType := 4

/-- Modelled from the spec: the identifier of a structure class
(`StructureID`, declared in a header that is not part of the sources); only
`SID_ROAD` is named by `TileMap.cpp`. -/
inductive StructureID
  | SID_ROAD
  | other (id : Nat)
deriving DecidableEq, Repr

/-- Modelled from the spec: `StructureState`, the status of a structure. -/
inductive StructureState
  | UnderConstruction
  | Operational
  | Idle
  | Disabled
  | Destroyed
deriving DecidableEq, Repr

/-- Modelled from the spec: `IdleReason`, the cause that keeps a structure
from producing. -/
inductive IdleReason
  | None
  | PlayerSet
  | InternalStorageFull
  | MineExhausted
  | MineInactive
deriving DecidableEq, Repr

/-- Modelled from the spec: `StorableResources`, the quantities of the four
ore types, `std::array<int, 4> resources`. -/
structure StorableResources where
  resources : List Int := [0, 0, 0, 0]
deriving DecidableEq, Repr

/-- Modelled from the spec: the state of the base class `Structure` (not part
of the sources) that `TileMap.cpp` and `MineFacility.cpp` read and write: the
class identifier, the status with its idle reason, the integrity, the forced
idle flag, and the two resource pools returned by `storage()` and
`production()`. -/
structure Structure where
  mStructureId : StructureID := StructureID.other 0
  mStructureState : StructureState := StructureState.UnderConstruction
  mIdleReason : IdleReason := IdleReason.None
  mIntegrity : Int := 100
  mForcedIdle : Bool := false
  mStoragePool : StorableResources := {}
  mProductionPool : StorableResources := {}
deriving DecidableEq, Repr

/-- The constants of `Constants/Numbers.h` that the sources name and whose
values are not part of the sources. (`RouteBaseCost` is a `float`, see
`FloatExpr`.) -/
structure Constants where
  BaseMineProductionRate : Int
  BaseMineExtensionTime : Int
  RoadIntegrityChange : Int
deriving DecidableEq, Repr

/-- Modelled from the spec: the table `DirectionClockwise4` (declared in a
header that is not part of the sources): the offsets of the four cardinal
neighbours, north, east, south, west. -/
def DirectionClockwise4 : List Vector := [⟨0, -1⟩, ⟨1, 0⟩, ⟨0, 1⟩, ⟨-1, 0⟩]

/-- Difference of two points, `a - b`. -/
def Point.diff (a b : Point) : Vector := ⟨a.x - b.x, a.y - b.y⟩

/-- The method `NAS2D::Vector::lengthSquared`. -/
def Vector.lengthSquared (v : Vector) : Int := v.x * v.x + v.y * v.y

/-- Modelled from the spec: `Tile::xy`, the surface coordinates of the tile. -/
def Tile.xy (t : Tile) : Point := t.mPosition.xy

/-- Modelled from the spec: `Tile::thingIsStructure`. -/
def Tile.thingIsStructure (t : Tile) : Bool :=
  match t.mThing with
  | some (Thing.structure _) => true
  | _ => false

/-- Modelled from the spec: `Tile::structure`, the pointer to the structure
that occupies the tile (`none` for `nullptr`). -/
def Tile.structure (t : Tile) : Option Nat :=
  match t.mThing with
  | some (Thing.structure id) => some id
  | _ => none

/-- An entry `micropather::StateCost`: the neighbour state (the address of a
tile, a slot of the tile vector) and the cost of the step to it. -/
structure StateCost where
  state : Nat
  cost : FloatExpr
deriving DecidableEq, Repr

/-- The method `TileMap::LeastCostEstimate`. -/
def LeastCostEstimate (stateStart stateEnd : Tile) : FloatExpr :=
  FloatExpr.sqrtf (FloatExpr.ofInt (stateEnd.xy.diff stateStart.xy).lengthSquared)

/-- The method `TileMap::pathStartAndEnd`. -/
def TileMap.pathStartAndEnd (m : TileMap) (start finish : Option Nat) : TileMap :=
  { m with mPathStartEndPair := (start, finish) }

/-- The cost that the body of the loop of `TileMap::AdjacentCost` computes for
the neighbour `adjacentTile` stored in `slot`. The structures are reached
through their pointers: `structures id` is the structure with pointer `id`. -/
def TileMap.adjacentTileCost (m : TileMap) (constants : Constants) (structures : Nat → Structure)
    (slot : Nat) (adjacentTile : Tile) : FloatExpr :=
  let cost := FloatExpr.RouteBaseCost
  if adjacentTile.mIndex = TerrainType.Impassable then
    FloatExpr.FLT_MAX
  else if !adjacentTile.empty then
    if some slot = m.mPathStartEndPair.1 ∨ some slot = m.mPathStartEndPair.2 then
      FloatExpr.mul cost (FloatExpr.add (FloatExpr.ofInt adjacentTile.mIndex) (FloatExpr.literal 1))
    else
      match adjacentTile.thingIsStructure, adjacentTile.structure with
      | true, some id =>
        if (structures id).mStructureId = StructureID.SID_ROAD then
          let road := structures id
          if road.mStructureState ≠ StructureState.Operational then
            FloatExpr.mul cost
              (FloatExpr.add (FloatExpr.ofInt TerrainType.Difficult) (FloatExpr.literal 1))
          else if road.mIntegrity < constants.RoadIntegrityChange then
            FloatExpr.literal (3 / 4)
          else
            FloatExpr.literal (1 / 2)
        else
          FloatExpr.FLT_MAX
      | _, _ => FloatExpr.FLT_MAX
  else
    FloatExpr.mul cost (FloatExpr.add (FloatExpr.ofInt adjacentTile.mIndex) (FloatExpr.literal 1))

/-- The loop of `TileMap::AdjacentCost` over the offsets; `adjacent` is the
content of the vector that the entries are pushed to. -/
def TileMap.adjacentCostLoop (m : TileMap) (constants : Constants) (structures : Nat → Structure)
    (tilePosition : Point) : List Vector → List StateCost → Except Error (List StateCost)
  | [], adjacent => Except.ok adjacent
  | offset :: rest, adjacent =>
    let position := tilePosition.add offset
    if !(Rectangle.mk 0 0 m.mSizeInTiles.x m.mSizeInTiles.y).contains position then
      m.adjacentCostLoop constants structures tilePosition rest adjacent
    else
      match m.getTileMut ⟨position, 0⟩ with
      | Except.error e => Except.error e
      | Except.ok (slot, adjacentTile) =>
        let nodeCost : StateCost :=
          ⟨slot, m.adjacentTileCost constants structures slot adjacentTile⟩
        m.adjacentCostLoop constants structures tilePosition rest (adjacent ++ [nodeCost])

/-- The method `TileMap::AdjacentCost`: the outcome, with the content of
`*adjacent` after the call, and the state of the map after the call. The
argument `tile` is the tile that `state` points to. -/
def TileMap.AdjacentCost (m : TileMap) (constants : Constants) (structures : Nat → Structure)
    (tile : Tile) (adjacent : List StateCost) : Except Error (List StateCost) × TileMap :=
  let tilePosition := tile.xy
  (m.adjacentCostLoop constants structures tilePosition DirectionClockwise4 adjacent, m)

/-- The entry that `AdjacentCost` pushes for the neighbour at the surface
point `position`: the slot of the tile found there with the cost computed for
it, and no entry when no tile is found there. -/
def TileMap.neighbourEntry (m : TileMap) (constants : Constants) (structures : Nat → Structure)
    (position : Point) : Option StateCost :=
  match m.getTile ⟨position, 0⟩ with
  | Except.ok adjacentTile =>
    some ⟨m.tileSlot ⟨position, 0⟩,
      m.adjacentTileCost constants structures (m.tileSlot ⟨position, 0⟩) adjacentTile⟩
  | Except.error _ => none

/-- The surface point lies in `[0, width) x [0, height)`. -/
def TileMap.onSurface (m : TileMap) (position : Point) : Bool :=
  (Rectangle.mk 0 0 m.mSizeInTiles.x m.mSizeInTiles.y).contains position

/-- The terrain-based cost `RouteBaseCost * (static_cast<float>(index) + 1.0f)`. -/
def terrainCost (index : TerrainType) : FloatExpr :=
  FloatExpr.mul FloatExpr.RouteBaseCost
    (FloatExpr.add (FloatExpr.ofInt index) (FloatExpr.literal 1))

/-! ## Exact values of the path costs -/

/-- The value of `FLT_MAX`, the largest finite `float`. -/
def fltMaxValue : Rat := (2 ^ 24 - 1) * 2 ^ 104

/-- The exact value of a float expression without square root, for a value of
`RouteBaseCost`: the operations are those of real arithmetic, without the
rounding of `float`. -/
def FloatExpr.value (routeBaseCost : Rat) : FloatExpr → Option Rat
  | FloatExpr.RouteBaseCost => some routeBaseCost
  | FloatExpr.FLT_MAX => some fltMaxValue
  | FloatExpr.literal value => some value
  | FloatExpr.ofInt value => some (value : Rat)
  | FloatExpr.add a b =>
    match a.value routeBaseCost, b.value routeBaseCost with
    | some x, some y => some (x + y)
    | _, _ => none
  | FloatExpr.mul a b =>
    match a.value routeBaseCost, b.value routeBaseCost with
    | some x, some y => some (x * y)
    | _, _ => none
  | FloatExpr.sqrtf _ => none

/-- The comparison `sqrt n <= cost` in exact arithmetic. -/
def sqrtAtMost (n : Int) (cost : Rat) : Prop := 0 ≤ cost ∧ (n : Rat) ≤ cost * cost

instance (n : Int) (cost : Rat) : Decidable (sqrtAtMost n cost) := by
  unfold sqrtAtMost; infer_instance

/-- The cost that `AdjacentCost`, called at the tile `source`, assigns to the
step to the surface tile at `target`: the cost of the entry whose state is
that tile, `none` when there is no such tile or no such entry. -/
def TileMap.stepCost (m : TileMap) (constants : Constants) (structures : Nat → Structure)
    (source : Tile) (target : Point) : Option FloatExpr :=
  match m.getTileMut ⟨target, 0⟩, (m.AdjacentCost constants structures source []).1 with
  | Except.ok (slot, _), Except.ok entries =>
    (entries.find? fun entry => decide (entry.state = slot)).map StateCost.cost
  | _, _ => none

/-- The exact values of the costs of the steps of a path of surface points,
each step taken from the tile at one point to the tile at the next. -/
def TileMap.pathStepValues (m : TileMap) (constants : Constants) (structures : Nat → Structure)
    (routeBaseCost : Rat) : List Point → Option (List Rat)
  | [] => some []
  | [_] => some []
  | p :: q :: rest =>
    match m.getTile ⟨p, 0⟩ with
    | Except.error _ => none
    | Except.ok source =>
      match (m.stepCost constants structures source q).bind (FloatExpr.value routeBaseCost),
        m.pathStepValues constants structures routeBaseCost (q :: rest) with
      | some value, some values => some (value :: values)
      | _, _ => none

/-- Every tile found at a position records that position. -/
def TileMap.PositionsConsistent (m : TileMap) : Prop :=
  ∀ (position : MapCoordinate) (tile : Tile),
    m.getTile position = Except.ok tile → tile.mPosition = position

/-! ## Mine facility -/

/-- Modelled from the spec: `Mine::exhausted`, all remaining quantities at zero. -/
def Mine.exhausted (mine : Mine) : Bool := mine.remaining.all fun q => decide (q = 0)

/-- Modelled from the spec: `Mine::increaseDepth`, which increases the depth
reached by one level. -/
def Mine.increaseDepth (mine : Mine) : Mine := { mine with depth := mine.depth + 1 }

/-- Modelled from the spec: `Mine::pull(type, quantity)`, which takes up to
`quantity` of the ore from the deposit and returns the amount taken. -/
def Mine.pull (mine : Mine) (type : Nat) (quantity : Int) : Int × Mine :=
  let available := mine.remaining.getD type 0
  let pulled := min quantity available
  (pulled, { mine with remaining := mine.remaining.set type (available - pulled) })

/-- Modelled from the spec: `StorableResources::operator-`, per ore. -/
def StorableResources.sub (a b : StorableResources) : StorableResources :=
  ⟨List.zipWith (fun x y => x - y) a.resources b.resources⟩

/-- Modelled from the spec: `StorableResources::operator+=`, per ore. -/
def StorableResources.add (a b : StorableResources) : StorableResources :=
  ⟨List.zipWith (fun x y => x + y) a.resources b.resources⟩

/-- Modelled from the spec: `StorableResources::cap(max)`, which caps the
quantity of every ore by `max`. -/
def StorableResources.cap (a : StorableResources) (max : Int) : StorableResources :=
  ⟨a.resources.map fun q => min q max⟩

/-- Modelled from the spec: `StorableResources::operator<`, true when every
ore of `a` is below that of `b`. -/
def StorableResources.lt (a b : StorableResources) : Bool :=
  (List.zipWith (fun x y => decide (x < y)) a.resources b.resources).all id

/-- Modelled from the spec: `StorableResources::operator>=`, true when every
ore of `a` is at or above that of `b`. -/
def StorableResources.ge (a b : StorableResources) : Bool :=
  (List.zipWith (fun x y => decide (x ≥ y)) a.resources b.resources).all id

/-- The constant `MineFacilityStorageCapacity`. -/
def MineFacilityStorageCapacity : Int := 500

/-- The constant `MaxCapacity`. -/
def MaxCapacity : StorableResources :=
  ⟨[MineFacilityStorageCapacity / 4, MineFacilityStorageCapacity / 4,
    MineFacilityStorageCapacity / 4, MineFacilityStorageCapacity / 4]⟩

/-- The state of a `MineFacility`: the state of its base class, the mine it
points to, the configured maximum depth and the digging countdown. -/
structure MineFacility extends Structure where
  mMine : Mine := {}
  mMaxDepth : Int := 0
  mDigTurnsRemaining : Int := 0
deriving DecidableEq, Repr

/-- A signal emitted by a mine facility. -/
inductive MineFacilityEvent
  | extensionComplete
deriving DecidableEq, Repr

/-- Modelled from the spec: `Structure::forceIdle()`. -/
def MineFacility.forceIdle (f : MineFacility) : Bool := f.mForcedIdle

/-- Modelled from the spec: `Structure::isIdle()`. -/
def MineFacility.isIdle (f : MineFacility) : Bool :=
  decide (f.mStructureState = StructureState.Idle)

/-- Modelled from the spec: `Structure::storage()`. -/
def MineFacility.storage (f : MineFacility) : StorableResources := f.mStoragePool

/-- Modelled from the spec: `Structure::production()`. -/
def MineFacility.production (f : MineFacility) : StorableResources := f.mProductionPool

/-- Modelled from the spec: `Structure::enable()`, which clears the idle state. -/
def MineFacility.enable (f : MineFacility) : MineFacility :=
  { f with mStructureState := StructureState.Operational, mIdleReason := IdleReason.None }

/-- Modelled from the spec: `Structure::idle(reason)`, which sets the idle
state with its reason. -/
def MineFacility.idle (f : MineFacility) (reason : IdleReason) : MineFacility :=
  { f with mStructureState := StructureState.Idle, mIdleReason := reason }

/-- The method `MineFacility::maxTransferAmounts`. -/
def MineFacility.maxTransferAmounts (constants : Constants) (f : MineFacility) :
    StorableResources :=
  let remainingCapacity := MaxCapacity.sub f.production
  remainingCapacity.cap constants.BaseMineProductionRate

/-- The loop of `MineFacility::think` over the ore types. -/
def pullLoop (maxTransfer : StorableResources) (enabledBits : List Bool) :
    List Nat → Mine → StorableResources → Mine × StorableResources
  | [], mine, ore => (mine, ore)
  | i :: rest, mine, ore =>
    if enabledBits.getD i false then
      let pulled := mine.pull i (maxTransfer.resources.getD i 0)
      pullLoop maxTransfer enabledBits rest pulled.2 ⟨ore.resources.set i pulled.1⟩
    else
      pullLoop maxTransfer enabledBits rest mine ore

/-- The method `MineFacility::think`: the state after the call and the
signals emitted. -/
def MineFacility.think (constants : Constants) (f : MineFacility) :
    MineFacility × List MineFacilityEvent :=
  if f.forceIdle then (f, [])
  else if f.mDigTurnsRemaining > 0 then
    let f1 : MineFacility := { f with mDigTurnsRemaining := f.mDigTurnsRemaining - 1 }
    if f1.mDigTurnsRemaining = 0 then
      ({ f1 with mMine := f1.mMine.increaseDepth }, [MineFacilityEvent.extensionComplete])
    else
      (f1, [])
  else
    let f1 : MineFacility :=
      if f.isIdle && f.mMine.active then
        if f.storage.lt MaxCapacity then f.enable else f
      else f
    if f1.mMine.exhausted then
      (f1.idle IdleReason.MineExhausted, [])
    else if f1.mMine.active then
      if f1.storage.ge MaxCapacity then
        (f1.idle IdleReason.InternalStorageFull, [])
      else
        let ore : StorableResources := {}
        let maxTransfer := f1.maxTransferAmounts constants
        let enabledBits := f1.mMine.miningEnabled
        let pulled := pullLoop maxTransfer enabledBits (List.range ore.resources.length) f1.mMine ore
        ({ f1 with mMine := pulled.1, mStoragePool := f1.storage.add pulled.2 }, [])
    else if !f1.isIdle then
      (f1.idle IdleReason.MineInactive, [])
    else
      (f1, [])

/-- The method `MineFacility::canExtend`. -/
def MineFacility.canExtend (f : MineFacility) : Bool :=
  decide (f.mMine.depth < f.mMaxDepth) && decide (f.mDigTurnsRemaining = 0)

/-- The method `MineFacility::extend`. -/
def MineFacility.extend (constants : Constants) (f : MineFacility) : MineFacility :=
  if !f.canExtend then f
  else { f with mDigTurnsRemaining := constants.BaseMineExtensionTime }

/-- The state after `n` calls of `MineFacility::think` and the signals
emitted by them, in order. -/
def MineFacility.thinkTimes (constants : Constants) :
    Nat → MineFacility → MineFacility × List MineFacilityEvent
  | 0, f => (f, [])
  | n + 1, f =>
    let first := f.think constants
    let later := MineFacility.thinkTimes constants n first.1
    (later.1, first.2 ++ later.2)

/-- A call made on a mine facility. -/
inductive MineFacilityCall
  | extend
  | think
deriving DecidableEq, Repr

/-- The state after a sequence of calls of `extend` and `think`. -/
def MineFacility.run (constants : Constants) : List MineFacilityCall → MineFacility → MineFacility
  | [], f => f
  | MineFacilityCall.extend :: rest, f => MineFacility.run constants rest (f.extend constants)
  | MineFacilityCall.think :: rest, f => MineFacility.run constants rest (f.think constants).1

/-! ## Concrete states of the path cost model and of the mine facility -/

/-- Values for the constants: production rate 10, extension time 10, road
integrity threshold 80. -/
def sampleConstants : Constants := ⟨10, 10, 80⟩

/-- A store of structures: the pointer 0 addresses an operational road of
integrity 100, every other pointer an operational structure of another class. -/
def sampleStructures (id : Nat) : Structure :=
  if id = 0 then
    { mStructureId := StructureID.SID_ROAD, mStructureState := StructureState.Operational }
  else
    { mStructureId := StructureID.other 1, mStructureState := StructureState.Operational }

/-- The empty tile at (0, 0) of the strip maps, of terrain category 1. -/
def stripWestTile : Tile := { mPosition := ⟨⟨0, 0⟩, 0⟩, mIndex := 1 }

/-- The tile at (1, 0) of the strip maps: it holds the road. -/
def stripRoadTile (roadIndex : TerrainType) : Tile :=
  { mPosition := ⟨⟨1, 0⟩, 0⟩, mIndex := roadIndex, mThing := some (Thing.structure 0) }

/-- The tile at (2, 0) of the strip maps: it holds the other structure. -/
def stripEastTile (eastIndex : TerrainType) : Tile :=
  { mPosition := ⟨⟨2, 0⟩, 0⟩, mIndex := eastIndex, mThing := some (Thing.structure 1) }

/-- A map of 3 by 1 tiles on one level: an empty tile, a tile with the road
and a tile with the other structure, with the given terrain categories of the
two occupied tiles and the given registered start and end pointers. -/
def stripMap (roadIndex eastIndex : TerrainType) (pair : Option Nat × Option Nat) : TileMap :=
  { mSizeInTiles := ⟨3, 1⟩, mMaxDepth := 0,
    mTileMap := [stripWestTile, stripRoadTile roadIndex, stripEastTile eastIndex],
    mPathStartEndPair := pair }

/-- The facility after the test of `MineFacility::think` that clears the idle
state: enabled when it is idle over an active deposit with spare storage. -/
def afterEnableTest (f : MineFacility) : MineFacility :=
  if f.isIdle && f.mMine.active then
    if f.storage.lt MaxCapacity then f.enable else f
  else f

/-- A fresh mine facility in operation over an active deposit with the given
remaining quantities and enabled bits: empty storage and production pools, no
extension running, maximum depth 3. -/
def freshFacility (remaining : List Int) (miningEnabled : List Bool) : MineFacility :=
  { mStructureState := StructureState.Operational,
    mMine := { active := true, remaining := remaining, miningEnabled := miningEnabled },
    mMaxDepth := 3 }

/-- A facility in operation whose storage holds 125 of each ore, over an
active deposit with 50 of each ore. -/
def fullFacility : MineFacility :=
  { mStructureState := StructureState.Operational,
    mStoragePool := ⟨[125, 125, 125, 125]⟩,
    mMine := { active := true, remaining := [50, 50, 50, 50] }, mMaxDepth := 3 }

/-- A facility in operation whose mine has reached depth 2 of the 3 allowed. -/
def deepFacility : MineFacility :=
  { mStructureState := StructureState.Operational,
    mMine := { active := true, depth := 2, remaining := [50, 50, 50, 50] }, mMaxDepth := 3 }

/-- A sequence of calls: two extensions of two ticks each are asked for, the
second while the first runs and again after it. -/
def extensionCalls : List MineFacilityCall :=
  [MineFacilityCall.extend, MineFacilityCall.think, MineFacilityCall.extend,
   MineFacilityCall.think, MineFacilityCall.extend, MineFacilityCall.think,
   MineFacilityCall.think]

/-! ## Saving -/

/-- Modelled from the spec: `Mine::serialize(location)` (the class `Mine` is
not part of the sources): the record keyed by the location that carries the
full state of the deposit, which `Mine::deserialize` reads back. -/
def Mine.serialize (mine : Mine) (location : Point) : MineRecord :=
  { x := location.x, y := location.y, mine := mine }

/-- The loop of `TileMap::serialize` over `mMineLocations`: the records are
linked in the order of the list. The dereference of the pointer returned by
`Tile::mine()` is undefined behaviour when the tile holds no mine. -/
def serializeMines (m : TileMap) : List Point → Except Error (List MineRecord)
  | [] => Except.ok []
  | location :: rest =>
    match m.getTileMut ⟨location, 0⟩ with
    | Except.error e => Except.error e
    | Except.ok (_, tile) =>
      match tile.mMine with
      | none => Except.error Error.undefinedBehaviour
      | some mine =>
        match serializeMines m rest with
        | Except.error e => Except.error e
        | Except.ok records => Except.ok (mine.serialize location :: records)

/-- The condition of `TileMap::serialize` under which a tile is written out:
`((depth > 0 && tile.excavated()) || (tile.index() == TerrainType::Dozed)) &&
(tile.empty() && tile.mine() == nullptr)`. -/
def serializeTileTest (depth : Int) (tile : Tile) : Bool :=
  ((decide (depth > 0) && tile.mExcavated) || decide (tile.mIndex = TerrainType.Dozed)) &&
    (tile.empty && tile.mMine.isNone)

/-- Inner loop of the tile part of `TileMap::serialize` over the points of one
level: the records are linked in the order of the points. -/
def serializeTilesPoints (m : TileMap) (depth : Int) :
    List Point → Except Error (List TileRecord)
  | [] => Except.ok []
  | point :: rest =>
    match m.getTileMut ⟨point, depth⟩ with
    | Except.error e => Except.error e
    | Except.ok (_, tile) =>
      let written : List TileRecord :=
        if serializeTileTest depth tile then
          [{ x := point.x, y := point.y, depth := depth, index := tile.mIndex }]
        else []
      match serializeTilesPoints m depth rest with
      | Except.error e => Except.error e
      | Except.ok records => Except.ok (written ++ records)

/-- Outer loop of the tile part of `TileMap::serialize` over the levels. -/
def serializeTilesLevels (m : TileMap) : List Int → Except Error (List TileRecord)
  | [] => Except.ok []
  | depth :: rest =>
    match serializeTilesPoints m depth (pointsInRectangle m.mSizeInTiles) with
    | Except.error e => Except.error e
    | Except.ok records =>
      match serializeTilesLevels m rest with
      | Except.error e => Except.error e
      | Except.ok later => Except.ok (records ++ later)

/-- The method `TileMap::serialize`: the element it fills, with the view
parameters, the `mine` elements and the `tile` elements. -/
def TileMap.serialize (m : TileMap) : Except Error SavedMap :=
  match serializeMines m m.mMineLocations with
  | Except.error e => Except.error e
  | Except.ok mines =>
    match serializeTilesLevels m (levels m.mMaxDepth) with
    | Except.error e => Except.error e
    | Except.ok tiles =>
      Except.ok { currentdepth := m.mOriginTilePosition.z,
                  viewlocation_x := m.mOriginTilePosition.xy.x,
                  viewlocation_y := m.mOriginTilePosition.xy.y,
                  mines := mines, tiles := tiles }

/-- The tiles that the comment of `TileMap::serialize` and the specification
name: tiles without occupant and without deposit that are on the surface and
bulldozed, or underground and excavated. -/
def writtenBySpecification (depth : Int) (tile : Tile) : Bool :=
  ((decide (depth = 0) && decide (tile.mIndex = TerrainType.Dozed)) ||
      (decide (depth > 0) && tile.mExcavated)) &&
    (tile.empty && tile.mMine.isNone)

/-- The tile that `TileMap::buildTerrainMap` stores at a position. -/
def builtTile (heightmap : Image) (position : MapCoordinate) : Tile :=
  let tile := Tile.create position (((heightmap position.xy).red.val : Int) / 50)
  if position.z > 0 then tile.setExcavated false else tile

/-- A map with the given dimensions and no tile yet, as the constructor hands
it to `buildTerrainMap`. -/
def blankMap (size : Vector) (maxDepth : Int) : TileMap :=
  { mSizeInTiles := size, mMaxDepth := maxDepth }

/-! ## Connectivity check -/

/-- Modelled from the spec: the setter `Tile::connected(bool)`. -/
def Tile.setConnected (t : Tile) (value : Bool) : Tile := { t with mConnected := value }

/-- The members of `MapViewState` that `checkConnectedness` uses: the tile map
and the location of the command centre returned by `ccLocation()`. -/
structure MapViewState where
  mTileMap : TileMap
  ccLocation : Point
deriving DecidableEq, Repr

/-- The method `MapViewState::checkConnectedness`. The constant `CcNotPlaced`
and the class `GraphWalker`, whose constructor runs the walk over the tile
map, are not part of the sources and are parameters; the structures are
reached through their pointers. The call `mTileMap->getTile(ccLocation(), 0)`
is the lookup of the tile at that point on depth 0; a lookup that fails is
passed on as a failure. -/
def MapViewState.checkConnectedness (CcNotPlaced : Point) (structures : Nat → Structure)
    (graphWalker : Point → Int → TileMap → TileMap) (s : MapViewState) :
    Except Error MapViewState :=
  if s.ccLocation = CcNotPlaced then Except.ok s
  else
    match s.mTileMap.getTileMut ⟨s.ccLocation, 0⟩ with
    | Except.error e => Except.error e
    | Except.ok (slot, t) =>
      match t.structure with
      | none =>
        Except.error
          (Error.runtimeError "CC coordinates do not actually point to a Command Center.")
      | some cc =>
        if (structures cc).mStructureState = StructureState.UnderConstruction then Except.ok s
        else
          let tileMap1 := s.mTileMap.writeTile slot (t.setConnected true)
          Except.ok { s with mTileMap := graphWalker s.ccLocation 0 tileMap1 }

/-! ## List box -/

/-- An item of a list box, `ListBoxItem`: its text and its tag. -/
structure ListBoxItem where
  text : String
  tag : Int
deriving DecidableEq, Repr

/-- The members of `ListBox` that hold the items and the selection. The
members of the layout and of the slider, which `_updateItemDisplay` computes
from the number of items, are left out: no method modelled here reads them.
The index `mCurrentSelection` is a `std::size_t`. -/
structure ListBox where
  mItems : List ListBoxItem := []
  mCurrentSelection : Nat
deriving DecidableEq, Repr

/-- The constants of the user interface that `ListBox.cpp` names and whose
values are not part of the sources. -/
structure UiConstants where
  NO_SELECTION : Nat
  EMPTY_STR : String
deriving DecidableEq, Repr

/-- The method `ListBox::empty`. -/
def ListBox.empty (l : ListBox) : Bool := l.mItems.isEmpty

/-- The method `ListBox::selectionText`; `none` when `mItems[mCurrentSelection]`
is an access outside the vector. -/
def ListBox.selectionText (constants : UiConstants) (l : ListBox) : Option String :=
  if l.mCurrentSelection = constants.NO_SELECTION then some constants.EMPTY_STR
  else (l.mItems[l.mCurrentSelection]?).map ListBoxItem.text

/-- The method `ListBox::selectionTag`; `none` when `mItems[mCurrentSelection]`
is an access outside the vector. -/
def ListBox.selectionTag (constants : UiConstants) (l : ListBox) : Option Int :=
  if l.mCurrentSelection = constants.NO_SELECTION then some 0
  else (l.mItems[l.mCurrentSelection]?).map ListBoxItem.tag

/-- The method `ListBox::addItem`. -/
def ListBox.addItem (l : ListBox) (item : String) (tag : Int) : ListBox :=
  { l with mItems := l.mItems ++ [⟨item, tag⟩] }

/-- The method `ListBox::removeItem`: `std::find` compares the text of an item
with the name, and the first item found is erased. -/
def ListBox.removeItem (constants : UiConstants) (l : ListBox) (item : String) : ListBox :=
  if l.empty then l
  else if l.mItems.any (fun i => decide (i.text = item)) then
    { l with mItems := l.mItems.eraseP (fun i => decide (i.text = item)),
             mCurrentSelection := constants.NO_SELECTION }
  else l

/-- The loop of `ListBox::setSelectionByName` from the index `i` on: the index
of the first item whose text in lower case is the target. -/
def selectionByNameLoop (toLowercase : String → String) (target : String) :
    List ListBoxItem → Nat → Option Nat
  | [], _ => none
  | item :: rest, i =>
    if toLowercase item.text = target then some i
    else selectionByNameLoop toLowercase target rest (i + 1)

/-- The method `ListBox::setSelectionByName`. The function `toLowercase` of
the library is a parameter. -/
def ListBox.setSelectionByName (toLowercase : String → String) (l : ListBox) (item : String) :
    ListBox :=
  match selectionByNameLoop toLowercase (toLowercase item) l.mItems 0 with
  | some i => { l with mCurrentSelection := i }
  | none => l

/-- The method `ListBox::dropAllItems`. -/
def ListBox.dropAllItems (l : ListBox) : ListBox :=
  { l with mItems := [], mCurrentSelection := 0 }

/-- A call of one of the four methods that change the items or the selection. -/
inductive ListBoxCall
  | addItem (item : String) (tag : Int)
  | removeItem (item : String)
  | dropAllItems
  | setSelectionByName (item : String)
deriving DecidableEq, Repr

/-- The list box after one call. -/
def ListBox.call (constants : UiConstants) (toLowercase : String → String) (l : ListBox) :
    ListBoxCall → ListBox
  | ListBoxCall.addItem item tag => l.addItem item tag
  | ListBoxCall.removeItem item => l.removeItem constants item
  | ListBoxCall.dropAllItems => l.dropAllItems
  | ListBoxCall.setSelectionByName item => l.setSelectionByName toLowercase item

/-- The list box after a sequence of calls. -/
def ListBox.run (constants : UiConstants) (toLowercase : String → String) :
    List ListBoxCall → ListBox → ListBox
  | [], l => l
  | c :: rest, l => ListBox.run constants toLowercase rest (l.call constants toLowercase c)

/-- The selection is `NO_SELECTION` or an index below the number of items. -/
def ListBox.SelectionValid (constants : UiConstants) (l : ListBox) : Prop :=
  l.mCurrentSelection = constants.NO_SELECTION ∨ l.mCurrentSelection < l.mItems.length

instance (constants : UiConstants) (l : ListBox) : Decidable (l.SelectionValid constants) := by
  unfold ListBox.SelectionValid; infer_instance

/-! ## Research report -/

/-- The type `NAS2D::Rectangle<int>` as `ResearchReport.cpp` uses it: a
position and a size. -/
structure AreaRectangle where
  position : Point := ⟨0, 0⟩
  size : Vector := ⟨0, 0⟩
deriving DecidableEq, Repr

/-- The constant `CategoryIconSize`. -/
def CategoryIconSize : Int := 64

/-- The constant `MarginSize`. -/
def MarginSize : Int := 10

/-- The type `CategoryPanel`. -/
structure CategoryPanel where
  rect : AreaRectangle := {}
  imageSlice : AreaRectangle := {}
  name : String := ""
  selected : Bool := false
deriving DecidableEq, Repr

/-- The state that `ResearchReport::refresh` reads and writes: the rectangle of
the control, the height of the font `fontBigBold`, the size of the button
`btnAllTopics`, the toggle states of the five buttons, and the variables
`CategoryPanels`, `SelectedCategory` (a pointer to a panel, here its index)
and `IconArea` of the file. -/
structure ResearchReport where
  rect : AreaRectangle := {}
  fontBigBoldHeight : Int := 0
  btnAllTopicsSize : Vector := ⟨100, 32⟩
  btnAllTopics : Bool := false
  btnAvailableTopics : Bool := false
  btnCompletedTopics : Bool := false
  btnStandardLab : Bool := false
  btnHotLab : Bool := false
  CategoryPanels : List CategoryPanel := []
  SelectedCategory : Option Nat := none
  IconArea : AreaRectangle := {}
deriving DecidableEq, Repr

/-- Division of two C++ `int` values: undefined for a zero divisor, else the
quotient truncated toward zero. -/
def intDivide (a b : Int) : Option Int := if b = 0 then none else some (a.tdiv b)

/-- The method `ResearchReport::untoggleAllButtons`. -/
def ResearchReport.untoggleAllButtons (r : ResearchReport) : ResearchReport :=
  { r with btnAllTopics := false, btnAvailableTopics := false, btnCompletedTopics := false,
           btnStandardLab := false, btnHotLab := false }

/-- The method `ResearchReport::onAllTopicsClicked`. -/
def ResearchReport.onAllTopicsClicked (r : ResearchReport) : ResearchReport :=
  { r.untoggleAllButtons with btnAllTopics := true }

/-- The rectangle that the loop of `ResearchReport::refresh` gives the panel
number `i`. -/
def panelRect (r : ResearchReport) (padding : Int) (i : Nat) : AreaRectangle :=
  { position := ⟨r.rect.position.x + 10,
                 r.rect.position.y + 10 + (i : Int) * CategoryIconSize + (i : Int) * padding⟩,
    size := ⟨CategoryIconSize, CategoryIconSize⟩ }

/-- The assignment `CategoryPanels.front().selected = true`. -/
def selectFront : List CategoryPanel → List CategoryPanel
  | [] => []
  | front :: rest => { front with selected := true } :: rest

/-- The value that `ResearchReport::refresh` assigns to `IconArea`. -/
def iconArea (r : ResearchReport) : AreaRectangle :=
  { position := ⟨r.rect.position.x + MarginSize * 3 + CategoryIconSize,
                 r.rect.position.y + r.fontBigBoldHeight + r.btnAllTopicsSize.y + MarginSize * 3⟩,
    size := ⟨((r.rect.size.x.tdiv 3) * 2) - (MarginSize * 4) - CategoryIconSize,
             r.rect.size.y - MarginSize * 4 - r.fontBigBoldHeight - r.btnAllTopicsSize.y⟩ }

/-- The method `ResearchReport::refresh`; `none` when the call has undefined
behaviour. The number of panels is a `std::size_t`, converted to `int`. -/
def ResearchReport.refresh (r : ResearchReport) : Option ResearchReport :=
  if r.CategoryPanels.length < 1 then some r
  else
    let minimumHeight := CategoryIconSize * (r.CategoryPanels.length : Int)
    match intDivide ((r.rect.size.y - 20) - minimumHeight)
        ((r.CategoryPanels.length - 1 : Nat) : Int) with
    | none => none
    | some padding =>
      let panels := List.zipWith (fun (i : Nat) (panel : CategoryPanel) =>
        { panel with rect := panelRect r padding i })
        (List.range r.CategoryPanels.length) r.CategoryPanels
      let r1 : ResearchReport :=
        { r with CategoryPanels := selectFront panels, SelectedCategory := some 0 }
      let r2 := r1.onAllTopicsClicked
      some { r2 with IconArea := iconArea r }

/-! ## Concrete states of the later sections -/

/-- A height map that is black everywhere. -/
def darkHeightmap : Image := fun _ => ⟨0⟩

/-- A height map that is white everywhere. -/
def brightHeightmap : Image := fun _ => ⟨255⟩

/-- The map of one tile on two levels that `buildTerrainMap` builds from the
black height map: both tiles have the terrain category 0, the tile of level 1
is not excavated. -/
def cellarMap : TileMap :=
  { mSizeInTiles := ⟨1, 1⟩, mMaxDepth := 1,
    mTileMap := [{ mPosition := ⟨⟨0, 0⟩, 0⟩ }, { mPosition := ⟨⟨0, 0⟩, 1⟩, mExcavated := false }] }

/-- The small map with the view moved to the tile (1, 1). -/
def smallMapMoved : TileMap := smallMap.mapViewLocation ⟨⟨1, 1⟩, 0⟩

/-- A map of the dimensions of the small map in its initial state: no mine,
view members zero. -/
def smallMapFresh : TileMap :=
  { mSizeInTiles := ⟨2, 2⟩, mMaxDepth := 0,
    mTileMap := [{ mPosition := ⟨⟨0, 0⟩, 0⟩ }, { mPosition := ⟨⟨1, 0⟩, 0⟩ },
                 { mPosition := ⟨⟨0, 1⟩, 0⟩ }, { mPosition := ⟨⟨1, 1⟩, 0⟩ }] }

/-- A walk that marks nothing. -/
def idleWalk (_start : Point) (_depth : Int) (m : TileMap) : TileMap := m

/-- The user interface constants with `NO_SELECTION` the largest `std::size_t`. -/
def sampleUiConstants : UiConstants := ⟨2 ^ 64 - 1, ""⟩

/-- A list box with two items, the second selected. -/
def twoItems : ListBox :=
  { mItems := [⟨"alpha", 1⟩, ⟨"beta", 2⟩], mCurrentSelection := 1 }

/-- A report of 800 by 600 with a single category panel. -/
def singleCategoryReport : ResearchReport :=
  { rect := ⟨⟨0, 0⟩, ⟨800, 600⟩⟩, fontBigBoldHeight := 20, CategoryPanels := [{ name := "Biology" }] }

/-- A report of 800 by 600 with two category panels. -/
def twoCategoryReport : ResearchReport :=
  { rect := ⟨⟨0, 0⟩, ⟨800, 600⟩⟩, fontBigBoldHeight := 20,
    CategoryPanels := [{ name := "Biology" }, { name := "Physics" }] }

/-- A map of 12 by 10 default tiles on one level. -/
def plainMap : TileMap :=
  { mSizeInTiles := ⟨12, 10⟩, mMaxDepth := 0, mTileMap := List.replicate 120 {} }

/-- The value of `CcNotPlaced` used in the examples: a point outside every map. -/
def sampleCcNotPlaced : Point := ⟨-1, -1⟩

/-! ## Lemmas -/

theorem toSizeT_eq {i : Int} (h0 : 0 ≤ i) (h1 : i < 2 ^ 64) : toSizeT i = i.toNat := by
  unfold toSizeT
  rw [Int.emod_eq_of_lt h0 h1]

theorem isValidPosition_iff (m : TileMap) (p : MapCoordinate) :
    m.isValidPosition p = true ↔ m.InBounds p := by
  simp [TileMap.isValidPosition, Rectangle.contains, TileMap.InBounds, and_assoc]

/-- The flat index without wrap-around, on natural numbers. -/
theorem flat_lt {w h n x y z : Nat} (hx : x < w) (hy : y < h) (hz : z < n) :
    (z * h + y) * w + x < w * h * n := by
  have h1 : z * h + y + 1 ≤ n * h := by
    calc z * h + y + 1 ≤ z * h + h := by omega
      _ = (z + 1) * h := by ring
      _ ≤ n * h := Nat.mul_le_mul_right h hz
  calc (z * h + y) * w + x < (z * h + y) * w + w := by omega
    _ = (z * h + y + 1) * w := by ring
    _ ≤ (n * h) * w := Nat.mul_le_mul_right w h1
    _ = w * h * n := by ring

theorem flat_inj {w h x y z x' y' z' : Nat} (hx : x < w) (hy : y < h) (hx' : x' < w)
    (hy' : y' < h) (heq : (z * h + y) * w + x = (z' * h + y') * w + x') :
    x = x' ∧ y = y' ∧ z = z' := by
  have hw : 0 < w := by omega
  have hh : 0 < h := by omega
  have e1 : ((z * h + y) * w + x) % w = x := by
    rw [Nat.add_comm, Nat.add_mul_mod_self_right, Nat.mod_eq_of_lt hx]
  have e1' : ((z' * h + y') * w + x') % w = x' := by
    rw [Nat.add_comm, Nat.add_mul_mod_self_right, Nat.mod_eq_of_lt hx']
  have hxx : x = x' := by rw [← e1, ← e1', heq]
  subst hxx
  have e2 : z * h + y = z' * h + y' := by
    have := Nat.add_right_cancel heq
    exact Nat.eq_of_mul_eq_mul_right hw this
  have e3 : (z * h + y) % h = y := by
    rw [Nat.add_comm, Nat.add_mul_mod_self_right, Nat.mod_eq_of_lt hy]
  have e3' : (z' * h + y') % h = y' := by
    rw [Nat.add_comm, Nat.add_mul_mod_self_right, Nat.mod_eq_of_lt hy']
  have hyy : y = y' := by rw [← e3, ← e3', e2]
  subst hyy
  have := Nat.add_right_cancel e2
  exact ⟨rfl, rfl, Nat.eq_of_mul_eq_mul_right hh this⟩

theorem flatIndex_lt (m : TileMap) (hm : m.WellFormed) (p : MapCoordinate) (hp : m.InBounds p) :
    flatIndex m p < m.mTileMap.length := by
  obtain ⟨hx0, hx1, hy0, hy1, hz0, hz1⟩ := hp
  have hlen : m.mTileMap.length
      = m.mSizeInTiles.x.toNat * m.mSizeInTiles.y.toNat * (m.mMaxDepth + 1).toNat := by
    have h := hm.size_eq
    have hw := hm.width_nonneg
    have hh := hm.height_nonneg
    have hd := hm.depth_nonneg
    have : ((m.mSizeInTiles.x.toNat * m.mSizeInTiles.y.toNat * (m.mMaxDepth + 1).toNat : Nat) : Int)
        = m.mSizeInTiles.x * m.mSizeInTiles.y * (m.mMaxDepth + 1) := by
      push_cast
      rw [Int.toNat_of_nonneg hw, Int.toNat_of_nonneg hh, Int.toNat_of_nonneg (by omega)]
    exact_mod_cast h.trans this.symm
  rw [hlen]
  unfold flatIndex
  apply flat_lt <;> omega

theorem tileSlot_eq (m : TileMap) (hm : m.WellFormed) (p : MapCoordinate) (hp : m.InBounds p) :
    m.tileSlot p = flatIndex m p := by
  have hlt := flatIndex_lt m hm p hp
  have hsz := hm.size_lt
  obtain ⟨hx0, hx1, hy0, hy1, hz0, hz1⟩ := hp
  have hw : 0 < m.mSizeInTiles.x.toNat := by omega
  have hh : 0 < m.mSizeInTiles.y.toNat := by omega
  have hn : 0 < (m.mMaxDepth + 1).toNat := by omega
  have hlen : m.mTileMap.length
      = m.mSizeInTiles.x.toNat * m.mSizeInTiles.y.toNat * (m.mMaxDepth + 1).toNat := by
    have h := hm.size_eq
    have : ((m.mSizeInTiles.x.toNat * m.mSizeInTiles.y.toNat * (m.mMaxDepth + 1).toNat : Nat) : Int)
        = m.mSizeInTiles.x * m.mSizeInTiles.y * (m.mMaxDepth + 1) := by
      push_cast
      rw [Int.toNat_of_nonneg hm.width_nonneg, Int.toNat_of_nonneg hm.height_nonneg,
        Int.toNat_of_nonneg (by omega)]
    exact_mod_cast h.trans this.symm
  have hwh : 0 < m.mSizeInTiles.x.toNat * m.mSizeInTiles.y.toNat := Nat.mul_pos hw hh
  have b1 : m.mSizeInTiles.x.toNat * m.mSizeInTiles.y.toNat ≤ m.mTileMap.length := by
    rw [hlen]; exact Nat.le_mul_of_pos_right _ hn
  have bw : m.mSizeInTiles.x.toNat ≤ m.mTileMap.length :=
    le_trans (Nat.le_mul_of_pos_right _ hh) b1
  have bh : m.mSizeInTiles.y.toNat ≤ m.mTileMap.length :=
    le_trans (Nat.le_mul_of_pos_left _ hw) b1
  have bz : p.z.toNat < 2 ^ 64 := by
    have : (m.mMaxDepth + 1).toNat ≤ m.mTileMap.length := by
      rw [hlen]; exact Nat.le_mul_of_pos_left _ hwh
    omega
  have ex : toSizeT p.xy.x = p.xy.x.toNat := toSizeT_eq hx0 (by omega)
  have ey : toSizeT p.xy.y = p.xy.y.toNat := toSizeT_eq hy0 (by omega)
  have ez : toSizeT p.z = p.z.toNat := toSizeT_eq hz0 (by omega)
  have ew : toSizeT m.mSizeInTiles.x = m.mSizeInTiles.x.toNat :=
    toSizeT_eq hm.width_nonneg (by omega)
  have eh : toSizeT m.mSizeInTiles.y = m.mSizeInTiles.y.toNat :=
    toSizeT_eq hm.height_nonneg (by omega)
  unfold TileMap.tileSlot wrapSizeT
  simp only [ex, ey, ez, ew, eh]
  unfold flatIndex at hlt ⊢
  exact Nat.mod_eq_of_lt (by omega)

theorem getTile_of_inBounds (m : TileMap) (hm : m.WellFormed) (p : MapCoordinate)
    (hp : m.InBounds p) :
    ∃ h : flatIndex m p < m.mTileMap.length,
      m.getTile p = Except.ok (m.mTileMap.get ⟨flatIndex m p, h⟩) := by
  have hlt := flatIndex_lt m hm p hp
  refine ⟨hlt, ?_⟩
  have hv : m.isValidPosition p = true := (isValidPosition_iff m p).2 hp
  unfold TileMap.getTile
  rw [hv, tileSlot_eq m hm p hp, List.getElem?_eq_getElem hlt]
  rfl

theorem getTile_of_not_inBounds (m : TileMap) (p : MapCoordinate) (hp : ¬ m.InBounds p) :
    m.getTile p = Except.error (Error.runtimeError (outOfBoundsMessage p)) := by
  have hv : m.isValidPosition p = false := by
    rw [← Bool.not_eq_true, isValidPosition_iff]; exact hp
  unfold TileMap.getTile
  rw [hv]; rfl

theorem flatIndex_inj (m : TileMap) (p q : MapCoordinate)
    (hp : m.InBounds p) (hq : m.InBounds q) (h : flatIndex m p = flatIndex m q) : p = q := by
  obtain ⟨hx0, hx1, hy0, hy1, hz0, hz1⟩ := hp
  obtain ⟨qx0, qx1, qy0, qy1, qz0, qz1⟩ := hq
  unfold flatIndex at h
  obtain ⟨e1, e2, e3⟩ := flat_inj (by omega) (by omega) (by omega) (by omega) h
  obtain ⟨⟨px, py⟩, pz⟩ := p
  obtain ⟨⟨qx, qy⟩, qz⟩ := q
  simp only at *
  have : px = qx := by omega
  have : py = qy := by omega
  have : pz = qz := by omega
  subst_vars
  rfl

theorem getTile_writeTile_same (m : TileMap) (hm : m.WellFormed) (p : MapCoordinate)
    (hp : m.InBounds p) (tile : Tile) :
    (m.writeTile (m.tileSlot p) tile).getTile p = Except.ok tile := by
  have hlt := flatIndex_lt m hm p hp
  have hv : m.isValidPosition p = true := (isValidPosition_iff m p).2 hp
  have hs := tileSlot_eq m hm p hp
  unfold TileMap.getTile
  have hv' : (m.writeTile (m.tileSlot p) tile).isValidPosition p = true := hv
  have hs' : (m.writeTile (m.tileSlot p) tile).tileSlot p = m.tileSlot p := rfl
  rw [hv', hs']
  simp [TileMap.writeTile, hs, hlt]

theorem getTile_writeTile_other (m : TileMap) (hm : m.WellFormed) (p q : MapCoordinate)
    (hp : m.InBounds p) (hq : m.InBounds q) (hne : q ≠ p) (tile : Tile) :
    (m.writeTile (m.tileSlot p) tile).getTile q = m.getTile q := by
  have hsp := tileSlot_eq m hm p hp
  have hsq := tileSlot_eq m hm q hq
  have hne' : m.tileSlot p ≠ m.tileSlot q := by
    rw [hsp, hsq]
    intro h
    exact hne (flatIndex_inj m q p hq hp h.symm)
  unfold TileMap.getTile
  have hv' : (m.writeTile (m.tileSlot p) tile).isValidPosition q = m.isValidPosition q := rfl
  have hs' : (m.writeTile (m.tileSlot p) tile).tileSlot q = m.tileSlot q := rfl
  rw [hv', hs']
  simp [TileMap.writeTile, List.getElem?_set, hne']

theorem getTile_writeTile_outside (m : TileMap) (slot : Nat) (q : MapCoordinate)
    (hq : ¬ m.InBounds q) (tile : Tile) :
    (m.writeTile slot tile).getTile q = m.getTile q := by
  have h1 : ¬ (m.writeTile slot tile).InBounds q := hq
  rw [getTile_of_not_inBounds _ q h1, getTile_of_not_inBounds _ q hq]

theorem wellFormed_writeTile (m : TileMap) (hm : m.WellFormed) (slot : Nat) (tile : Tile) :
    (m.writeTile slot tile).WellFormed := by
  obtain ⟨h1, h2, h3, h4, h5⟩ := hm
  refine ⟨h1, h2, h3, ?_, ?_⟩
  · simpa [TileMap.writeTile] using h4
  · simpa [TileMap.writeTile] using h5

theorem inBounds_of_getTile_ok (m : TileMap) (p : MapCoordinate) (tile : Tile)
    (h : m.getTile p = Except.ok tile) : m.InBounds p := by
  by_contra hp
  rw [getTile_of_not_inBounds m p hp] at h
  cases h

theorem getTileMut_eq (m : TileMap) (p : MapCoordinate) (tile : Tile)
    (h : m.getTile p = Except.ok tile) : m.getTileMut p = Except.ok (m.tileSlot p, tile) := by
  unfold TileMap.getTileMut; rw [h]

theorem clamp_bounds (v lo hi : Int) (h : lo ≤ hi) : lo ≤ clamp v lo hi ∧ clamp v lo hi ≤ hi := by
  unfold clamp
  split_ifs <;> omega

theorem mapViewLocation_bounds (m : TileMap) (p : MapCoordinate)
    (hw : m.mEdgeLength ≤ m.mSizeInTiles.x) (hh : m.mEdgeLength ≤ m.mSizeInTiles.y)
    (hd : 0 ≤ m.mMaxDepth) :
    (m.mapViewLocation p).ViewInMap ∧ (m.mapViewLocation p).DepthInMap := by
  have h1 := clamp_bounds p.xy.x 0 (m.mSizeInTiles.x - m.mEdgeLength) (by omega)
  have h2 := clamp_bounds p.xy.y 0 (m.mSizeInTiles.y - m.mEdgeLength) (by omega)
  have h3 := clamp_bounds p.z 0 m.mMaxDepth hd
  exact ⟨⟨h1.1, h1.2, h2.1, h2.2⟩, h3⟩

theorem mineLoopBody_i (mapSize : Vector) (point : Point) (st st1 : MineLoopState)
    (h : mineLoopBody mapSize point st = some st1) : st1.i = st.i + 1 := by
  unfold mineLoopBody at h
  split at h
  · cases h
  · split at h
    · split at h
      · cases h; rfl
      · cases h
    · cases h; rfl

theorem mineLoopBody_length (mapSize : Vector) (point : Point) (st st1 : MineLoopState)
    (h : mineLoopBody mapSize point st = some st1) :
    st1.locations.length ≤ st.locations.length + 1 := by
  unfold mineLoopBody at h
  split at h
  · cases h
  · split at h
    · split at h
      · cases h; simp
      · cases h
    · cases h; simp

/-- An invariant of the loop body that holds initially holds at the end. -/
theorem mineLoop_invariant (mapSize : Vector) (mineCount : Nat) (randPoint : Nat → Point)
    (P : MineLoopState → Prop)
    (hbody : ∀ st st1, P st → mineLoopTest mineCount st = true →
      mineLoopBody mapSize (randPoint st.i) st = some st1 → P st1) :
    ∀ (fuel : Nat) (st final : MineLoopState), P st →
      mineLoop mapSize mineCount randPoint fuel st = some final → P final := by
  intro fuel
  induction fuel with
  | zero =>
    intro st final hP h
    simp only [mineLoop] at h
    cases h; exact hP
  | succ fuel ih =>
    intro st final hP h
    simp only [mineLoop] at h
    by_cases ht : mineLoopTest mineCount st = true
    · rw [if_pos ht] at h
      cases hb : mineLoopBody mapSize (randPoint st.i) st with
      | none => rw [hb] at h; cases h
      | some st1 =>
        rw [hb] at h
        exact ih st1 final (hbody st st1 hP ht hb) h
    · rw [if_neg ht] at h
      cases h; exact hP

/-- The loop never stops for lack of fuel: with fuel for the iterations that
the counter still allows, the loop test is false at the end. -/
theorem mineLoop_exit (mapSize : Vector) (mineCount : Nat) (randPoint : Nat → Point) :
    ∀ (fuel : Nat) (st final : MineLoopState), wrapSizeT (mineCount * 2) ≤ fuel + st.i →
      mineLoop mapSize mineCount randPoint fuel st = some final →
      mineLoopTest mineCount final = false := by
  intro fuel
  induction fuel with
  | zero =>
    intro st final hle h
    simp only [mineLoop] at h
    cases h
    simp only [mineLoopTest, Bool.and_eq_false_imp, decide_eq_true_eq, decide_eq_false_iff_not]
    intro _; omega
  | succ fuel ih =>
    intro st final hle h
    simp only [mineLoop] at h
    by_cases ht : mineLoopTest mineCount st = true
    · rw [if_pos ht] at h
      cases hb : mineLoopBody mapSize (randPoint st.i) st with
      | none => rw [hb] at h; cases h
      | some st1 =>
        rw [hb] at h
        have hi := mineLoopBody_i mapSize _ st st1 hb
        exact ih st1 final (by omega) h
    · rw [if_neg ht] at h
      cases h
      simpa using ht

/-- When every iteration that is run succeeds and keeps `P`, the loop returns. -/
theorem mineLoop_returns (mapSize : Vector) (mineCount : Nat) (randPoint : Nat → Point)
    (P : MineLoopState → Prop)
    (hbody : ∀ st, P st → mineLoopTest mineCount st = true →
      ∃ st1, mineLoopBody mapSize (randPoint st.i) st = some st1 ∧ P st1) :
    ∀ (fuel : Nat) (st : MineLoopState), P st →
      ∃ final, mineLoop mapSize mineCount randPoint fuel st = some final ∧ P final := by
  intro fuel
  induction fuel with
  | zero =>
    intro st hP
    exact ⟨st, rfl, hP⟩
  | succ fuel ih =>
    intro st hP
    simp only [mineLoop]
    by_cases ht : mineLoopTest mineCount st = true
    · rw [if_pos ht]
      obtain ⟨st1, hb, hP1⟩ := hbody st hP ht
      rw [hb]
      exact ih st1 hP1
    · rw [if_neg ht]
      exact ⟨st, rfl, hP⟩

theorem wrapSizeT_le (n : Nat) : wrapSizeT n ≤ n := Nat.mod_le _ _

theorem mineLoop_counts (mapSize : Vector) (mineCount : Nat) (randPoint : Nat → Point)
    (final : MineLoopState)
    (h : mineLoopRun mapSize mineCount randPoint = some final) :
    final.i ≤ wrapSizeT (mineCount * 2) ∧ final.locations.length ≤ mineCount := by
  unfold mineLoopRun at h
  refine mineLoop_invariant mapSize mineCount randPoint
    (fun st => st.i ≤ wrapSizeT (mineCount * 2) ∧ st.locations.length ≤ mineCount)
    ?_ _ _ final ⟨Nat.zero_le _, Nat.zero_le _⟩ h
  intro st st1 _ ht hb
  simp only [mineLoopTest, Bool.and_eq_true, decide_eq_true_eq] at ht
  have h1 := mineLoopBody_i mapSize _ st st1 hb
  have h2 := mineLoopBody_length mapSize _ st st1 hb
  constructor <;> omega

theorem offset_small (offset : Vector) (h : offset ∈ DirectionScan3x3) :
    -1 ≤ offset.x ∧ offset.x ≤ 1 ∧ -1 ≤ offset.y ∧ offset.y ≤ 1 := by
  simp only [DirectionScan3x3, List.mem_cons, List.mem_singleton, List.not_mem_nil, or_false] at h
  rcases h with h | h | h | h | h | h | h | h | h <;> subst h <;> decide

theorem offset_mem (dx dy : Int) (h1 : -1 ≤ dx) (h2 : dx ≤ 1) (h3 : -1 ≤ dy) (h4 : dy ≤ 1) :
    (⟨dx, dy⟩ : Vector) ∈ DirectionScan3x3 := by
  have hx : dx = -1 ∨ dx = 0 ∨ dx = 1 := by omega
  have hy : dy = -1 ∨ dy = 0 ∨ dy = 1 := by omega
  rcases hx with hx | hx | hx <;> rcases hy with hy | hy | hy <;> subst hx <;> subst hy <;>
    simp [DirectionScan3x3]

theorem usedIndex_in_range (mapSize : Vector) (point : Point) (offset : Vector)
    (hw : 10 ≤ mapSize.x) (hp : DrawInRange mapSize point) (ho : offset ∈ DirectionScan3x3) :
    0 ≤ usedIndex mapSize (point.add offset) ∧
      usedIndex mapSize (point.add offset) < mapSize.x * mapSize.y := by
  obtain ⟨h1, h2, h3, h4⟩ := offset_small offset ho
  obtain ⟨p1, p2, p3, p4⟩ := hp
  unfold usedIndex Point.add
  simp only
  have hy0 : 0 ≤ point.y + offset.y := by omega
  have hy1 : point.y + offset.y ≤ mapSize.y - 1 := by omega
  have hw0 : 0 ≤ mapSize.x := by omega
  have e1 : 0 ≤ mapSize.x * (point.y + offset.y) := Int.mul_nonneg hw0 hy0
  have e2 : mapSize.x * (point.y + offset.y) ≤ mapSize.x * (mapSize.y - 1) :=
    Int.mul_le_mul_of_nonneg_left hy1 hw0
  have e3 : mapSize.x * (mapSize.y - 1) = mapSize.x * mapSize.y - mapSize.x := by ring
  constructor <;> omega

theorem readUsed_set_same (u : List Bool) (index : Int) (h0 : 0 ≤ index)
    (h1 : index.toNat < u.length) : readUsed (u.set index.toNat true) index = some true := by
  unfold readUsed
  rw [if_neg (by omega)]
  simp [List.getElem?_set, h1]

theorem readUsed_set_keeps (u : List Bool) (k : Nat) (index : Int)
    (h : readUsed u index = some true) : readUsed (u.set k true) index = some true := by
  unfold readUsed at h ⊢
  by_cases hneg : index < 0
  · rw [if_pos hneg] at h; cases h
  · rw [if_neg hneg] at h ⊢
    rw [List.getElem?_set]
    by_cases hk : k = index.toNat
    · subst hk
      have hlt : index.toNat < u.length := by
        obtain ⟨hlt, _⟩ := List.getElem?_eq_some.1 h
        exact hlt
      simp [hlt]
    · rw [if_neg hk]; exact h

theorem markUsed_spec (mapSize : Vector) (point : Point) :
    ∀ (offsets : List Vector) (u : List Bool),
      (∀ offset ∈ offsets, 0 ≤ usedIndex mapSize (point.add offset) ∧
        (usedIndex mapSize (point.add offset)).toNat < u.length) →
      ∃ u1, markUsed mapSize point offsets u = some u1 ∧ u1.length = u.length ∧
        (∀ index, readUsed u index = some true → readUsed u1 index = some true) ∧
        (∀ offset ∈ offsets, readUsed u1 (usedIndex mapSize (point.add offset)) = some true) := by
  intro offsets
  induction offsets with
  | nil =>
    intro u _
    exact ⟨u, rfl, rfl, fun _ h => h, fun _ h => by cases h⟩
  | cons offset rest ih =>
    intro u hall
    obtain ⟨h0, h1⟩ := hall offset (List.mem_cons_self _ _)
    have hw : writeUsed u (usedIndex mapSize (point.add offset))
        = some (u.set (usedIndex mapSize (point.add offset)).toNat true) := by
      unfold writeUsed
      rw [if_pos ⟨h0, h1⟩]
    obtain ⟨u1, hm, hlen, hkeep, hset⟩ :=
      ih (u.set (usedIndex mapSize (point.add offset)).toNat true) (by
        intro o ho
        have := hall o (List.mem_cons_of_mem _ ho)
        simpa using this)
    refine ⟨u1, ?_, ?_, ?_, ?_⟩
    · simp only [markUsed, hw]; exact hm
    · simpa using hlen
    · intro index h
      exact hkeep index (readUsed_set_keeps u _ index h)
    · intro o ho
      rcases List.mem_cons.1 ho with h | h
      · subst h
        exact hkeep _ (readUsed_set_same u _ h0 h1)
      · exact hset o h

theorem mineLoopBody_inv (mapSize : Vector) (point : Point) (st : MineLoopState)
    (hw : 10 ≤ mapSize.x) (hp : DrawInRange mapSize point) (hinv : MineLoopInv mapSize st) :
    ∃ st1, mineLoopBody mapSize point st = some st1 ∧ MineLoopInv mapSize st1 := by
  obtain ⟨hsize, hrange, hclaimed, hsep⟩ := hinv
  have hidx : ∀ offset ∈ DirectionScan3x3, 0 ≤ usedIndex mapSize (point.add offset) ∧
      (usedIndex mapSize (point.add offset)).toNat < st.usedLocations.length := by
    intro offset ho
    obtain ⟨h0, h1⟩ := usedIndex_in_range mapSize point offset hw hp ho
    refine ⟨h0, ?_⟩
    omega
  have hcentre : point.add ⟨0, 0⟩ = point := by
    simp [Point.add]
  have hself := hidx ⟨0, 0⟩ (by simp [DirectionScan3x3])
  rw [hcentre] at hself
  obtain ⟨used, hused⟩ : ∃ used, readUsed st.usedLocations (usedIndex mapSize point) = some used := by
    unfold readUsed
    rw [if_neg (by omega)]
    exact ⟨_, List.getElem?_eq_getElem hself.2⟩
  unfold mineLoopBody
  rw [hused]
  cases used with
  | true =>
    exact ⟨_, rfl, ⟨hsize, hrange, hclaimed, hsep⟩⟩
  | false =>
    obtain ⟨u1, hm, hlen, hkeep, hset⟩ := markUsed_spec mapSize point DirectionScan3x3
      st.usedLocations hidx
    simp only [Bool.not_false, if_true, hm]
    refine ⟨_, rfl, ⟨?_, ?_, ?_, ?_⟩⟩
    · simpa [hlen] using hsize
    · intro p hpm
      rcases List.mem_append.1 hpm with h | h
      · exact hrange p h
      · rw [List.mem_singleton.1 h]; exact hp
    · intro p hpm offset ho
      rcases List.mem_append.1 hpm with h | h
      · exact hkeep _ (hclaimed p h offset ho)
      · rw [List.mem_singleton.1 h]; exact hset offset ho
    · rw [List.pairwise_append]
      refine ⟨hsep, List.pairwise_singleton _ _, ?_⟩
      intro p hpm q hq
      rw [List.mem_singleton.1 hq]
      by_contra hns
      unfold Separated at hns
      have hmem : (⟨point.x - p.x, point.y - p.y⟩ : Vector) ∈ DirectionScan3x3 :=
        offset_mem _ _ (by omega) (by omega) (by omega) (by omega)
      have hc := hclaimed p hpm _ hmem
      have hpt : p.add ⟨point.x - p.x, point.y - p.y⟩ = point := by
        cases point
        simp [Point.add]
      rw [hpt, hused] at hc
      cases hc

theorem getTile_congr (m1 m2 : TileMap) (h1 : m1.mSizeInTiles = m2.mSizeInTiles)
    (h2 : m1.mMaxDepth = m2.mMaxDepth) (h3 : m1.mTileMap = m2.mTileMap) (p : MapCoordinate) :
    m1.getTile p = m2.getTile p := by
  unfold TileMap.getTile TileMap.isValidPosition TileMap.tileSlot
  rw [h1, h2, h3]

theorem hasMineAt_writeTile (m : TileMap) (hm : m.WellFormed) (p : MapCoordinate)
    (hp : m.InBounds p) (tile : Tile) (q : MapCoordinate) :
    (m.writeTile (m.tileSlot p) tile).HasMineAt q ↔
      ((q = p ∧ tile.hasMine = true) ∨ (q ≠ p ∧ m.HasMineAt q)) := by
  unfold TileMap.HasMineAt
  by_cases hqp : q = p
  · subst hqp
    rw [getTile_writeTile_same m hm q hp tile]
    constructor
    · rintro ⟨t, ht, hmine⟩
      cases ht
      exact Or.inl ⟨rfl, hmine⟩
    · rintro (⟨_, h⟩ | ⟨h, _⟩)
      · exact ⟨tile, rfl, h⟩
      · exact absurd rfl h
  · have hget : (m.writeTile (m.tileSlot p) tile).getTile q = m.getTile q := by
      by_cases hqb : m.InBounds q
      · exact getTile_writeTile_other m hm p q hp hqb hqp tile
      · exact getTile_writeTile_outside m _ q hqb tile
    rw [hget]
    constructor
    · intro h; exact Or.inr ⟨hqp, h⟩
    · rintro (⟨h, _⟩ | ⟨_, h⟩)
      · exact absurd h hqp
      · exact h

theorem getTileMut_ok (m : TileMap) (p : MapCoordinate) (slot : Nat) (tile : Tile)
    (h : m.getTileMut p = Except.ok (slot, tile)) :
    m.getTile p = Except.ok tile ∧ slot = m.tileSlot p := by
  unfold TileMap.getTileMut at h
  cases hg : m.getTile p with
  | error e => rw [hg] at h; cases h
  | ok t =>
    rw [hg] at h
    cases h
    exact ⟨rfl, rfl⟩

theorem getTileMut_of_inBounds (m : TileMap) (hm : m.WellFormed) (p : MapCoordinate)
    (hp : m.InBounds p) : ∃ tile, m.getTileMut p = Except.ok (m.tileSlot p, tile) := by
  obtain ⟨_, h⟩ := getTile_of_inBounds m hm p hp
  exact ⟨_, getTileMut_eq m p _ h⟩

theorem placeMinesLoop_spec (mineYields : Int × Int × Int) (randValue : Nat → Int) :
    ∀ (locations : List Point) (k : Nat) (m : TileMap), m.WellFormed →
      (∀ p ∈ locations, m.InBounds ⟨p, 0⟩) →
      ∃ m1, placeMinesLoop mineYields randValue locations k m = Except.ok m1 ∧
        m1.WellFormed ∧ m1.SameShape m ∧ m1.mMineLocations = m.mMineLocations ∧
        ∀ q : MapCoordinate, m1.HasMineAt q ↔ (m.HasMineAt q ∨ (q.z = 0 ∧ q.xy ∈ locations)) := by
  intro locations
  induction locations with
  | nil =>
    intro k m hm _
    exact ⟨m, rfl, hm, ⟨rfl, rfl⟩, rfl, fun q => by simp⟩
  | cons location rest ih =>
    intro k m hm hall
    have hp := hall location (List.mem_cons_self _ _)
    obtain ⟨tile, ht⟩ := getTileMut_of_inBounds m hm ⟨location, 0⟩ hp
    simp only [placeMinesLoop, ht]
    have hm' := wellFormed_writeTile m hm (m.tileSlot ⟨location, 0⟩)
      ((tile.pushMine (some (Mine.create (randYield mineYields (randValue k))))).setIndex
        TerrainType.Dozed)
    obtain ⟨m1, hrun, hwf, hshape, hlist, hmines⟩ := ih (k + 1) _ hm' (by
      intro p hpm
      exact hall p (List.mem_cons_of_mem _ hpm))
    refine ⟨m1, hrun, hwf, hshape, hlist, ?_⟩
    intro q
    rw [hmines q, hasMineAt_writeTile m hm _ hp]
    have hmine : ((tile.pushMine (some (Mine.create (randYield mineYields (randValue k))))).setIndex
        TerrainType.Dozed).hasMine = true := rfl
    constructor
    · rintro ((⟨h, _⟩ | ⟨_, h⟩) | ⟨h1, h2⟩)
      · subst h; exact Or.inr ⟨rfl, List.mem_cons_self _ _⟩
      · exact Or.inl h
      · exact Or.inr ⟨h1, List.mem_cons_of_mem _ h2⟩
    · rintro (h | ⟨h1, h2⟩)
      · by_cases hq : q = ⟨location, 0⟩
        · exact Or.inl (Or.inl ⟨hq, hmine⟩)
        · exact Or.inl (Or.inr ⟨hq, h⟩)
      · rcases List.mem_cons.1 h2 with h | h
        · refine Or.inl (Or.inl ⟨?_, hmine⟩)
          cases q
          simp only at h1 h
          rw [h1, h]
        · exact Or.inr ⟨h1, h⟩

theorem mem_pointsInRectangle (size : Vector) (p : Point) (h : p ∈ pointsInRectangle size) :
    0 ≤ p.x ∧ p.x < size.x ∧ 0 ≤ p.y ∧ p.y < size.y := by
  unfold pointsInRectangle at h
  rw [List.mem_flatMap] at h
  obtain ⟨y, hy, hp⟩ := h
  rw [List.mem_map] at hp
  obtain ⟨x, hx, hp⟩ := hp
  rw [List.mem_range] at hx hy
  subst hp
  simp only [Int.ofNat_eq_coe]
  omega

theorem mem_levels (maxDepth depth : Int) (h : depth ∈ levels maxDepth) :
    0 ≤ depth ∧ depth ≤ maxDepth := by
  unfold levels at h
  rw [List.mem_map] at h
  obtain ⟨k, hk, hd⟩ := h
  rw [List.mem_range] at hk
  subst hd
  simp only [Int.ofNat_eq_coe]
  omega

theorem separated_ne (p q : Point) (h : Separated 2 p q) : p ≠ q := by
  intro hpq
  subst hpq
  unfold Separated at h
  omega

theorem mineLoopRun_inv (mapSize : Vector) (mineCount : Nat)
    (randPoint : Nat → Point) (hw : 10 ≤ mapSize.x) (hh : 10 ≤ mapSize.y)
    (hwh : mapSize.x * mapSize.y < 2 ^ 31) (hdraw : ∀ k, DrawInRange mapSize (randPoint k)) :
    ∃ final, mineLoopRun mapSize mineCount randPoint = some final ∧
      MineLoopInv mapSize final := by
  unfold mineLoopRun
  apply mineLoop_returns mapSize mineCount randPoint (MineLoopInv mapSize)
  · intro st hP _
    exact mineLoopBody_inv mapSize (randPoint st.i) st hw (hdraw st.i) hP
  · have h0 : 0 ≤ mapSize.x * mapSize.y := Int.mul_nonneg (by omega) (by omega)
    refine ⟨?_, ?_, ?_, List.Pairwise.nil⟩
    · simp only [mineLoopStart, List.length_replicate]
      rw [toSizeT_eq h0 (by omega), Int.toNat_of_nonneg h0]
    · intro p hp; cases hp
    · intro p hp; cases hp

theorem generateMineLocationsRun_ok_iff (limits : VectorLimits) (mapSize : Vector)
    (mineCount : Nat) (randPoint : Nat → Point) (final : MineLoopState) :
    generateMineLocationsRun limits mapSize mineCount randPoint = Except.ok final ↔
      (limits.Accepts mineCount ∧ mineLoopRun mapSize mineCount randPoint = some final) := by
  unfold generateMineLocationsRun reserveLocations VectorLimits.Accepts
  by_cases hc : mineCount > limits.maxSize
  · rw [if_pos hc]
    constructor
    · intro h; cases h
    · rintro ⟨⟨h, _⟩, _⟩; omega
  · rw [if_neg hc]
    by_cases ha : mineCount > limits.available
    · rw [if_pos ha]
      constructor
      · intro h; cases h
      · rintro ⟨⟨_, h⟩, _⟩; omega
    · rw [if_neg ha]
      cases hr : mineLoopRun mapSize mineCount randPoint with
      | none =>
        constructor
        · intro h; cases h
        · rintro ⟨_, h⟩; cases h
      | some st =>
        constructor
        · intro h
          cases h
          exact ⟨⟨by omega, by omega⟩, rfl⟩
        · rintro ⟨_, h⟩
          cases h
          rfl

theorem generateMineLocations_ok_iff (limits : VectorLimits) (mapSize : Vector) (mineCount : Nat)
    (randPoint : Nat → Point) (locations : List Point) :
    generateMineLocations limits mapSize mineCount randPoint = Except.ok locations ↔
      ∃ final, generateMineLocationsRun limits mapSize mineCount randPoint = Except.ok final ∧
        final.locations = locations := by
  unfold generateMineLocations
  cases hr : generateMineLocationsRun limits mapSize mineCount randPoint with
  | error e =>
    constructor
    · intro h; cases h
    · rintro ⟨_, h, _⟩; cases h
  | ok st =>
    constructor
    · intro h
      cases h
      exact ⟨st, rfl, rfl⟩
    · rintro ⟨final, h, hl⟩
      cases h
      subst hl
      rfl

theorem generateMineLocations_throws (limits : VectorLimits) (mapSize : Vector) (mineCount : Nat)
    (randPoint : Nat → Point) (h : limits.maxSize < mineCount) :
    generateMineLocationsRun limits mapSize mineCount randPoint
        = Except.error Error.lengthError ∧
    generateMineLocations limits mapSize mineCount randPoint
        = Except.error Error.lengthError := by
  have hrun : generateMineLocationsRun limits mapSize mineCount randPoint
      = Except.error Error.lengthError := by
    unfold generateMineLocationsRun reserveLocations
    rw [if_pos h]
  refine ⟨hrun, ?_⟩
  unfold generateMineLocations
  rw [hrun]

theorem generateMineLocations_badAlloc (limits : VectorLimits) (mapSize : Vector)
    (mineCount : Nat) (randPoint : Nat → Point) (h1 : mineCount ≤ limits.maxSize)
    (h2 : limits.available < mineCount) :
    generateMineLocations limits mapSize mineCount randPoint
      = Except.error Error.badAlloc := by
  have hrun : generateMineLocationsRun limits mapSize mineCount randPoint
      = Except.error Error.badAlloc := by
    unfold generateMineLocationsRun reserveLocations
    rw [if_neg (by omega), if_pos h2]
  unfold generateMineLocations
  rw [hrun]

theorem generateMineLocations_returns (limits : VectorLimits) (mapSize : Vector) (mineCount : Nat)
    (randPoint : Nat → Point) (hsize : limits.Accepts mineCount)
    (hw : 10 ≤ mapSize.x) (hh : 10 ≤ mapSize.y)
    (hwh : mapSize.x * mapSize.y < 2 ^ 31) (hdraw : ∀ k, DrawInRange mapSize (randPoint k)) :
    ∃ final, generateMineLocationsRun limits mapSize mineCount randPoint = Except.ok final ∧
      generateMineLocations limits mapSize mineCount randPoint = Except.ok final.locations ∧
      mineLoopRun mapSize mineCount randPoint = some final ∧
      MineLoopInv mapSize final := by
  obtain ⟨final, hrun, hinv⟩ := mineLoopRun_inv mapSize mineCount randPoint hw hh hwh hdraw
  have hok := (generateMineLocationsRun_ok_iff limits mapSize mineCount randPoint final).2
    ⟨hsize, hrun⟩
  exact ⟨final, hok,
    (generateMineLocations_ok_iff limits mapSize mineCount randPoint final.locations).2
      ⟨final, hok, rfl⟩, hrun, hinv⟩

/-- The loop state behind a list that `generateMineLocations` returns, with
the invariant of the loop. -/
theorem generateMineLocations_ok_inv (limits : VectorLimits) (mapSize : Vector) (mineCount : Nat)
    (randPoint : Nat → Point) (locations : List Point)
    (hw : 10 ≤ mapSize.x) (hh : 10 ≤ mapSize.y)
    (hwh : mapSize.x * mapSize.y < 2 ^ 31) (hdraw : ∀ k, DrawInRange mapSize (randPoint k))
    (h : generateMineLocations limits mapSize mineCount randPoint = Except.ok locations) :
    ∃ final, mineLoopRun mapSize mineCount randPoint = some final ∧
      final.locations = locations ∧ MineLoopInv mapSize final ∧ limits.Accepts mineCount := by
  obtain ⟨final, hfinal, hl⟩ :=
    (generateMineLocations_ok_iff limits mapSize mineCount randPoint locations).1 h
  obtain ⟨hsize, hrun⟩ :=
    (generateMineLocationsRun_ok_iff limits mapSize mineCount randPoint final).1 hfinal
  obtain ⟨final2, hrun2, hinv⟩ := mineLoopRun_inv mapSize mineCount randPoint hw hh hwh hdraw
  rw [hrun] at hrun2
  cases hrun2
  exact ⟨final, hrun, hl, hinv, hsize⟩

theorem smallMap_wellFormed : smallMap.WellFormed :=
  ⟨by decide, by decide, by decide, by decide, by decide⟩

theorem closeDraws_inRange (k : Nat) : DrawInRange ⟨12, 10⟩ (closeDraws k) := by
  unfold closeDraws
  split <;> decide

/-- C1. On a well-formed map `TileMap::getTile` returns a tile exactly when
`0 <= x < width`, `0 <= y < height` and `0 <= z <= maxDepth`; at every other
position it throws the runtime error "Tile coordinates out of bounds: ...".
The mutable overload succeeds on exactly the positions on which the const
overload succeeds and fails with the same error where it fails. -/
theorem getTile_ok_iff_inBounds (m : TileMap) (hm : m.WellFormed) (p : MapCoordinate) :
    ((∃ tile, m.getTile p = Except.ok tile) ↔
      (0 ≤ p.xy.x ∧ p.xy.x < m.mSizeInTiles.x ∧ 0 ≤ p.xy.y ∧ p.xy.y < m.mSizeInTiles.y ∧
        0 ≤ p.z ∧ p.z ≤ m.mMaxDepth)) ∧
    (¬ (0 ≤ p.xy.x ∧ p.xy.x < m.mSizeInTiles.x ∧ 0 ≤ p.xy.y ∧ p.xy.y < m.mSizeInTiles.y ∧
        0 ≤ p.z ∧ p.z ≤ m.mMaxDepth) →
      m.getTile p = Except.error (Error.runtimeError (outOfBoundsMessage p))) ∧
    ((∃ ref, m.getTileMut p = Except.ok ref) ↔ ∃ tile, m.getTile p = Except.ok tile) ∧
    (∀ e, m.getTileMut p = Except.error e ↔ m.getTile p = Except.error e) := by
  refine ⟨⟨?_, ?_⟩, ?_, ?_, ?_⟩
  · rintro ⟨tile, ht⟩
    by_contra hp
    rw [getTile_of_not_inBounds m p hp] at ht
    cases ht
  · intro hp
    obtain ⟨h, ht⟩ := getTile_of_inBounds m hm p hp
    exact ⟨_, ht⟩
  · exact getTile_of_not_inBounds m p
  · unfold TileMap.getTileMut
    cases m.getTile p <;> simp
  · intro e
    unfold TileMap.getTileMut
    cases m.getTile p <;> simp

/-- Witness of C1 on the 2 by 2 map: the lookup at (1, 0, 0) returns a tile
and the lookup at (1, 0, 1) throws. -/
theorem getTile_ok_iff_inBounds_witness :
    smallMap.WellFormed ∧ (∃ tile, smallMap.getTile ⟨⟨1, 0⟩, 0⟩ = Except.ok tile) ∧
    smallMap.getTile ⟨⟨1, 0⟩, 1⟩
      = Except.error (Error.runtimeError (outOfBoundsMessage ⟨⟨1, 0⟩, 1⟩)) :=
  ⟨smallMap_wellFormed,
   (getTile_ok_iff_inBounds smallMap smallMap_wellFormed ⟨⟨1, 0⟩, 0⟩).1.2 (by decide),
   (getTile_ok_iff_inBounds smallMap smallMap_wellFormed ⟨⟨1, 0⟩, 1⟩).2.1 (by decide)⟩

/-- C3. On a well-formed map, for an in-bounds surface point whose depth-0
tile holds no mine, `removeMineLocation` throws the runtime error "No mine
found to remove" and the map (location list and tiles) is as before. -/
theorem removeMineLocation_without_mine (m : TileMap) (hm : m.WellFormed) (pt : Point)
    (hpt : m.InBounds ⟨pt, 0⟩)
    (hmine : ∀ tile, m.getTile ⟨pt, 0⟩ = Except.ok tile → tile.hasMine = false) :
    m.removeMineLocation pt
      = (Except.error (Error.runtimeError "No mine found to remove"), m) := by
  obtain ⟨tile, ht⟩ : ∃ tile, m.getTile ⟨pt, 0⟩ = Except.ok tile := by
    obtain ⟨_, h⟩ := getTile_of_inBounds m hm ⟨pt, 0⟩ hpt
    exact ⟨_, h⟩
  have hno := hmine tile ht
  unfold TileMap.removeMineLocation
  rw [getTileMut_eq m _ _ ht]
  simp [hno]

/-- Witness of C3 on the 2 by 2 map at the point (0, 0), whose tile has no mine. -/
theorem removeMineLocation_without_mine_witness :
    smallMap.WellFormed ∧ smallMap.InBounds ⟨⟨0, 0⟩, 0⟩ ∧
    smallMap.removeMineLocation ⟨0, 0⟩
      = (Except.error (Error.runtimeError "No mine found to remove"), smallMap) :=
  ⟨smallMap_wellFormed, by decide,
   removeMineLocation_without_mine smallMap smallMap_wellFormed ⟨0, 0⟩ (by decide) (by
     intro tile ht
     have h : smallMap.getTile ⟨⟨0, 0⟩, 0⟩ = Except.ok { mPosition := ⟨⟨0, 0⟩, 0⟩ } := by rfl
     rw [h] at ht
     cases ht
     rfl)⟩

/-- C4. On a well-formed map, for a point of the location list whose depth-0
tile holds a mine, `removeMineLocation` succeeds; afterwards that tile is the
old tile with the mine reference cleared (terrain and occupant kept), the
location list is the old list without the first occurrence of the point (the
other entries in their order), the lookup at every other position returns
what it returned before, and every other slot of the tile vector is unchanged. -/
theorem removeMineLocation_with_mine (m : TileMap) (hm : m.WellFormed) (pt : Point) (tile : Tile)
    (hin : pt ∈ m.mMineLocations)
    (ht : m.getTile ⟨pt, 0⟩ = Except.ok tile) (hmine : tile.hasMine = true) :
    (m.removeMineLocation pt).1 = Except.ok () ∧
    (m.removeMineLocation pt).2.getTile ⟨pt, 0⟩ = Except.ok { tile with mMine := none } ∧
    (m.removeMineLocation pt).2.mMineLocations = m.mMineLocations.erase pt ∧
    (∃ before after, m.mMineLocations = before ++ pt :: after ∧ pt ∉ before ∧
      (m.removeMineLocation pt).2.mMineLocations = before ++ after) ∧
    (∀ q : MapCoordinate, q ≠ ⟨pt, 0⟩ →
      (m.removeMineLocation pt).2.getTile q = m.getTile q) ∧
    (∀ slot, slot ≠ m.tileSlot ⟨pt, 0⟩ →
      (m.removeMineLocation pt).2.mTileMap[slot]? = m.mTileMap[slot]?) := by
  have hpt := inBounds_of_getTile_ok m _ _ ht
  have hrm : m.removeMineLocation pt = (Except.ok (),
      ({ m with mMineLocations := m.mMineLocations.erase pt } : TileMap).writeTile
        (m.tileSlot ⟨pt, 0⟩) (tile.pushMine none)) := by
    unfold TileMap.removeMineLocation
    rw [getTileMut_eq m _ _ ht]
    simp [hmine, hin]
  have hm1 : ({ m with mMineLocations := m.mMineLocations.erase pt } : TileMap).WellFormed :=
    ⟨hm.1, hm.2, hm.3, hm.4, hm.5⟩
  rw [hrm]
  refine ⟨rfl, ?_, rfl, ?_, ?_, ?_⟩
  · exact getTile_writeTile_same _ hm1 ⟨pt, 0⟩ hpt _
  · obtain ⟨before, after, h1, h2, h3⟩ := List.exists_erase_eq hin
    exact ⟨before, after, h2, h1, h3⟩
  · intro q hq
    by_cases hqb : m.InBounds q
    · exact getTile_writeTile_other _ hm1 ⟨pt, 0⟩ q hpt hqb hq _
    · exact getTile_writeTile_outside _ _ q hqb _
  · intro slot hs
    simp [TileMap.writeTile, List.getElem?_set, Ne.symm hs]

/-- Witness of C4 on the 2 by 2 map at the point (1, 0), whose tile has the mine. -/
theorem removeMineLocation_with_mine_witness :
    smallMap.WellFormed ∧ (⟨1, 0⟩ : Point) ∈ smallMap.mMineLocations ∧
    (smallMap.removeMineLocation ⟨1, 0⟩).1 = Except.ok () ∧
    (smallMap.removeMineLocation ⟨1, 0⟩).2.getTile ⟨⟨1, 0⟩, 0⟩
      = Except.ok { mPosition := ⟨⟨1, 0⟩, 0⟩ } ∧
    (smallMap.removeMineLocation ⟨1, 0⟩).2.mMineLocations = [] :=
  have h := removeMineLocation_with_mine smallMap smallMap_wellFormed ⟨1, 0⟩
    { mPosition := ⟨⟨1, 0⟩, 0⟩, mMine := some {} } (by decide) (by rfl) (by rfl)
  ⟨smallMap_wellFormed, by decide, h.1, h.2.1, h.2.2.1⟩

/-! ## The mine location list -/

/-- C6. For every map size, requested count and sequence of drawn points,
when `generateMineLocations` returns, the loop has made at most `2 * count`
draws (the final value of the counter `i`) and the list returned has at most
`count` locations; the loop stopped because its test was false. When the
count exceeds the `max_size()` of the vector of locations, the call throws
`std::length_error` from `reserve`, and when the allocation for the count
fails it throws `std::bad_alloc`, in both cases before any draw. When
`reserve` accepts the count, the call does return, without access outside
`usedLocations`, if the map is at least 10 by 10 tiles and every draw lies
between 5 and the size minus 5. -/
theorem generateMineLocations_bounded (limits : VectorLimits) (mapSize : Vector) (mineCount : Nat)
    (randPoint : Nat → Point) :
    (∀ final, generateMineLocationsRun limits mapSize mineCount randPoint = Except.ok final →
      final.i ≤ 2 * mineCount ∧ final.locations.length ≤ mineCount ∧
      mineLoopTest mineCount final = false) ∧
    (∀ locations,
      generateMineLocations limits mapSize mineCount randPoint = Except.ok locations →
      locations.length ≤ mineCount) ∧
    (limits.maxSize < mineCount →
      generateMineLocations limits mapSize mineCount randPoint
        = Except.error Error.lengthError) ∧
    (mineCount ≤ limits.maxSize → limits.available < mineCount →
      generateMineLocations limits mapSize mineCount randPoint
        = Except.error Error.badAlloc) ∧
    (limits.Accepts mineCount → 10 ≤ mapSize.x → 10 ≤ mapSize.y →
      mapSize.x * mapSize.y < 2 ^ 31 → (∀ k, DrawInRange mapSize (randPoint k)) →
      ∃ final,
        generateMineLocationsRun limits mapSize mineCount randPoint = Except.ok final ∧
        generateMineLocations limits mapSize mineCount randPoint
          = Except.ok final.locations ∧
        final.i ≤ 2 * mineCount ∧ final.locations.length ≤ mineCount) := by
  have hcount : ∀ final,
      generateMineLocationsRun limits mapSize mineCount randPoint = Except.ok final →
      final.i ≤ 2 * mineCount ∧ final.locations.length ≤ mineCount := by
    intro final h
    have hloop := ((generateMineLocationsRun_ok_iff limits mapSize mineCount randPoint
      final).1 h).2
    obtain ⟨h1, h2⟩ := mineLoop_counts mapSize mineCount randPoint final hloop
    have := wrapSizeT_le (mineCount * 2)
    exact ⟨by omega, h2⟩
  refine ⟨?_, ?_, ?_, ?_, ?_⟩
  · intro final h
    obtain ⟨h1, h2⟩ := hcount final h
    refine ⟨h1, h2, ?_⟩
    have hloop := ((generateMineLocationsRun_ok_iff limits mapSize mineCount randPoint
      final).1 h).2
    unfold mineLoopRun at hloop
    exact mineLoop_exit mapSize mineCount randPoint _ _ final (by
      show wrapSizeT (mineCount * 2) ≤ wrapSizeT (mineCount * 2) + 0
      omega) hloop
  · intro locations h
    obtain ⟨final, hfinal, hl⟩ :=
      (generateMineLocations_ok_iff limits mapSize mineCount randPoint locations).1 h
    rw [← hl]
    exact (hcount final hfinal).2
  · intro hsize
    exact (generateMineLocations_throws limits mapSize mineCount randPoint hsize).2
  · intro h1 h2
    exact generateMineLocations_badAlloc limits mapSize mineCount randPoint h1 h2
  · intro hsize hw hh hwh hdraw
    obtain ⟨final, hr, hgen, _, _⟩ :=
      generateMineLocations_returns limits mapSize mineCount randPoint hsize hw hh hwh hdraw
    obtain ⟨h1, h2⟩ := hcount final hr
    exact ⟨final, hr, hgen, h1, h2⟩

/-- Witness of C6: two mines requested on a map of 12 by 10 tiles, the draws
being (5, 5), then (7, 5); and the count `2^63`, above `max_size()`. -/
theorem generateMineLocations_bounded_witness :
    (sampleLimits.Accepts 2 ∧ (10 : Int) ≤ 12 ∧ (10 : Int) ≤ 10 ∧ (12 : Int) * 10 < 2 ^ 31 ∧
      ∃ final, generateMineLocationsRun sampleLimits ⟨12, 10⟩ 2 closeDraws = Except.ok final ∧
        generateMineLocations sampleLimits ⟨12, 10⟩ 2 closeDraws
          = Except.ok final.locations ∧
        final.i ≤ 2 * 2 ∧ final.locations.length ≤ 2) ∧
    (sampleLimits.maxSize < 2 ^ 63 ∧
      generateMineLocations sampleLimits ⟨10, 10⟩ (2 ^ 63) closeDraws
        = Except.error Error.lengthError) :=
  ⟨⟨by decide, by decide, by decide, by decide,
    (generateMineLocations_bounded sampleLimits ⟨12, 10⟩ 2 closeDraws).2.2.2.2 (by decide)
      (by decide) (by decide) (by decide) closeDraws_inRange⟩,
   ⟨by decide,
    (generateMineLocations_bounded sampleLimits ⟨10, 10⟩ (2 ^ 63) closeDraws).2.2.1
      (by decide)⟩⟩

/-- C7, counterexample. On a map of 12 by 10 tiles with two mines requested
and the draws (5, 5), then (7, 5), both points are accepted: they differ by 2
in `x` and 0 in `y`, and the tile (6, 5) lies in the 3x3 neighbourhood of
both. Only the drawn point itself is tested against the claimed tiles. -/
theorem generateMineLocations_neighbourhoods_overlap :
    generateMineLocations sampleLimits ⟨12, 10⟩ 2 closeDraws
      = Except.ok [⟨5, 5⟩, ⟨7, 5⟩] ∧
    ¬ Separated 3 ⟨5, 5⟩ ⟨7, 5⟩ ∧
    (⟨1, 0⟩ : Vector) ∈ DirectionScan3x3 ∧ (⟨-1, 0⟩ : Vector) ∈ DirectionScan3x3 ∧
    (⟨5, 5⟩ : Point).add ⟨1, 0⟩ = (⟨7, 5⟩ : Point).add ⟨-1, 0⟩ := by
  refine ⟨?_, by decide, by decide, by decide, by decide⟩
  apply (generateMineLocations_ok_iff sampleLimits ⟨12, 10⟩ 2 closeDraws _).2
  have hloop : (mineLoopRun ⟨12, 10⟩ 2 closeDraws).map MineLoopState.locations
      = some [⟨5, 5⟩, ⟨7, 5⟩] := by decide
  cases hr : mineLoopRun ⟨12, 10⟩ 2 closeDraws with
  | none => rw [hr] at hloop; cases hloop
  | some final =>
    rw [hr] at hloop
    refine ⟨final, ?_, ?_⟩
    · exact (generateMineLocationsRun_ok_iff sampleLimits ⟨12, 10⟩ 2 closeDraws final).2
        ⟨by decide, hr⟩
    · exact Option.some.inj hloop

/-- C7, amended. On a map of at least 10 by 10 tiles, with every draw between
5 and the size minus 5, of the locations that `generateMineLocations` returns
no one lies in the 3x3 neighbourhood of another: a drawn point is rejected
when the point itself was already claimed, so any two returned locations
differ by at least 2 in `x` or in `y`. The call returns when `reserve`
accepts the count. -/
theorem generateMineLocations_keeps_distance (limits : VectorLimits) (mapSize : Vector)
    (mineCount : Nat) (randPoint : Nat → Point) (hw : 10 ≤ mapSize.x) (hh : 10 ≤ mapSize.y)
    (hwh : mapSize.x * mapSize.y < 2 ^ 31) (hdraw : ∀ k, DrawInRange mapSize (randPoint k)) :
    (∀ locations,
      generateMineLocations limits mapSize mineCount randPoint = Except.ok locations →
      locations.Pairwise (Separated 2) ∧
      (∀ p ∈ locations, ∀ q ∈ locations, p ≠ q →
        Separated 2 p q ∧ ∀ offset ∈ DirectionScan3x3, p.add offset ≠ q)) ∧
    (limits.Accepts mineCount →
      ∃ locations,
        generateMineLocations limits mapSize mineCount randPoint = Except.ok locations) := by
  constructor
  · intro locations hgen
    obtain ⟨final, _, hl, hinv, _⟩ := generateMineLocations_ok_inv limits mapSize mineCount
      randPoint locations hw hh hwh hdraw hgen
    subst hl
    refine ⟨hinv.separated, ?_⟩
    intro p hp q hq hne
    have hsymm : Symmetric (Separated 2) := by
      intro a b h
      unfold Separated at h ⊢
      omega
    have hsep : Separated 2 p q := hinv.separated.forall hsymm hp hq hne
    refine ⟨hsep, ?_⟩
    intro offset ho heq
    obtain ⟨h1, h2, h3, h4⟩ := offset_small offset ho
    subst heq
    unfold Separated Point.add at hsep
    simp only at hsep
    omega
  · intro hsize
    obtain ⟨final, _, hgen, _, _⟩ :=
      generateMineLocations_returns limits mapSize mineCount randPoint hsize hw hh hwh hdraw
    exact ⟨final.locations, hgen⟩

/-- Witness of C7 (amended): two mines requested on a map of 12 by 10 tiles,
the draws being (5, 5), then (7, 5). -/
theorem generateMineLocations_keeps_distance_witness :
    (10 : Int) ≤ 12 ∧ (10 : Int) ≤ 10 ∧ (12 : Int) * 10 < 2 ^ 31 ∧
    ∃ locations, generateMineLocations sampleLimits ⟨12, 10⟩ 2 closeDraws
        = Except.ok locations ∧
      locations.Pairwise (Separated 2) :=
  have h := generateMineLocations_keeps_distance sampleLimits ⟨12, 10⟩ 2 closeDraws
    (by decide) (by decide) (by decide) closeDraws_inRange
  ⟨by decide, by decide, by decide,
    (h.2 (by decide)).elim fun locations hl => ⟨locations, hl, (h.1 locations hl).1⟩⟩

/-- C8. For each hostility level the table has an entry, and of the draw
values `1, ..., total` (`total` the sum of the three weights) exactly
`weight_low` give `Low`, exactly `weight_medium` give `Medium` and exactly
`weight_high` give `High`; for low hostility the weights are 30, 50 and 20
and the total is 100. -/
theorem randYield_counts (hostility : Hostility) :
    ∃ mineYields, HostilityMineYields.lookup hostility = some mineYields ∧
      (((drawValues (yieldTotal mineYields)).filter
          fun v => decide (randYield mineYields v = MineProductionRate.Low)).length : Int)
        = mineYields.1 ∧
      (((drawValues (yieldTotal mineYields)).filter
          fun v => decide (randYield mineYields v = MineProductionRate.Medium)).length : Int)
        = mineYields.2.1 ∧
      (((drawValues (yieldTotal mineYields)).filter
          fun v => decide (randYield mineYields v = MineProductionRate.High)).length : Int)
        = mineYields.2.2 ∧
      (hostility = Hostility.Low → mineYields = (30, 50, 20) ∧ yieldTotal mineYields = 100) := by
  cases hostility
  · exact ⟨(30, 50, 20), rfl, by decide, by decide, by decide, fun _ => ⟨rfl, rfl⟩⟩
  · exact ⟨(45, 35, 20), rfl, by decide, by decide, by decide, fun h => by cases h⟩
  · exact ⟨(35, 20, 45), rfl, by decide, by decide, by decide, fun h => by cases h⟩

/-! ## View window -/

/-- C9. On a map with `maxDepth >= 0` and a view edge length `e` with
`1 <= e <= width` and `e <= height`, after `mapViewLocation`, `centerOn`
(both overloads) or `moveView` with any argument the view origin satisfies
`0 <= x <= width - e` and `0 <= y <= height - e` and the current depth
satisfies `0 <= depth <= maxDepth`; `currentDepth(i)` alone gives the depth
bound. -/
theorem view_operations_clamp (m : TileMap)
    (_he : 1 ≤ m.mEdgeLength) (hw : m.mEdgeLength ≤ m.mSizeInTiles.x)
    (hh : m.mEdgeLength ≤ m.mSizeInTiles.y) (hd : 0 ≤ m.mMaxDepth) :
    (∀ position : MapCoordinate,
      (m.mapViewLocation position).ViewInMap ∧ (m.mapViewLocation position).DepthInMap) ∧
    (∀ position : MapCoordinate,
      (m.centerOn position).ViewInMap ∧ (m.centerOn position).DepthInMap) ∧
    (∀ point : Point,
      (m.centerOnPoint point).ViewInMap ∧ (m.centerOnPoint point).DepthInMap) ∧
    (∀ (Direction : Type) (directionEnumToOffset : Direction → Vector)
        (directionEnumToVerticalOffset : Direction → Int) (direction : Direction),
      (m.moveView directionEnumToOffset directionEnumToVerticalOffset direction).ViewInMap ∧
      (m.moveView directionEnumToOffset directionEnumToVerticalOffset direction).DepthInMap) ∧
    (∀ i : Int, (m.currentDepth i).DepthInMap) := by
  refine ⟨?_, ?_, ?_, ?_, ?_⟩
  · intro position
    exact mapViewLocation_bounds m position hw hh hd
  · intro position
    exact mapViewLocation_bounds m _ hw hh hd
  · intro point
    exact mapViewLocation_bounds m _ hw hh hd
  · intro Direction f g direction
    exact mapViewLocation_bounds m _ hw hh hd
  · intro i
    exact clamp_bounds i 0 m.mMaxDepth hd

/-- Witness of C9 on the 2 by 2 map with its view window of one tile: the
view is moved to (5, -3) at depth 7 and centred on (9, 9) at depth -1. -/
theorem view_operations_clamp_witness :
    (1 : Int) ≤ smallMap.mEdgeLength ∧ smallMap.mEdgeLength ≤ smallMap.mSizeInTiles.x ∧
    smallMap.mEdgeLength ≤ smallMap.mSizeInTiles.y ∧ 0 ≤ smallMap.mMaxDepth ∧
    (smallMap.mapViewLocation ⟨⟨5, -3⟩, 7⟩).ViewInMap ∧
    (smallMap.mapViewLocation ⟨⟨5, -3⟩, 7⟩).DepthInMap ∧
    (smallMap.centerOn ⟨⟨9, 9⟩, -1⟩).ViewInMap ∧ (smallMap.centerOn ⟨⟨9, 9⟩, -1⟩).DepthInMap :=
  have h := view_operations_clamp smallMap (by decide) (by decide) (by decide) (by decide)
  ⟨by decide, by decide, by decide, by decide,
   (h.1 ⟨⟨5, -3⟩, 7⟩).1, (h.1 ⟨⟨5, -3⟩, 7⟩).2, (h.2.1 ⟨⟨9, 9⟩, -1⟩).1, (h.2.1 ⟨⟨9, 9⟩, -1⟩).2⟩

/-- C10, counterexample. The map of `MapSize` whose 3 by 3 window sits in the
bottom right corner, origin (297, 147), has its window within the map; after
`viewSize(5)` the edge length is 5 and the origin is still (297, 147), beyond
`width - edgeLength = 295` and `height - edgeLength = 145`. -/
theorem viewSize_window_leaves_map :
    viewAtCorner.WellFormed ∧ viewAtCorner.ViewInMap ∧
    (viewAtCorner.viewSize 5).mEdgeLength = max 3 5 ∧
    (viewAtCorner.viewSize 5).mOriginTilePosition = ⟨⟨297, 147⟩, 0⟩ ∧
    ¬ ((viewAtCorner.viewSize 5).mOriginTilePosition.xy.x
        ≤ (viewAtCorner.viewSize 5).mSizeInTiles.x - (viewAtCorner.viewSize 5).mEdgeLength) ∧
    ¬ ((viewAtCorner.viewSize 5).mOriginTilePosition.xy.y
        ≤ (viewAtCorner.viewSize 5).mSizeInTiles.y - (viewAtCorner.viewSize 5).mEdgeLength) := by
  refine ⟨⟨by decide, by decide, by decide, ?_, ?_⟩, by decide, by decide, by decide,
    by decide, by decide⟩
  · show (((List.replicate 45000 ({} : Tile)).length : Nat) : Int) = 300 * 150 * (0 + 1)
    rw [List.length_replicate]; rfl
  · show (List.replicate 45000 ({} : Tile)).length < 2 ^ 64
    rw [List.length_replicate]; decide

/-- C10, amended. `viewSize(n)` sets the edge length to `max(3, n)` and
changes nothing else: the origin is not clamped again. The window still lies
within the map after the call when it did before and `max(3, n)` is at most
the previous edge length. -/
theorem viewSize_sets_edge_only (m : TileMap) (n : Int) :
    (m.viewSize n).mEdgeLength = max 3 n ∧
    (m.viewSize n).mOriginTilePosition = m.mOriginTilePosition ∧
    (m.viewSize n).mSizeInTiles = m.mSizeInTiles ∧
    (m.viewSize n).mMaxDepth = m.mMaxDepth ∧
    (m.viewSize n).mTileMap = m.mTileMap ∧
    (m.viewSize n).mMineLocations = m.mMineLocations ∧
    (m.ViewInMap → max 3 n ≤ m.mEdgeLength → (m.viewSize n).ViewInMap) := by
  refine ⟨rfl, rfl, rfl, rfl, rfl, rfl, ?_⟩
  intro hv hle
  obtain ⟨h1, h2, h3, h4⟩ := hv
  refine ⟨h1, ?_, h3, ?_⟩
  · show m.mOriginTilePosition.xy.x ≤ m.mSizeInTiles.x - max 3 n
    omega
  · show m.mOriginTilePosition.xy.y ≤ m.mSizeInTiles.y - max 3 n
    omega

/-- Witness of C10 (amended): the window of 5 by 5 tiles obtained in the
counterexample is shrunk to 4 by 4 tiles after being moved back into the map. -/
theorem viewSize_sets_edge_only_witness :
    ((viewAtCorner.viewSize 5).mapViewLocation ⟨⟨300, 150⟩, 0⟩).ViewInMap ∧
    max 3 4 ≤ ((viewAtCorner.viewSize 5).mapViewLocation ⟨⟨300, 150⟩, 0⟩).mEdgeLength ∧
    (((viewAtCorner.viewSize 5).mapViewLocation ⟨⟨300, 150⟩, 0⟩).viewSize 4).ViewInMap :=
  ⟨by decide, by decide,
   (viewSize_sets_edge_only ((viewAtCorner.viewSize 5).mapViewLocation ⟨⟨300, 150⟩, 0⟩)
      4).2.2.2.2.2.2 (by decide) (by decide)⟩

theorem onSurface_iff (m : TileMap) (hm : m.WellFormed) (position : Point) :
    m.onSurface position = true ↔ m.InBounds ⟨position, 0⟩ := by
  unfold TileMap.onSurface TileMap.InBounds
  simp only [Rectangle.contains, Bool.and_eq_true, decide_eq_true_eq]
  have := hm.depth_nonneg
  constructor
  · rintro ⟨⟨⟨a, b⟩, c⟩, d⟩
    exact ⟨a, by simpa using b, c, by simpa using d, le_refl _, this⟩
  · rintro ⟨a, b, c, d, _, _⟩
    exact ⟨⟨⟨a, by simpa using b⟩, c⟩, by simpa using d⟩

theorem neighbourEntry_of_onSurface (m : TileMap) (hm : m.WellFormed) (constants : Constants)
    (structures : Nat → Structure) (position : Point) (h : m.onSurface position = true) :
    ∃ adjacentTile, m.getTile ⟨position, 0⟩ = Except.ok adjacentTile ∧
      m.mTileMap[m.tileSlot ⟨position, 0⟩]? = some adjacentTile ∧
      m.neighbourEntry constants structures position
        = some ⟨m.tileSlot ⟨position, 0⟩,
            m.adjacentTileCost constants structures (m.tileSlot ⟨position, 0⟩) adjacentTile⟩ := by
  have hin := (onSurface_iff m hm position).1 h
  obtain ⟨hlt, ht⟩ := getTile_of_inBounds m hm _ hin
  refine ⟨_, ht, ?_, ?_⟩
  · rw [tileSlot_eq m hm _ hin]
    exact List.getElem?_eq_getElem hlt
  · unfold TileMap.neighbourEntry
    rw [ht]

theorem neighbourEntry_of_not_onSurface (m : TileMap) (hm : m.WellFormed) (constants : Constants)
    (structures : Nat → Structure) (position : Point) (h : m.onSurface position = false) :
    m.neighbourEntry constants structures position = none := by
  have hin : ¬ m.InBounds ⟨position, 0⟩ := by
    rw [← onSurface_iff m hm position, h]; simp
  unfold TileMap.neighbourEntry
  rw [getTile_of_not_inBounds m _ hin]

theorem adjacentCostLoop_spec (m : TileMap) (hm : m.WellFormed) (constants : Constants)
    (structures : Nat → Structure) (tilePosition : Point) :
    ∀ (offsets : List Vector) (adjacent : List StateCost),
      m.adjacentCostLoop constants structures tilePosition offsets adjacent
        = Except.ok (adjacent ++ offsets.filterMap fun offset =>
            m.neighbourEntry constants structures (tilePosition.add offset)) := by
  intro offsets
  induction offsets with
  | nil => intro adjacent; simp [TileMap.adjacentCostLoop]
  | cons offset rest ih =>
    intro adjacent
    cases hc : m.onSurface (tilePosition.add offset) with
    | true =>
      obtain ⟨adjacentTile, ht, _, he⟩ :=
        neighbourEntry_of_onSurface m hm constants structures _ hc
      have hc1 : (Rectangle.mk 0 0 m.mSizeInTiles.x m.mSizeInTiles.y).contains
          (tilePosition.add offset) = true := hc
      simp only [TileMap.adjacentCostLoop, hc1, getTileMut_eq m _ _ ht, ih,
        List.filterMap_cons, he]
      simp
    | false =>
      have he := neighbourEntry_of_not_onSurface m hm constants structures _ hc
      have hc1 : (Rectangle.mk 0 0 m.mSizeInTiles.x m.mSizeInTiles.y).contains
          (tilePosition.add offset) = false := hc
      simp only [TileMap.adjacentCostLoop, hc1, ih, List.filterMap_cons, he]
      simp

theorem adjacentCost_spec (m : TileMap) (hm : m.WellFormed) (constants : Constants)
    (structures : Nat → Structure) (tile : Tile) (adjacent : List StateCost) :
    m.AdjacentCost constants structures tile adjacent
      = (Except.ok (adjacent ++ DirectionClockwise4.filterMap fun offset =>
          m.neighbourEntry constants structures (tile.xy.add offset)), m) := by
  unfold TileMap.AdjacentCost
  simp only [adjacentCostLoop_spec m hm]

theorem point_add_injective (p : Point) (a b : Vector) (h : p.add a = p.add b) : a = b := by
  cases a; cases b
  simp only [Point.add, Point.mk.injEq] at h
  obtain ⟨h1, h2⟩ := h
  congr 1 <;> omega

/-- The entry pushed for an in-bounds neighbour is in the list, and it is the
only entry with its state. -/
theorem adjacentCost_entry (m : TileMap) (hm : m.WellFormed) (constants : Constants)
    (structures : Nat → Structure) (tile : Tile) (offset : Vector) (adjacentTile : Tile)
    (ho : offset ∈ DirectionClockwise4)
    (ht : m.getTile ⟨tile.xy.add offset, 0⟩ = Except.ok adjacentTile) :
    (⟨m.tileSlot ⟨tile.xy.add offset, 0⟩,
        m.adjacentTileCost constants structures (m.tileSlot ⟨tile.xy.add offset, 0⟩)
          adjacentTile⟩ : StateCost)
      ∈ DirectionClockwise4.filterMap (fun offset =>
          m.neighbourEntry constants structures (tile.xy.add offset)) ∧
    ∀ entry ∈ DirectionClockwise4.filterMap (fun offset =>
          m.neighbourEntry constants structures (tile.xy.add offset)),
      entry.state = m.tileSlot ⟨tile.xy.add offset, 0⟩ →
      entry.cost = m.adjacentTileCost constants structures
        (m.tileSlot ⟨tile.xy.add offset, 0⟩) adjacentTile := by
  have hin := inBounds_of_getTile_ok m _ _ ht
  have he : m.neighbourEntry constants structures (tile.xy.add offset)
      = some ⟨m.tileSlot ⟨tile.xy.add offset, 0⟩,
          m.adjacentTileCost constants structures (m.tileSlot ⟨tile.xy.add offset, 0⟩)
            adjacentTile⟩ := by
    unfold TileMap.neighbourEntry; rw [ht]
  constructor
  · rw [List.mem_filterMap]
    exact ⟨offset, ho, he⟩
  · intro entry hmem hstate
    rw [List.mem_filterMap] at hmem
    obtain ⟨offset1, _, he1⟩ := hmem
    cases hg : m.getTile ⟨tile.xy.add offset1, 0⟩ with
    | error e =>
      unfold TileMap.neighbourEntry at he1
      rw [hg] at he1
      cases he1
    | ok tile1 =>
      have hin1 := inBounds_of_getTile_ok m _ _ hg
      unfold TileMap.neighbourEntry at he1
      rw [hg] at he1
      cases he1
      simp only at hstate
      rw [tileSlot_eq m hm _ hin1, tileSlot_eq m hm _ hin] at hstate
      have hpos := flatIndex_inj m _ _ hin1 hin hstate
      have hpt : tile.xy.add offset1 = tile.xy.add offset :=
        congrArg MapCoordinate.xy hpos
      rw [hpt] at hg
      rw [hg] at ht
      cases ht
      simp only [hpt]

theorem adjacentTileCost_impassable (m : TileMap) (constants : Constants)
    (structures : Nat → Structure) (slot : Nat) (adjacentTile : Tile)
    (h : adjacentTile.mIndex = TerrainType.Impassable) :
    m.adjacentTileCost constants structures slot adjacentTile = FloatExpr.FLT_MAX := by
  unfold TileMap.adjacentTileCost
  simp only [h, if_true]

theorem adjacentTileCost_empty (m : TileMap) (constants : Constants)
    (structures : Nat → Structure) (slot : Nat) (adjacentTile : Tile)
    (h : adjacentTile.mIndex ≠ TerrainType.Impassable) (hempty : adjacentTile.mThing = none) :
    m.adjacentTileCost constants structures slot adjacentTile
      = terrainCost adjacentTile.mIndex := by
  unfold TileMap.adjacentTileCost terrainCost
  simp [h, Tile.empty, hempty]

theorem adjacentTileCost_registered (m : TileMap) (constants : Constants)
    (structures : Nat → Structure) (slot : Nat) (adjacentTile : Tile)
    (h : adjacentTile.mIndex ≠ TerrainType.Impassable)
    (hreg : m.mPathStartEndPair.1 = some slot ∨ m.mPathStartEndPair.2 = some slot) :
    m.adjacentTileCost constants structures slot adjacentTile
      = terrainCost adjacentTile.mIndex := by
  have hreg1 : some slot = m.mPathStartEndPair.1 ∨ some slot = m.mPathStartEndPair.2 := by
    rcases hreg with h1 | h1
    · exact Or.inl h1.symm
    · exact Or.inr h1.symm
  unfold TileMap.adjacentTileCost terrainCost
  simp only [h, if_false, hreg1, if_true]
  split <;> rfl

theorem adjacentTileCost_road (m : TileMap) (constants : Constants)
    (structures : Nat → Structure) (slot : Nat) (adjacentTile : Tile) (id : Nat)
    (h : adjacentTile.mIndex ≠ TerrainType.Impassable)
    (hthing : adjacentTile.mThing = some (Thing.structure id))
    (hstart : m.mPathStartEndPair.1 ≠ some slot) (hend : m.mPathStartEndPair.2 ≠ some slot)
    (hroad : (structures id).mStructureId = StructureID.SID_ROAD) :
    m.adjacentTileCost constants structures slot adjacentTile
      = if (structures id).mStructureState ≠ StructureState.Operational then
          terrainCost TerrainType.Difficult
        else if (structures id).mIntegrity < constants.RoadIntegrityChange then
          FloatExpr.literal (3 / 4)
        else FloatExpr.literal (1 / 2) := by
  have hreg : ¬ (some slot = m.mPathStartEndPair.1 ∨ some slot = m.mPathStartEndPair.2) := by
    rintro (h1 | h1)
    · exact hstart h1.symm
    · exact hend h1.symm
  unfold TileMap.adjacentTileCost terrainCost
  simp only [h, if_false, Tile.empty, hthing, Option.isNone_some, Bool.not_false, if_true, hreg,
    Tile.thingIsStructure, Tile.structure, hroad]

theorem adjacentTileCost_blocked (m : TileMap) (constants : Constants)
    (structures : Nat → Structure) (slot : Nat) (adjacentTile : Tile)
    (h : adjacentTile.mIndex ≠ TerrainType.Impassable)
    (hstart : m.mPathStartEndPair.1 ≠ some slot) (hend : m.mPathStartEndPair.2 ≠ some slot)
    (hthing : (∃ id, adjacentTile.mThing = some (Thing.robot id)) ∨
      ∃ id, adjacentTile.mThing = some (Thing.structure id) ∧
        (structures id).mStructureId ≠ StructureID.SID_ROAD) :
    m.adjacentTileCost constants structures slot adjacentTile = FloatExpr.FLT_MAX := by
  have hreg : ¬ (some slot = m.mPathStartEndPair.1 ∨ some slot = m.mPathStartEndPair.2) := by
    rintro (h1 | h1)
    · exact hstart h1.symm
    · exact hend h1.symm
  unfold TileMap.adjacentTileCost
  rcases hthing with ⟨id, hid⟩ | ⟨id, hid, hno⟩
  · simp only [h, if_false, Tile.empty, hid, Option.isNone_some, Bool.not_false, if_true, hreg,
      Tile.thingIsStructure, Tile.structure]
  · simp only [h, if_false, Tile.empty, hid, Option.isNone_some, Bool.not_false, if_true, hreg,
      Tile.thingIsStructure, Tile.structure, hno]

theorem stripMap_wellFormed (roadIndex eastIndex : TerrainType) (pair : Option Nat × Option Nat) :
    (stripMap roadIndex eastIndex pair).WellFormed :=
  ⟨show (0 : Int) ≤ 3 by decide, show (0 : Int) ≤ 1 by decide, show (0 : Int) ≤ 0 by decide,
   show ((3 : Nat) : Int) = 3 * 1 * (0 + 1) by decide, show 3 < 2 ^ 64 by decide⟩

theorem stripMap_road (roadIndex eastIndex : TerrainType) (pair : Option Nat × Option Nat) :
    (stripMap roadIndex eastIndex pair).getTile ⟨stripWestTile.xy.add ⟨1, 0⟩, 0⟩
      = Except.ok (stripRoadTile roadIndex) := by
  rfl

theorem stripMap_east (roadIndex eastIndex : TerrainType) (pair : Option Nat × Option Nat) :
    (stripMap roadIndex eastIndex pair).getTile ⟨(stripRoadTile roadIndex).xy.add ⟨1, 0⟩, 0⟩
      = Except.ok (stripEastTile eastIndex) := by
  rfl

/-! ## Path cost model -/

/-- C11. On a well-formed map, for a cardinal neighbour that lies in the map
and is neither the registered start nor the registered end tile,
`AdjacentCost` pushes one entry for the tile, the only one with that state,
and its cost is: `FLT_MAX` when the terrain is `Impassable`, whatever occupies
the tile; else `RouteBaseCost * (terrain + 1)` when the tile is empty; else,
for a road, `RouteBaseCost * (Difficult + 1)` when the road is not
operational, `0.75` when its integrity is below `RoadIntegrityChange` and
`0.5` otherwise; else, for a robot or a structure that is no road, `FLT_MAX`. -/
theorem adjacentCost_unregistered_neighbour (m : TileMap) (hm : m.WellFormed)
    (constants : Constants) (structures : Nat → Structure) (tile : Tile)
    (adjacent : List StateCost) (offset : Vector) (adjacentTile : Tile)
    (ho : offset ∈ DirectionClockwise4)
    (ht : m.getTile ⟨tile.xy.add offset, 0⟩ = Except.ok adjacentTile)
    (hstart : m.mPathStartEndPair.1 ≠ some (m.tileSlot ⟨tile.xy.add offset, 0⟩))
    (hend : m.mPathStartEndPair.2 ≠ some (m.tileSlot ⟨tile.xy.add offset, 0⟩)) :
    ∃ entries cost,
      (m.AdjacentCost constants structures tile adjacent).1 = Except.ok (adjacent ++ entries) ∧
      (⟨m.tileSlot ⟨tile.xy.add offset, 0⟩, cost⟩ : StateCost) ∈ entries ∧
      (∀ entry ∈ entries, entry.state = m.tileSlot ⟨tile.xy.add offset, 0⟩ →
        entry.cost = cost) ∧
      (adjacentTile.mIndex = TerrainType.Impassable → cost = FloatExpr.FLT_MAX) ∧
      (adjacentTile.mIndex ≠ TerrainType.Impassable → adjacentTile.mThing = none →
        cost = FloatExpr.mul FloatExpr.RouteBaseCost
          (FloatExpr.add (FloatExpr.ofInt adjacentTile.mIndex) (FloatExpr.literal 1))) ∧
      (∀ id, adjacentTile.mIndex ≠ TerrainType.Impassable →
        adjacentTile.mThing = some (Thing.structure id) →
        (structures id).mStructureId = StructureID.SID_ROAD →
        ((structures id).mStructureState ≠ StructureState.Operational →
          cost = FloatExpr.mul FloatExpr.RouteBaseCost
            (FloatExpr.add (FloatExpr.ofInt TerrainType.Difficult) (FloatExpr.literal 1))) ∧
        ((structures id).mStructureState = StructureState.Operational →
          (structures id).mIntegrity < constants.RoadIntegrityChange →
          cost = FloatExpr.literal (3 / 4)) ∧
        ((structures id).mStructureState = StructureState.Operational →
          constants.RoadIntegrityChange ≤ (structures id).mIntegrity →
          cost = FloatExpr.literal (1 / 2))) ∧
      (∀ id, adjacentTile.mIndex ≠ TerrainType.Impassable →
        adjacentTile.mThing = some (Thing.structure id) →
        (structures id).mStructureId ≠ StructureID.SID_ROAD → cost = FloatExpr.FLT_MAX) ∧
      (∀ id, adjacentTile.mIndex ≠ TerrainType.Impassable →
        adjacentTile.mThing = some (Thing.robot id) → cost = FloatExpr.FLT_MAX) := by
  obtain ⟨hmem, huniq⟩ := adjacentCost_entry m hm constants structures tile offset adjacentTile
    ho ht
  refine ⟨_, _, ?_, hmem, huniq, ?_, ?_, ?_, ?_, ?_⟩
  · rw [adjacentCost_spec m hm]
  · exact adjacentTileCost_impassable m constants structures _ adjacentTile
  · exact adjacentTileCost_empty m constants structures _ adjacentTile
  · intro id hidx hthing hroad
    have hc := adjacentTileCost_road m constants structures _ adjacentTile id hidx hthing
      hstart hend hroad
    refine ⟨?_, ?_, ?_⟩
    · intro hstate
      rw [hc, if_pos hstate]; rfl
    · intro hstate hint
      rw [hc, if_neg (by simpa using hstate), if_pos hint]
    · intro hstate hint
      rw [hc, if_neg (by simpa using hstate), if_neg (by omega)]
  · intro id hidx hthing hno
    exact adjacentTileCost_blocked m constants structures _ adjacentTile hidx hstart hend
      (Or.inr ⟨id, hthing, hno⟩)
  · intro id hidx hthing
    exact adjacentTileCost_blocked m constants structures _ adjacentTile hidx hstart hend
      (Or.inl ⟨id, hthing⟩)

/-- Witness of C11 on the strip map without registered tiles: the step from
the tile at (0, 0) to the road at (1, 0). -/
theorem adjacentCost_unregistered_neighbour_witness :
    (stripMap 0 0 (none, none)).WellFormed ∧
    (⟨1, 0⟩ : Vector) ∈ DirectionClockwise4 ∧
    (stripMap 0 0 (none, none)).getTile ⟨stripWestTile.xy.add ⟨1, 0⟩, 0⟩
      = Except.ok (stripRoadTile 0) ∧
    ∃ entries cost,
      ((stripMap 0 0 (none, none)).AdjacentCost sampleConstants sampleStructures
        stripWestTile []).1 = Except.ok ([] ++ entries) ∧
      (⟨(stripMap 0 0 (none, none)).tileSlot ⟨stripWestTile.xy.add ⟨1, 0⟩, 0⟩, cost⟩ : StateCost)
        ∈ entries ∧
      cost = FloatExpr.literal (1 / 2) := by
  obtain ⟨entries, cost, h1, h2, _, _, _, h6, _, _⟩ :=
    adjacentCost_unregistered_neighbour (stripMap 0 0 (none, none))
      (stripMap_wellFormed 0 0 (none, none)) sampleConstants sampleStructures stripWestTile []
      ⟨1, 0⟩ (stripRoadTile 0) (by decide) (stripMap_road 0 0 (none, none))
      (by decide) (by decide)
  exact ⟨stripMap_wellFormed 0 0 (none, none), by decide, stripMap_road 0 0 (none, none),
    entries, cost, h1, h2, (h6 0 (by decide) rfl rfl).2.2 rfl (by decide)⟩

/-- C12, counterexample. On the strip map the tile at (1, 0) holds an
operational road of integrity 100, above the threshold 80. When its terrain
is `Impassable` the cost of the step to it is `FLT_MAX`; when the tile is the
registered end tile (terrain category 1) the cost is `RouteBaseCost * (1 + 1)`.
Neither is the literal `0.5`. -/
theorem adjacentCost_good_road_not_half :
    (sampleStructures 0).mStructureId = StructureID.SID_ROAD ∧
    (sampleStructures 0).mStructureState = StructureState.Operational ∧
    sampleConstants.RoadIntegrityChange ≤ (sampleStructures 0).mIntegrity ∧
    (stripMap TerrainType.Impassable 0 (none, none)).getTile ⟨stripWestTile.xy.add ⟨1, 0⟩, 0⟩
      = Except.ok (stripRoadTile TerrainType.Impassable) ∧
    ((stripMap TerrainType.Impassable 0 (none, none)).AdjacentCost sampleConstants
        sampleStructures stripWestTile []).1
      = Except.ok [⟨1, FloatExpr.FLT_MAX⟩] ∧
    ((stripMap 1 0 (none, none)).pathStartAndEnd (some 0) (some 1)).getTile
        ⟨stripWestTile.xy.add ⟨1, 0⟩, 0⟩
      = Except.ok (stripRoadTile 1) ∧
    (((stripMap 1 0 (none, none)).pathStartAndEnd (some 0) (some 1)).AdjacentCost
        sampleConstants sampleStructures stripWestTile []).1
      = Except.ok [⟨1, FloatExpr.mul FloatExpr.RouteBaseCost
          (FloatExpr.add (FloatExpr.ofInt 1) (FloatExpr.literal 1))⟩] ∧
    FloatExpr.FLT_MAX ≠ FloatExpr.literal (1 / 2) ∧
    FloatExpr.mul FloatExpr.RouteBaseCost
      (FloatExpr.add (FloatExpr.ofInt 1) (FloatExpr.literal 1)) ≠ FloatExpr.literal (1 / 2) := by
  refine ⟨rfl, rfl, by decide, rfl, rfl, rfl, rfl, ?_, ?_⟩
  · intro h; cases h
  · intro h; cases h

/-- C12, amended. On a well-formed map, for a cardinal neighbour in the map
that holds a road which is operational and whose integrity is at or above
`RoadIntegrityChange`, whose terrain is not `Impassable` and which is neither
the registered start nor the registered end tile, the cost of the entry that
`AdjacentCost` pushes for it is the literal `0.5`. -/
theorem adjacentCost_good_road (m : TileMap) (hm : m.WellFormed)
    (constants : Constants) (structures : Nat → Structure) (tile : Tile)
    (adjacent : List StateCost) (offset : Vector) (adjacentTile : Tile) (id : Nat)
    (ho : offset ∈ DirectionClockwise4)
    (ht : m.getTile ⟨tile.xy.add offset, 0⟩ = Except.ok adjacentTile)
    (hthing : adjacentTile.mThing = some (Thing.structure id))
    (hroad : (structures id).mStructureId = StructureID.SID_ROAD)
    (hstate : (structures id).mStructureState = StructureState.Operational)
    (hint : constants.RoadIntegrityChange ≤ (structures id).mIntegrity)
    (hidx : adjacentTile.mIndex ≠ TerrainType.Impassable)
    (hstart : m.mPathStartEndPair.1 ≠ some (m.tileSlot ⟨tile.xy.add offset, 0⟩))
    (hend : m.mPathStartEndPair.2 ≠ some (m.tileSlot ⟨tile.xy.add offset, 0⟩)) :
    ∃ entries,
      (m.AdjacentCost constants structures tile adjacent).1 = Except.ok (adjacent ++ entries) ∧
      (⟨m.tileSlot ⟨tile.xy.add offset, 0⟩, FloatExpr.literal (1 / 2)⟩ : StateCost) ∈ entries ∧
      (∀ entry ∈ entries, entry.state = m.tileSlot ⟨tile.xy.add offset, 0⟩ →
        entry.cost = FloatExpr.literal (1 / 2)) := by
  obtain ⟨hmem, huniq⟩ := adjacentCost_entry m hm constants structures tile offset adjacentTile
    ho ht
  have hc := adjacentTileCost_road m constants structures _ adjacentTile id hidx hthing
    hstart hend hroad
  rw [if_neg (by simpa using hstate), if_neg (by omega)] at hc
  rw [hc] at hmem huniq
  exact ⟨_, by rw [adjacentCost_spec m hm], hmem, huniq⟩

/-- Witness of C12 (amended) on the strip map without registered tiles. -/
theorem adjacentCost_good_road_witness :
    (stripMap 0 0 (none, none)).WellFormed ∧
    (sampleStructures 0).mStructureId = StructureID.SID_ROAD ∧
    (sampleStructures 0).mStructureState = StructureState.Operational ∧
    sampleConstants.RoadIntegrityChange ≤ (sampleStructures 0).mIntegrity ∧
    ∃ entries,
      ((stripMap 0 0 (none, none)).AdjacentCost sampleConstants sampleStructures
        stripWestTile []).1 = Except.ok ([] ++ entries) ∧
      (⟨(stripMap 0 0 (none, none)).tileSlot ⟨stripWestTile.xy.add ⟨1, 0⟩, 0⟩,
        FloatExpr.literal (1 / 2)⟩ : StateCost) ∈ entries := by
  obtain ⟨entries, h1, h2, _⟩ :=
    adjacentCost_good_road (stripMap 0 0 (none, none))
      (stripMap_wellFormed 0 0 (none, none)) sampleConstants sampleStructures stripWestTile []
      ⟨1, 0⟩ (stripRoadTile 0) 0 (by decide) (stripMap_road 0 0 (none, none))
      rfl rfl rfl (by decide) (by decide) (by decide) (by decide)
  exact ⟨stripMap_wellFormed 0 0 (none, none), rfl, rfl, by decide, entries, h1, h2⟩

/-- C13, counterexample. On the strip map the tile at (2, 0) holds a structure,
is registered as the end tile and its terrain is `Impassable`:
the cost that `AdjacentCost` assigns to the step from (1, 0) to it is
`FLT_MAX`. The test of the terrain comes before the test of the registered
pair. -/
theorem adjacentCost_registered_end_blocked :
    ((stripMap 0 TerrainType.Impassable (none, none)).pathStartAndEnd (some 0) (some 2)).getTile
        ⟨(stripRoadTile 0).xy.add ⟨1, 0⟩, 0⟩
      = Except.ok (stripEastTile TerrainType.Impassable) ∧
    ((stripMap 0 TerrainType.Impassable (none, none)).pathStartAndEnd (some 0)
        (some 2)).mPathStartEndPair.2
      = some (((stripMap 0 TerrainType.Impassable (none, none)).pathStartAndEnd (some 0)
          (some 2)).tileSlot ⟨(stripRoadTile 0).xy.add ⟨1, 0⟩, 0⟩) ∧
    (((stripMap 0 TerrainType.Impassable (none, none)).pathStartAndEnd (some 0)
        (some 2)).AdjacentCost sampleConstants sampleStructures (stripRoadTile 0) []).1
      = Except.ok [⟨2, FloatExpr.FLT_MAX⟩,
          ⟨0, FloatExpr.mul FloatExpr.RouteBaseCost
            (FloatExpr.add (FloatExpr.ofInt 1) (FloatExpr.literal 1))⟩] := by
  refine ⟨rfl, by decide, rfl⟩

/-- C13, amended. On a well-formed map, for a cardinal neighbour in the map
that is registered (by `pathStartAndEnd`) as the start or the end tile and
whose terrain is not `Impassable`, the cost of the entry that `AdjacentCost`
pushes for it is the terrain-based `RouteBaseCost * (terrain + 1)`, whatever
occupies the tile: it is not the assignment of `FLT_MAX`, and its exact value
is the value of `RouteBaseCost` times `terrain + 1`. -/
theorem adjacentCost_registered_tile (m : TileMap) (hm : m.WellFormed)
    (constants : Constants) (structures : Nat → Structure) (tile : Tile)
    (adjacent : List StateCost) (offset : Vector) (adjacentTile : Tile)
    (start finish : Option Nat)
    (ho : offset ∈ DirectionClockwise4)
    (ht : m.getTile ⟨tile.xy.add offset, 0⟩ = Except.ok adjacentTile)
    (hidx : adjacentTile.mIndex ≠ TerrainType.Impassable)
    (hreg : start = some (m.tileSlot ⟨tile.xy.add offset, 0⟩) ∨
      finish = some (m.tileSlot ⟨tile.xy.add offset, 0⟩)) :
    ∃ entries cost,
      ((m.pathStartAndEnd start finish).AdjacentCost constants structures tile adjacent).1
        = Except.ok (adjacent ++ entries) ∧
      (⟨m.tileSlot ⟨tile.xy.add offset, 0⟩, cost⟩ : StateCost) ∈ entries ∧
      (∀ entry ∈ entries, entry.state = m.tileSlot ⟨tile.xy.add offset, 0⟩ →
        entry.cost = cost) ∧
      cost = FloatExpr.mul FloatExpr.RouteBaseCost
        (FloatExpr.add (FloatExpr.ofInt adjacentTile.mIndex) (FloatExpr.literal 1)) ∧
      cost ≠ FloatExpr.FLT_MAX ∧
      (∀ routeBaseCost : Rat,
        cost.value routeBaseCost = some (routeBaseCost * ((adjacentTile.mIndex : Rat) + 1))) := by
  have hm1 : (m.pathStartAndEnd start finish).WellFormed := ⟨hm.1, hm.2, hm.3, hm.4, hm.5⟩
  have ht1 : (m.pathStartAndEnd start finish).getTile ⟨tile.xy.add offset, 0⟩
      = Except.ok adjacentTile := by
    rw [getTile_congr (m.pathStartAndEnd start finish) m rfl rfl rfl]; exact ht
  obtain ⟨hmem, huniq⟩ := adjacentCost_entry (m.pathStartAndEnd start finish) hm1 constants
    structures tile offset adjacentTile ho ht1
  have hslot : (m.pathStartAndEnd start finish).tileSlot ⟨tile.xy.add offset, 0⟩
      = m.tileSlot ⟨tile.xy.add offset, 0⟩ := rfl
  have hc := adjacentTileCost_registered (m.pathStartAndEnd start finish) constants structures
    (m.tileSlot ⟨tile.xy.add offset, 0⟩) adjacentTile hidx hreg
  rw [hslot, hc] at hmem huniq
  refine ⟨_, _, by rw [adjacentCost_spec _ hm1], hmem, huniq, rfl, ?_, ?_⟩
  · intro h; cases h
  · intro routeBaseCost
    rfl

/-- Witness of C13 (amended) on the strip map: the tile at (2, 0), which holds
a structure and has terrain category 2, is registered as the end tile. -/
theorem adjacentCost_registered_tile_witness :
    (stripMap 0 2 (none, none)).WellFormed ∧
    (stripMap 0 2 (none, none)).getTile ⟨(stripRoadTile 0).xy.add ⟨1, 0⟩, 0⟩
      = Except.ok (stripEastTile 2) ∧
    ∃ entries,
      (((stripMap 0 2 (none, none)).pathStartAndEnd (some 0) (some 2)).AdjacentCost
        sampleConstants sampleStructures (stripRoadTile 0) []).1 = Except.ok ([] ++ entries) ∧
      (⟨(stripMap 0 2 (none, none)).tileSlot ⟨(stripRoadTile 0).xy.add ⟨1, 0⟩, 0⟩,
        FloatExpr.mul FloatExpr.RouteBaseCost
          (FloatExpr.add (FloatExpr.ofInt (stripEastTile 2).mIndex) (FloatExpr.literal 1))⟩ :
          StateCost) ∈ entries := by
  obtain ⟨entries, cost, h1, h2, _, h4, _, _⟩ :=
    adjacentCost_registered_tile (stripMap 0 2 (none, none))
      (stripMap_wellFormed 0 2 (none, none)) sampleConstants sampleStructures (stripRoadTile 0) []
      ⟨1, 0⟩ (stripEastTile 2) (some 0) (some 2) (by decide) (stripMap_east 0 2 (none, none))
      (by decide) (Or.inr (by decide))
  rw [h4] at h2
  exact ⟨stripMap_wellFormed 0 2 (none, none), stripMap_east 0 2 (none, none), entries, h1, h2⟩

/-- C14. On a well-formed map `AdjacentCost` does not throw, for any source
tile, and leaves the map as it was. It appends to `*adjacent`, in the order of
`DirectionClockwise4`, one entry for each cardinal neighbour whose `(x, y)`
lies in `[0, width) x [0, height)` and none for the others; the state of the
entry is the slot of the depth-0 tile at that position. -/
theorem adjacentCost_entries (m : TileMap) (hm : m.WellFormed)
    (constants : Constants) (structures : Nat → Structure) (tile : Tile)
    (adjacent : List StateCost) :
    (m.AdjacentCost constants structures tile adjacent).2 = m ∧
    ∃ entries,
      (m.AdjacentCost constants structures tile adjacent).1 = Except.ok (adjacent ++ entries) ∧
      entries.map StateCost.state
        = ((DirectionClockwise4.map tile.xy.add).filter m.onSurface).map
            (fun position => m.tileSlot ⟨position, 0⟩) ∧
      (∀ entry ∈ entries, ∃ offset ∈ DirectionClockwise4, ∃ adjacentTile,
        m.onSurface (tile.xy.add offset) = true ∧
        m.getTile ⟨tile.xy.add offset, 0⟩ = Except.ok adjacentTile ∧
        m.mTileMap[entry.state]? = some adjacentTile ∧
        entry.state = m.tileSlot ⟨tile.xy.add offset, 0⟩) ∧
      (∀ position, m.onSurface position = true ↔
        (0 ≤ position.x ∧ position.x < m.mSizeInTiles.x ∧
          0 ≤ position.y ∧ position.y < m.mSizeInTiles.y)) := by
  rw [adjacentCost_spec m hm]
  refine ⟨rfl, _, rfl, ?_, ?_, ?_⟩
  · generalize DirectionClockwise4 = offsets
    induction offsets with
    | nil => rfl
    | cons offset rest ih =>
      cases hc : m.onSurface (tile.xy.add offset) with
      | true =>
        obtain ⟨adjacentTile, _, _, he⟩ :=
          neighbourEntry_of_onSurface m hm constants structures _ hc
        simp only [List.filterMap_cons, he, List.map_cons, List.filter_cons, hc, if_true, ih]
      | false =>
        have he := neighbourEntry_of_not_onSurface m hm constants structures _ hc
        simp only [List.filterMap_cons, he, List.map_cons, List.filter_cons, hc, ih]
        simp
  · intro entry hmem
    rw [List.mem_filterMap] at hmem
    obtain ⟨offset, ho, he⟩ := hmem
    cases hc : m.onSurface (tile.xy.add offset) with
    | true =>
      obtain ⟨adjacentTile, ht, hslot, he1⟩ :=
        neighbourEntry_of_onSurface m hm constants structures _ hc
      rw [he1] at he
      cases he
      exact ⟨offset, ho, adjacentTile, hc, ht, hslot, rfl⟩
    | false =>
      rw [neighbourEntry_of_not_onSurface m hm constants structures _ hc] at he
      cases he
  · intro position
    rw [onSurface_iff m hm]
    unfold TileMap.InBounds
    have := hm.depth_nonneg
    constructor
    · rintro ⟨a, b, c, d, _, _⟩
      exact ⟨a, b, c, d⟩
    · rintro ⟨a, b, c, d⟩
      exact ⟨a, b, c, d, le_refl _, this⟩

/-- Witness of C14 on the strip map, from the tile at (1, 0): the entries are
those of the tiles at (2, 0) and (0, 0). -/
theorem adjacentCost_entries_witness :
    (stripMap 0 0 (none, none)).WellFormed ∧
    ((stripMap 0 0 (none, none)).AdjacentCost sampleConstants sampleStructures
      (stripRoadTile 0) []).2 = stripMap 0 0 (none, none) ∧
    ∃ entries,
      ((stripMap 0 0 (none, none)).AdjacentCost sampleConstants sampleStructures
        (stripRoadTile 0) []).1 = Except.ok ([] ++ entries) ∧
      entries.map StateCost.state = [2, 0] := by
  obtain ⟨h1, entries, h2, h3, _⟩ := adjacentCost_entries (stripMap 0 0 (none, none))
    (stripMap_wellFormed 0 0 (none, none)) sampleConstants sampleStructures (stripRoadTile 0) []
  refine ⟨stripMap_wellFormed 0 0 (none, none), h1, entries, h2, ?_⟩
  rw [h3]
  decide

theorem offset_cardinal (offset : Vector) (h : offset ∈ DirectionClockwise4) :
    (offset.x = 0 ∧ (offset.y = 1 ∨ offset.y = -1)) ∨
    (offset.y = 0 ∧ (offset.x = 1 ∨ offset.x = -1)) := by
  simp only [DirectionClockwise4, List.mem_cons, List.mem_singleton, List.not_mem_nil,
    or_false] at h
  rcases h with h | h | h | h <;> subst h <;> decide

/-- A step that `AdjacentCost` gives a cost to leads to a cardinal neighbour. -/
theorem stepCost_some (m : TileMap) (hm : m.WellFormed) (constants : Constants)
    (structures : Nat → Structure) (source : Tile) (target : Point) (cost : FloatExpr)
    (h : m.stepCost constants structures source target = some cost) :
    ∃ offset ∈ DirectionClockwise4, target = source.xy.add offset := by
  unfold TileMap.stepCost at h
  rw [adjacentCost_spec m hm] at h
  cases hg : m.getTileMut ⟨target, 0⟩ with
  | error e => rw [hg] at h; cases h
  | ok ref =>
    obtain ⟨slot, targetTile⟩ := ref
    rw [hg] at h
    simp only [List.nil_append, Option.map_eq_some'] at h
    obtain ⟨entry, hfind, _⟩ := h
    have hmem := List.mem_of_find?_eq_some hfind
    have hstate : entry.state = slot := by
      have := List.find?_some hfind
      simpa using this
    obtain ⟨hgt, hslot⟩ := getTileMut_ok m _ slot targetTile hg
    have hin := inBounds_of_getTile_ok m _ _ hgt
    rw [List.mem_filterMap] at hmem
    obtain ⟨offset, ho, he⟩ := hmem
    refine ⟨offset, ho, ?_⟩
    cases hg1 : m.getTile ⟨source.xy.add offset, 0⟩ with
    | error e =>
      unfold TileMap.neighbourEntry at he
      rw [hg1] at he
      cases he
    | ok tile1 =>
      have hin1 := inBounds_of_getTile_ok m _ _ hg1
      unfold TileMap.neighbourEntry at he
      rw [hg1] at he
      cases he
      simp only at hstate
      rw [hslot, tileSlot_eq m hm _ hin1, tileSlot_eq m hm _ hin] at hstate
      exact (congrArg MapCoordinate.xy (flatIndex_inj m _ _ hin1 hin hstate)).symm

/-- Along a path whose steps all have a cost, the end lies within as many
cardinal steps of the start as the path has steps. -/
theorem pathStepValues_distance (m : TileMap) (hm : m.WellFormed) (hpos : m.PositionsConsistent)
    (constants : Constants) (structures : Nat → Structure) (routeBaseCost : Rat) :
    ∀ (rest : List Point) (first : Point) (values : List Rat),
      m.pathStepValues constants structures routeBaseCost (first :: rest) = some values →
      values.length = rest.length ∧
      ((first :: rest).getLast (List.cons_ne_nil _ _)).x - first.x
        + (((first :: rest).getLast (List.cons_ne_nil _ _)).y - first.y) ≤ values.length ∧
      ((first :: rest).getLast (List.cons_ne_nil _ _)).x - first.x
        - (((first :: rest).getLast (List.cons_ne_nil _ _)).y - first.y) ≤ values.length ∧
      -(((first :: rest).getLast (List.cons_ne_nil _ _)).x - first.x)
        + (((first :: rest).getLast (List.cons_ne_nil _ _)).y - first.y) ≤ values.length ∧
      -(((first :: rest).getLast (List.cons_ne_nil _ _)).x - first.x)
        - (((first :: rest).getLast (List.cons_ne_nil _ _)).y - first.y) ≤ values.length := by
  intro rest
  induction rest with
  | nil =>
    intro first values h
    simp only [TileMap.pathStepValues, Option.some.injEq] at h
    subst h
    simp
  | cons q rest ih =>
    intro first values h
    simp only [TileMap.pathStepValues] at h
    cases hg : m.getTile ⟨first, 0⟩ with
    | error e => rw [hg] at h; cases h
    | ok source =>
      rw [hg] at h
      simp only at h
      cases hs : m.stepCost constants structures source q with
      | none => rw [hs] at h; simp at h
      | some cost =>
        cases hr : m.pathStepValues constants structures routeBaseCost (q :: rest) with
        | none => rw [hr] at h; simp at h
        | some later =>
          rw [hs, hr] at h
          simp only [Option.some_bind] at h
          cases hv : cost.value routeBaseCost with
          | none => rw [hv] at h; cases h
          | some value =>
            rw [hv] at h
            simp only [Option.some.injEq] at h
            subst h
            obtain ⟨hlen, h1, h2, h3, h4⟩ := ih q later hr
            obtain ⟨offset, ho, hq⟩ := stepCost_some m hm constants structures source q cost hs
            have hxy : source.xy = first := by
              have := hpos ⟨first, 0⟩ source hg
              unfold Tile.xy
              rw [this]
            rw [hxy] at hq
            have hcard := offset_cardinal offset ho
            have hqx : q.x = first.x + offset.x := by rw [hq]; rfl
            have hqy : q.y = first.y + offset.y := by rw [hq]; rfl
            have hlast : (first :: q :: rest).getLast (List.cons_ne_nil _ _)
                = (q :: rest).getLast (List.cons_ne_nil _ _) := by
              rw [List.getLast_cons]
            rw [hlast]
            simp only [List.length_cons] at hlen h1 h2 h3 h4 ⊢
            push_cast at h1 h2 h3 h4 ⊢
            refine ⟨by omega, ?_, ?_, ?_, ?_⟩ <;> rcases hcard with ⟨a, b | b⟩ | ⟨a, b | b⟩ <;> omega

theorem sum_ge_length (values : List Rat) (h : ∀ v ∈ values, 1 ≤ v) :
    (values.length : Rat) ≤ values.sum := by
  induction values with
  | nil => simp
  | cons v rest ih =>
    have h1 := h v (List.mem_cons_self _ _)
    have h2 := ih (fun w hw => h w (List.mem_cons_of_mem _ hw))
    simp only [List.length_cons, List.sum_cons]
    push_cast
    linarith

theorem stripMap_positionsConsistent (roadIndex eastIndex : TerrainType)
    (pair : Option Nat × Option Nat) : (stripMap roadIndex eastIndex pair).PositionsConsistent := by
  intro position tile ht
  obtain ⟨h1, h2, h3, h4, h5, h6⟩ := inBounds_of_getTile_ok _ _ _ ht
  obtain ⟨⟨x, y⟩, z⟩ := position
  simp only [stripMap] at h1 h2 h3 h4 h5 h6
  have hy : y = 0 := by omega
  have hz : z = 0 := by omega
  have hx : x = 0 ∨ x = 1 ∨ x = 2 := by omega
  subst hy hz
  rcases hx with hx | hx | hx <;> subst hx
  · have : (stripMap roadIndex eastIndex pair).getTile ⟨⟨0, 0⟩, 0⟩ = Except.ok stripWestTile := rfl
    rw [this] at ht; cases ht; rfl
  · have : (stripMap roadIndex eastIndex pair).getTile ⟨⟨1, 0⟩, 0⟩
        = Except.ok (stripRoadTile roadIndex) := rfl
    rw [this] at ht; cases ht; rfl
  · have : (stripMap roadIndex eastIndex pair).getTile ⟨⟨2, 0⟩, 0⟩
        = Except.ok (stripEastTile eastIndex) := rfl
    rw [this] at ht; cases ht; rfl

/-- C15, counterexample. On the strip map, searched from the tile at (0, 0)
to the tile at (2, 0), the tile at (1, 0) holds an operational road of full
integrity. The estimate from (0, 0) to (1, 0) is `sqrtf(1)`, but the step
costs `0.5`, whatever `RouteBaseCost` is; with `RouteBaseCost` equal to 1 the
estimate from the start to the end tile is `sqrtf(4)` and the path over the
road costs 1.5. -/
theorem leastCostEstimate_exceeds_road_cost :
    (stripMap 0 0 (some 0, some 2)).WellFormed ∧
    (stripMap 0 0 (some 0, some 2)).getTile ⟨⟨0, 0⟩, 0⟩ = Except.ok stripWestTile ∧
    (stripMap 0 0 (some 0, some 2)).getTile ⟨⟨1, 0⟩, 0⟩ = Except.ok (stripRoadTile 0) ∧
    (stripMap 0 0 (some 0, some 2)).getTile ⟨⟨2, 0⟩, 0⟩ = Except.ok (stripEastTile 0) ∧
    LeastCostEstimate stripWestTile (stripRoadTile 0) = FloatExpr.sqrtf (FloatExpr.ofInt 1) ∧
    (∀ routeBaseCost : Rat,
      (stripMap 0 0 (some 0, some 2)).pathStepValues sampleConstants sampleStructures
        routeBaseCost [⟨0, 0⟩, ⟨1, 0⟩] = some [1 / 2]) ∧
    ¬ sqrtAtMost 1 ([1 / 2] : List Rat).sum ∧
    LeastCostEstimate stripWestTile (stripEastTile 0) = FloatExpr.sqrtf (FloatExpr.ofInt 4) ∧
    (stripMap 0 0 (some 0, some 2)).pathStepValues sampleConstants sampleStructures 1
      [⟨0, 0⟩, ⟨1, 0⟩, ⟨2, 0⟩] = some [1 / 2, 1 * (((0 : Int) : Rat) + 1)] ∧
    ¬ sqrtAtMost 4 ([1 / 2, 1 * (((0 : Int) : Rat) + 1)] : List Rat).sum := by
  refine ⟨stripMap_wellFormed 0 0 _, rfl, rfl, rfl, rfl, fun _ => rfl, ?_, rfl, rfl, ?_⟩
  · unfold sqrtAtMost; norm_num
  · unfold sqrtAtMost; norm_num

/-- C15, amended. `LeastCostEstimate(a, b)` is `sqrtf` of the squared
Euclidean distance between the `(x, y)` of `a` and `b`. In exact arithmetic
it is a lower bound of the cost of a path of cardinal steps from `a` to `b`
when every step of the path costs at least 1: on a well-formed map whose
tiles record their positions, for a path of surface points all of whose
steps get a cost from `AdjacentCost`, the squared distance is at most the
square of the number of steps, hence of the sum of the costs. -/
theorem leastCostEstimate_below_unit_costs (m : TileMap) (hm : m.WellFormed)
    (hpos : m.PositionsConsistent) (constants : Constants) (structures : Nat → Structure)
    (routeBaseCost : Rat) (first : Point) (rest : List Point) (values : List Rat) (a b : Tile)
    (ha : m.getTile ⟨first, 0⟩ = Except.ok a)
    (hb : m.getTile ⟨(first :: rest).getLast (List.cons_ne_nil _ _), 0⟩ = Except.ok b)
    (hvalues : m.pathStepValues constants structures routeBaseCost (first :: rest) = some values)
    (hunit : ∀ v ∈ values, 1 ≤ v) :
    LeastCostEstimate a b = FloatExpr.sqrtf (FloatExpr.ofInt
      ((b.xy.x - a.xy.x) * (b.xy.x - a.xy.x) + (b.xy.y - a.xy.y) * (b.xy.y - a.xy.y))) ∧
    values.length = rest.length ∧
    (b.xy.x - a.xy.x) * (b.xy.x - a.xy.x) + (b.xy.y - a.xy.y) * (b.xy.y - a.xy.y)
      ≤ (values.length : Int) * values.length ∧
    sqrtAtMost ((b.xy.x - a.xy.x) * (b.xy.x - a.xy.x) + (b.xy.y - a.xy.y) * (b.xy.y - a.xy.y))
      values.sum := by
  obtain ⟨hlen, h1, h2, h3, h4⟩ :=
    pathStepValues_distance m hm hpos constants structures routeBaseCost rest first values hvalues
  have hax : a.xy = first := by
    unfold Tile.xy; rw [hpos _ a ha]
  have hbx : b.xy = (first :: rest).getLast (List.cons_ne_nil _ _) := by
    unfold Tile.xy; rw [hpos _ b hb]
  refine ⟨rfl, ?_⟩
  rw [hax, hbx]
  generalize ((first :: rest).getLast (List.cons_ne_nil _ _)).x - first.x = dx at h1 h2 h3 h4 ⊢
  generalize ((first :: rest).getLast (List.cons_ne_nil _ _)).y - first.y = dy at h1 h2 h3 h4 ⊢
  have hn : (0 : Int) ≤ values.length := Int.natCast_nonneg _
  have hint : dx * dx + dy * dy ≤ (values.length : Int) * values.length := by
    nlinarith [mul_nonneg (sub_nonneg.2 h1) (sub_nonneg.2 h4),
      mul_nonneg (sub_nonneg.2 h2) (sub_nonneg.2 h3)]
  have hsum := sum_ge_length values hunit
  have hn' : (0 : Rat) ≤ values.length := Nat.cast_nonneg _
  refine ⟨hlen, hint, ?_, ?_⟩
  · linarith
  · have hq : ((dx * dx + dy * dy : Int) : Rat) ≤ ((values.length : Int) : Rat) * values.length := by
      exact_mod_cast hint
    have hmul : ((values.length : Int) : Rat) * values.length ≤ values.sum * values.sum := by
      have : ((values.length : Int) : Rat) = (values.length : Rat) := by norm_cast
      rw [this]
      exact mul_le_mul hsum hsum hn' (le_trans hn' hsum)
    exact le_trans hq hmul

/-- Witness of C15 (amended) on the strip map with `RouteBaseCost` equal to 1:
the step from the road at (1, 0) to the empty tile at (0, 0), of terrain
category 1, costs 2. -/
theorem leastCostEstimate_below_unit_costs_witness :
    (stripMap 0 0 (some 0, some 2)).WellFormed ∧
    (stripMap 0 0 (some 0, some 2)).pathStepValues sampleConstants sampleStructures 1
      [⟨1, 0⟩, ⟨0, 0⟩] = some [1 * (((1 : Int) : Rat) + 1)] ∧
    sqrtAtMost (((stripWestTile.xy.x - (stripRoadTile 0).xy.x)
        * (stripWestTile.xy.x - (stripRoadTile 0).xy.x)
      + (stripWestTile.xy.y - (stripRoadTile 0).xy.y)
        * (stripWestTile.xy.y - (stripRoadTile 0).xy.y)))
      ([1 * (((1 : Int) : Rat) + 1)] : List Rat).sum :=
  ⟨stripMap_wellFormed 0 0 _, rfl,
   (leastCostEstimate_below_unit_costs (stripMap 0 0 (some 0, some 2))
      (stripMap_wellFormed 0 0 _) (stripMap_positionsConsistent 0 0 _) sampleConstants
      sampleStructures 1 ⟨1, 0⟩ [⟨0, 0⟩] [1 * (((1 : Int) : Rat) + 1)] (stripRoadTile 0)
      stripWestTile rfl rfl rfl (by
        intro v hv
        rw [List.mem_singleton.1 hv]
        norm_num)).2.2.2⟩

theorem list_length_four {α : Type} (l : List α) (h : l.length = 4) :
    ∃ a b c d, l = [a, b, c, d] := by
  match l, h with
  | [a, b, c, d], _ => exact ⟨a, b, c, d, rfl⟩

theorem afterEnableTest_frame (f : MineFacility) :
    (afterEnableTest f).mMine = f.mMine ∧ (afterEnableTest f).mStoragePool = f.mStoragePool ∧
    (afterEnableTest f).mProductionPool = f.mProductionPool ∧
    (afterEnableTest f).mMaxDepth = f.mMaxDepth ∧
    (afterEnableTest f).mDigTurnsRemaining = f.mDigTurnsRemaining ∧
    (afterEnableTest f).mForcedIdle = f.mForcedIdle := by
  unfold afterEnableTest
  refine ⟨?_, ?_, ?_, ?_, ?_, ?_⟩ <;> split_ifs <;> rfl

theorem think_forced (constants : Constants) (f : MineFacility) (h : f.mForcedIdle = true) :
    f.think constants = (f, []) := by
  have hfi : f.forceIdle = true := h
  simp only [MineFacility.think, hfi, if_true]

theorem think_digging (constants : Constants) (f : MineFacility) (h : f.mForcedIdle = false)
    (hdig : 0 < f.mDigTurnsRemaining) :
    f.think constants =
      if f.mDigTurnsRemaining - 1 = 0 then
        ({ f with mDigTurnsRemaining := f.mDigTurnsRemaining - 1,
                  mMine := f.mMine.increaseDepth }, [MineFacilityEvent.extensionComplete])
      else ({ f with mDigTurnsRemaining := f.mDigTurnsRemaining - 1 }, []) := by
  have hfi : f.forceIdle = false := h
  simp only [MineFacility.think, hfi, Bool.false_eq_true, if_false, gt_iff_lt, hdig, if_true]

theorem think_exhausted (constants : Constants) (f : MineFacility) (h : f.mForcedIdle = false)
    (hdig : ¬ 0 < f.mDigTurnsRemaining) (hex : f.mMine.exhausted = true) :
    f.think constants = ((afterEnableTest f).idle IdleReason.MineExhausted, []) := by
  have hfi : f.forceIdle = false := h
  have hm : (afterEnableTest f).mMine.exhausted = true := by
    rw [(afterEnableTest_frame f).1]; exact hex
  unfold afterEnableTest at hm ⊢
  simp only [MineFacility.think, hfi, Bool.false_eq_true, if_false, gt_iff_lt, hdig]
  rw [if_pos hm]

theorem think_inactive (constants : Constants) (f : MineFacility) (h : f.mForcedIdle = false)
    (hdig : ¬ 0 < f.mDigTurnsRemaining) (hex : f.mMine.exhausted = false)
    (hactive : f.mMine.active = false) :
    f.think constants =
      (if !(afterEnableTest f).isIdle then (afterEnableTest f).idle IdleReason.MineInactive
        else afterEnableTest f, []) := by
  have hfi : f.forceIdle = false := h
  have hm : ¬ (afterEnableTest f).mMine.exhausted = true := by
    rw [(afterEnableTest_frame f).1, hex]; simp
  have ha : ¬ (afterEnableTest f).mMine.active = true := by
    rw [(afterEnableTest_frame f).1, hactive]; simp
  unfold afterEnableTest at hm ha ⊢
  simp only [MineFacility.think, hfi, Bool.false_eq_true, if_false, gt_iff_lt, hdig]
  rw [if_neg hm, if_neg ha]
  split_ifs <;> rfl

theorem think_full (constants : Constants) (f : MineFacility) (h : f.mForcedIdle = false)
    (hdig : ¬ 0 < f.mDigTurnsRemaining) (hex : f.mMine.exhausted = false)
    (hactive : f.mMine.active = true) (hfull : f.storage.ge MaxCapacity = true) :
    f.think constants = ((afterEnableTest f).idle IdleReason.InternalStorageFull, []) := by
  have hfi : f.forceIdle = false := h
  have hm : ¬ (afterEnableTest f).mMine.exhausted = true := by
    rw [(afterEnableTest_frame f).1, hex]; simp
  have ha : (afterEnableTest f).mMine.active = true := by
    rw [(afterEnableTest_frame f).1, hactive]
  have hg : (afterEnableTest f).storage.ge MaxCapacity = true := by
    unfold MineFacility.storage
    rw [(afterEnableTest_frame f).2.1]; exact hfull
  unfold afterEnableTest at hm ha hg ⊢
  simp only [MineFacility.think, hfi, Bool.false_eq_true, if_false, gt_iff_lt, hdig]
  rw [if_neg hm, if_pos ha, if_pos hg]

theorem pullLoop_frame (maxTransfer : StorableResources) (enabledBits : List Bool) :
    ∀ (indices : List Nat) (mine : Mine) (ore : StorableResources),
      (pullLoop maxTransfer enabledBits indices mine ore).1.depth = mine.depth ∧
      (pullLoop maxTransfer enabledBits indices mine ore).1.active = mine.active ∧
      (pullLoop maxTransfer enabledBits indices mine ore).1.miningEnabled = mine.miningEnabled ∧
      (pullLoop maxTransfer enabledBits indices mine ore).1.productionRate
        = mine.productionRate := by
  intro indices
  induction indices with
  | nil => intro mine ore; exact ⟨rfl, rfl, rfl, rfl⟩
  | cons i rest ih =>
    intro mine ore
    simp only [pullLoop]
    split_ifs
    · obtain ⟨h1, h2, h3, h4⟩ := ih (mine.pull i (maxTransfer.resources.getD i 0)).2
        ⟨ore.resources.set i (mine.pull i (maxTransfer.resources.getD i 0)).1⟩
      exact ⟨h1, h2, h3, h4⟩
    · exact ih mine ore

theorem think_transfer_eq (constants : Constants) (f : MineFacility) (h : f.mForcedIdle = false)
    (hdig : ¬ 0 < f.mDigTurnsRemaining) (hex : f.mMine.exhausted = false)
    (hactive : f.mMine.active = true) (hfull : f.storage.ge MaxCapacity = false) :
    f.think constants =
      ({ afterEnableTest f with
          mMine := (pullLoop (f.maxTransferAmounts constants) f.mMine.miningEnabled
            (List.range 4) f.mMine {}).1,
          mStoragePool := f.storage.add
            (pullLoop (f.maxTransferAmounts constants) f.mMine.miningEnabled
              (List.range 4) f.mMine {}).2 }, []) := by
  have hfi : f.forceIdle = false := h
  obtain ⟨hm1, hs1, hp1, _, _, _⟩ := afterEnableTest_frame f
  have hm : ¬ (afterEnableTest f).mMine.exhausted = true := by
    rw [hm1, hex]; simp
  have ha : (afterEnableTest f).mMine.active = true := by
    rw [hm1, hactive]
  have hst : (afterEnableTest f).storage = f.storage := hs1
  have hg : ¬ (afterEnableTest f).storage.ge MaxCapacity = true := by
    rw [hst, hfull]; simp
  have hmt : (afterEnableTest f).maxTransferAmounts constants = f.maxTransferAmounts constants := by
    unfold MineFacility.maxTransferAmounts MineFacility.production
    rw [hp1]
  have hlen : ({} : StorableResources).resources.length = 4 := rfl
  unfold afterEnableTest at hm ha hg hmt hst hm1 ⊢
  simp only [MineFacility.think, hfi, Bool.false_eq_true, if_false, gt_iff_lt, hdig]
  rw [if_neg hm, if_pos ha, if_neg hg, hmt, hst, hm1, hlen]

/-- What one `think` does to the countdown, the depth of the mine and the
configured maximum depth. -/
theorem think_extension_state (constants : Constants) (f : MineFacility) :
    (f.think constants).1.mMaxDepth = f.mMaxDepth ∧
    (f.think constants).1.mForcedIdle = f.mForcedIdle ∧
    ((f.mForcedIdle = true ∨ ¬ 0 < f.mDigTurnsRemaining) →
      (f.think constants).1.mDigTurnsRemaining = f.mDigTurnsRemaining ∧
      (f.think constants).1.mMine.depth = f.mMine.depth ∧
      (f.think constants).2 = []) ∧
    (f.mForcedIdle = false → 0 < f.mDigTurnsRemaining →
      (f.think constants).1.mDigTurnsRemaining = f.mDigTurnsRemaining - 1 ∧
      (f.think constants).1.mMine.depth
        = (if f.mDigTurnsRemaining = 1 then f.mMine.depth + 1 else f.mMine.depth) ∧
      (f.think constants).2
        = (if f.mDigTurnsRemaining = 1 then [MineFacilityEvent.extensionComplete] else [])) := by
  obtain ⟨hm1, hs1, hp1, hmax1, hdig1, hforce1⟩ := afterEnableTest_frame f
  by_cases hforce : f.mForcedIdle = true
  · rw [think_forced constants f hforce]
    refine ⟨rfl, rfl, fun _ => ⟨rfl, rfl, rfl⟩, ?_⟩
    intro h; rw [hforce] at h; cases h
  · have hforce0 : f.mForcedIdle = false := by simpa using hforce
    by_cases hdig : 0 < f.mDigTurnsRemaining
    · rw [think_digging constants f hforce0 hdig]
      by_cases hone : f.mDigTurnsRemaining = 1
      · have hz : f.mDigTurnsRemaining - 1 = 0 := by omega
        rw [if_pos hz]
        refine ⟨rfl, rfl, ?_, ?_⟩
        · rintro (h | h)
          · exact absurd h hforce
          · exact absurd hdig h
        · intro _ _
          rw [if_pos hone, if_pos hone]
          exact ⟨rfl, rfl, rfl⟩
      · have hz : ¬ f.mDigTurnsRemaining - 1 = 0 := by omega
        rw [if_neg hz]
        refine ⟨rfl, rfl, ?_, ?_⟩
        · rintro (h | h)
          · exact absurd h hforce
          · exact absurd hdig h
        · intro _ _
          rw [if_neg hone, if_neg hone]
          exact ⟨rfl, rfl, rfl⟩
    · have hrest : (f.think constants).1.mMaxDepth = f.mMaxDepth ∧
          (f.think constants).1.mForcedIdle = f.mForcedIdle ∧
          (f.think constants).1.mDigTurnsRemaining = f.mDigTurnsRemaining ∧
          (f.think constants).1.mMine.depth = f.mMine.depth ∧
          (f.think constants).2 = [] := by
        by_cases hex : f.mMine.exhausted = true
        · rw [think_exhausted constants f hforce0 hdig hex]
          exact ⟨hmax1, hforce1, hdig1, congrArg Mine.depth hm1, rfl⟩
        · have hex1 : f.mMine.exhausted = false := by simpa using hex
          by_cases hactive : f.mMine.active = true
          · by_cases hfull : f.storage.ge MaxCapacity = true
            · rw [think_full constants f hforce0 hdig hex1 hactive hfull]
              exact ⟨hmax1, hforce1, hdig1, congrArg Mine.depth hm1, rfl⟩
            · have hfull1 : f.storage.ge MaxCapacity = false := by simpa using hfull
              rw [think_transfer_eq constants f hforce0 hdig hex1 hactive hfull1]
              exact ⟨hmax1, hforce1, hdig1, (pullLoop_frame _ _ _ _ _).1, rfl⟩
          · have hactive1 : f.mMine.active = false := by simpa using hactive
            rw [think_inactive constants f hforce0 hdig hex1 hactive1]
            split_ifs
            · exact ⟨hmax1, hforce1, hdig1, congrArg Mine.depth hm1, rfl⟩
            · exact ⟨hmax1, hforce1, hdig1, congrArg Mine.depth hm1, rfl⟩
      refine ⟨hrest.1, hrest.2.1, fun _ => ⟨hrest.2.2.1, hrest.2.2.2.1, hrest.2.2.2.2⟩, ?_⟩
      intro _ h
      exact absurd h hdig

/-! ## Mine facility production -/

/-- C17, the code at the failing input. The capacity is 125 per ore. With a
production rate of 10, the fresh facility over a deposit of 200 of each ore,
all enabled, stores 120 of each ore after twelve calls of `think`; the cap of
the next transfer is still 10 per ore, not the 5 that remain, and the
thirteenth call brings the storage to 130 of each ore. With the first ore
alone enabled the storage is never at capacity and twenty calls store 200 of
that ore. -/
theorem think_overfills_storage :
    MaxCapacity.resources = [125, 125, 125, 125] ∧
    ((freshFacility [200, 200, 200, 200] [true, true, true, true]).thinkTimes sampleConstants
      12).1.mStoragePool.resources = [120, 120, 120, 120] ∧
    (((freshFacility [200, 200, 200, 200] [true, true, true, true]).thinkTimes sampleConstants
      12).1.maxTransferAmounts sampleConstants).resources = [10, 10, 10, 10] ∧
    ((freshFacility [200, 200, 200, 200] [true, true, true, true]).thinkTimes sampleConstants
      13).1.mStoragePool.resources = [130, 130, 130, 130] ∧
    ((freshFacility [200, 0, 0, 0] [true, false, false, false]).thinkTimes sampleConstants
      20).1.mStoragePool.resources = [200, 0, 0, 0] := by
  refine ⟨by decide, by decide, by decide, by decide, by decide⟩

/-- C18. For a facility that is not forced idle, with no extension running,
over a deposit that is active and not exhausted: when every ore of the
storage is at or above the capacity of 125, `think()` sets the idle state
with the reason `InternalStorageFull`, emits nothing and changes nothing
else: the storage and the deposit are as before. -/
theorem think_storage_full (constants : Constants) (f : MineFacility) (s0 s1 s2 s3 : Int)
    (hforce : f.mForcedIdle = false) (hdig : f.mDigTurnsRemaining = 0)
    (hactive : f.mMine.active = true) (hex : f.mMine.exhausted = false)
    (hs : f.mStoragePool.resources = [s0, s1, s2, s3])
    (h0 : 125 ≤ s0) (h1 : 125 ≤ s1) (h2 : 125 ≤ s2) (h3 : 125 ≤ s3) :
    f.think constants = (f.idle IdleReason.InternalStorageFull, []) ∧
    (f.think constants).1.mIdleReason = IdleReason.InternalStorageFull ∧
    (f.think constants).1.mStructureState = StructureState.Idle ∧
    (f.think constants).1.mStoragePool = f.mStoragePool ∧
    (f.think constants).1.mMine = f.mMine := by
  have hfull : f.storage.ge MaxCapacity = true := by
    unfold MineFacility.storage StorableResources.ge MaxCapacity MineFacilityStorageCapacity
    rw [hs]
    have : (500 : Int) / 4 = 125 := by decide
    simp [this, h0, h1, h2, h3]
  have hlt : f.storage.lt MaxCapacity = false := by
    unfold MineFacility.storage StorableResources.lt MaxCapacity MineFacilityStorageCapacity
    rw [hs]
    have : (500 : Int) / 4 = 125 := by decide
    simp [this]
    intro h; omega
  have hsame : afterEnableTest f = f := by
    unfold afterEnableTest
    rw [hlt]
    split_ifs <;> first | rfl | contradiction
  have hthink := think_full constants f hforce (by omega) hex hactive hfull
  rw [hsame] at hthink
  rw [hthink]
  exact ⟨rfl, rfl, rfl, rfl, rfl⟩

/-- Witness of C18: the facility whose storage holds 125 of each ore. -/
theorem think_storage_full_witness :
    fullFacility.mForcedIdle = false ∧ fullFacility.mDigTurnsRemaining = 0 ∧
    fullFacility.mMine.active = true ∧ fullFacility.mMine.exhausted = false ∧
    (fullFacility.think sampleConstants).1.mIdleReason = IdleReason.InternalStorageFull ∧
    (fullFacility.think sampleConstants).1.mStoragePool = fullFacility.mStoragePool ∧
    (fullFacility.think sampleConstants).1.mMine = fullFacility.mMine :=
  have h := think_storage_full sampleConstants fullFacility 125 125 125 125 rfl rfl rfl rfl rfl
    (by decide) (by decide) (by decide) (by decide)
  ⟨rfl, rfl, rfl, rfl, h.2.1, h.2.2.2.1, h.2.2.2.2⟩

/-- The facility while an extension runs: `k` calls of `think` with `k` below
the countdown only lower the countdown. -/
theorem thinkTimes_before_end (constants : Constants) :
    ∀ (k : Nat) (f : MineFacility), f.mForcedIdle = false → (k : Int) < f.mDigTurnsRemaining →
      f.thinkTimes constants k = ({ f with mDigTurnsRemaining := f.mDigTurnsRemaining - k }, []) := by
  intro k
  induction k with
  | zero =>
    intro f _ _
    simp only [MineFacility.thinkTimes, Nat.cast_zero, sub_zero]
  | succ k ih =>
    intro f hforce hk
    have hdig : 0 < f.mDigTurnsRemaining := by push_cast at hk; omega
    have hne : ¬ f.mDigTurnsRemaining - 1 = 0 := by push_cast at hk; omega
    have hthink := think_digging constants f hforce hdig
    rw [if_neg hne] at hthink
    simp only [MineFacility.thinkTimes, hthink]
    have hih := ih { f with mDigTurnsRemaining := f.mDigTurnsRemaining - 1 } hforce
      (by show (k : Int) < f.mDigTurnsRemaining - 1; push_cast at hk; omega)
    rw [hih]
    have harith : f.mDigTurnsRemaining - 1 - (k : Int) = f.mDigTurnsRemaining - ((k + 1 : Nat) : Int) := by
      push_cast; ring
    simp only [harith, List.append_nil]

/-- The facility at the end of an extension: as many calls of `think` as the
countdown bring it to zero, deepen the mine once and emit one signal. -/
theorem thinkTimes_at_end (constants : Constants) (n : Nat) (f : MineFacility)
    (hforce : f.mForcedIdle = false) (hn : 0 < n) (hdig : f.mDigTurnsRemaining = n) :
    f.thinkTimes constants n
      = ({ f with mDigTurnsRemaining := 0, mMine := f.mMine.increaseDepth },
         [MineFacilityEvent.extensionComplete]) := by
  obtain ⟨k, rfl⟩ : ∃ k, n = k + 1 := ⟨n - 1, by omega⟩
  have hsplit : ∀ (j : Nat) (g : MineFacility), g.thinkTimes constants (j + 1)
      = (((g.thinkTimes constants j).1.think constants).1,
         (g.thinkTimes constants j).2 ++ ((g.thinkTimes constants j).1.think constants).2) := by
    intro j
    induction j with
    | zero => intro g; simp [MineFacility.thinkTimes]
    | succ j ih =>
      intro g
      have hstep : g.thinkTimes constants (j + 1 + 1)
          = (((g.think constants).1.thinkTimes constants (j + 1)).1,
             (g.think constants).2 ++ ((g.think constants).1.thinkTimes constants (j + 1)).2) := rfl
      rw [hstep, ih (g.think constants).1]
      have hstep1 : g.thinkTimes constants (j + 1)
          = (((g.think constants).1.thinkTimes constants j).1,
             (g.think constants).2 ++ ((g.think constants).1.thinkTimes constants j).2) := rfl
      rw [hstep1]
      simp only [List.append_assoc]
  rw [hsplit k f, thinkTimes_before_end constants k f hforce (by rw [hdig]; push_cast; omega)]
  have hd : 0 < f.mDigTurnsRemaining - (k : Int) := by rw [hdig]; push_cast; omega
  have hz : f.mDigTurnsRemaining - (k : Int) - 1 = 0 := by rw [hdig]; push_cast; omega
  have hthink := think_digging constants
    { f with mDigTurnsRemaining := f.mDigTurnsRemaining - (k : Int) } hforce hd
  simp only [hz, if_true] at hthink
  simp only [hthink, List.nil_append]

/-- C19. For a facility that is not forced idle and whose digging countdown is
`n > 0`: one `think()` lowers the countdown by one and leaves the storage,
the idle state with its reason and the ore quantities of the deposit as they
are; `k < n` calls leave the depth of the deposit as it is and emit nothing;
`n` calls bring the countdown to zero, increase the depth by exactly one and
emit exactly one extension-complete signal, with the storage and the ore
quantities still unchanged. So for a facility `g` that is not forced idle and
can extend, with `BaseMineExtensionTime > 0`: after `extend()` the depth is
unchanged by fewer than `BaseMineExtensionTime` calls and one more after
exactly that many. -/
theorem think_runs_extension (constants : Constants) (f : MineFacility) (n : Nat)
    (hforce : f.mForcedIdle = false) (hn : 0 < n) (hdig : f.mDigTurnsRemaining = n) :
    ((f.think constants).1.mDigTurnsRemaining = (n : Int) - 1 ∧
      (f.think constants).1.mStoragePool = f.mStoragePool ∧
      (f.think constants).1.mStructureState = f.mStructureState ∧
      (f.think constants).1.mIdleReason = f.mIdleReason ∧
      (f.think constants).1.mMine.remaining = f.mMine.remaining) ∧
    (∀ k : Nat, k < n →
      (f.thinkTimes constants k).1.mDigTurnsRemaining = (n : Int) - k ∧
      (f.thinkTimes constants k).1.mMine.depth = f.mMine.depth ∧
      (f.thinkTimes constants k).2 = []) ∧
    ((f.thinkTimes constants n).1.mDigTurnsRemaining = 0 ∧
      (f.thinkTimes constants n).1.mMine.depth = f.mMine.depth + 1 ∧
      (f.thinkTimes constants n).2 = [MineFacilityEvent.extensionComplete] ∧
      (f.thinkTimes constants n).1.mStoragePool = f.mStoragePool ∧
      (f.thinkTimes constants n).1.mMine.remaining = f.mMine.remaining) ∧
    (∀ g : MineFacility, g.mForcedIdle = false → g.canExtend = true →
      0 < constants.BaseMineExtensionTime →
      (∀ k : Nat, (k : Int) < constants.BaseMineExtensionTime →
        ((g.extend constants).thinkTimes constants k).1.mMine.depth = g.mMine.depth ∧
        ((g.extend constants).thinkTimes constants k).2 = []) ∧
      ((g.extend constants).thinkTimes constants
          constants.BaseMineExtensionTime.toNat).1.mMine.depth = g.mMine.depth + 1 ∧
      ((g.extend constants).thinkTimes constants constants.BaseMineExtensionTime.toNat).2
        = [MineFacilityEvent.extensionComplete]) := by
  refine ⟨?_, ?_, ?_, ?_⟩
  · have hpos : 0 < f.mDigTurnsRemaining := by rw [hdig]; exact_mod_cast hn
    rw [think_digging constants f hforce hpos]
    split_ifs
    · exact ⟨by rw [hdig], rfl, rfl, rfl, rfl⟩
    · exact ⟨by rw [hdig], rfl, rfl, rfl, rfl⟩
  · intro k hk
    rw [thinkTimes_before_end constants k f hforce (by rw [hdig]; exact_mod_cast hk)]
    exact ⟨by rw [hdig], rfl, rfl⟩
  · rw [thinkTimes_at_end constants n f hforce hn hdig]
    exact ⟨rfl, rfl, rfl, rfl, rfl⟩
  · intro g hg hcan hE
    have hext : g.extend constants
        = { g with mDigTurnsRemaining := constants.BaseMineExtensionTime } := by
      unfold MineFacility.extend
      rw [hcan]
      rfl
    have hforce1 : (g.extend constants).mForcedIdle = false := by rw [hext]; exact hg
    have hdig1 : (g.extend constants).mDigTurnsRemaining = constants.BaseMineExtensionTime := by
      rw [hext]
    have hdepth1 : (g.extend constants).mMine.depth = g.mMine.depth := by rw [hext]
    have hend := thinkTimes_at_end constants constants.BaseMineExtensionTime.toNat
      (g.extend constants) hforce1 (by omega) (by rw [hdig1]; omega)
    refine ⟨?_, ?_, ?_⟩
    · intro k hk
      rw [thinkTimes_before_end constants k (g.extend constants) hforce1 (by rw [hdig1]; exact hk)]
      exact ⟨hdepth1, rfl⟩
    · rw [hend]
      show (g.extend constants).mMine.depth + 1 = _
      rw [hdepth1]
    · rw [hend]

/-- Witness of C19: the fresh facility after `extend()`, whose countdown is 10. -/
theorem think_runs_extension_witness :
    (((freshFacility [100, 100, 100, 100] [true, true, true, true]).extend
        sampleConstants).thinkTimes sampleConstants 9).1.mMine.depth = 0 ∧
    (((freshFacility [100, 100, 100, 100] [true, true, true, true]).extend
        sampleConstants).thinkTimes sampleConstants 10).1.mMine.depth = 0 + 1 ∧
    (((freshFacility [100, 100, 100, 100] [true, true, true, true]).extend
        sampleConstants).thinkTimes sampleConstants 10).2
      = [MineFacilityEvent.extensionComplete] :=
  have h := think_runs_extension sampleConstants
    ((freshFacility [100, 100, 100, 100] [true, true, true, true]).extend sampleConstants) 10
    rfl (by decide) rfl
  ⟨(h.2.1 9 (by decide)).2.1, h.2.2.1.2.1, h.2.2.1.2.2.1⟩

/-- The invariant of the extension: the countdown is not negative, the depth
of the mine is at most `maxDepth`, and below it while an extension runs. -/
theorem think_keeps_extension_bounds (constants : Constants) (f : MineFacility) (maxDepth : Int)
    (hmax : f.mMaxDepth = maxDepth) (h0 : 0 ≤ f.mDigTurnsRemaining)
    (h1 : f.mMine.depth ≤ maxDepth) (h2 : 0 < f.mDigTurnsRemaining → f.mMine.depth < maxDepth) :
    (f.think constants).1.mMaxDepth = maxDepth ∧
    0 ≤ (f.think constants).1.mDigTurnsRemaining ∧
    (f.think constants).1.mMine.depth ≤ maxDepth ∧
    (0 < (f.think constants).1.mDigTurnsRemaining →
      (f.think constants).1.mMine.depth < maxDepth) := by
  obtain ⟨hm, _, hstay, hrun⟩ := think_extension_state constants f
  by_cases hcase : f.mForcedIdle = true ∨ ¬ 0 < f.mDigTurnsRemaining
  · obtain ⟨e1, e2, _⟩ := hstay hcase
    rw [hm, e1, e2]
    exact ⟨hmax, h0, h1, h2⟩
  · simp only [not_or, not_not] at hcase
    obtain ⟨c1, c2⟩ := hcase
    obtain ⟨e1, e2, _⟩ := hrun (by simpa using c1) c2
    rw [hm, e1, e2]
    have hlt := h2 c2
    refine ⟨hmax, by omega, ?_, ?_⟩
    · split_ifs <;> omega
    · intro hpos
      rw [if_neg (by omega)]
      exact hlt

theorem extend_keeps_extension_bounds (constants : Constants) (f : MineFacility) (maxDepth : Int)
    (hE : 0 ≤ constants.BaseMineExtensionTime)
    (hmax : f.mMaxDepth = maxDepth) (h0 : 0 ≤ f.mDigTurnsRemaining)
    (h1 : f.mMine.depth ≤ maxDepth) (h2 : 0 < f.mDigTurnsRemaining → f.mMine.depth < maxDepth) :
    (f.extend constants).mMaxDepth = maxDepth ∧
    0 ≤ (f.extend constants).mDigTurnsRemaining ∧
    (f.extend constants).mMine.depth ≤ maxDepth ∧
    (0 < (f.extend constants).mDigTurnsRemaining → (f.extend constants).mMine.depth < maxDepth) := by
  unfold MineFacility.extend
  by_cases hcan : f.canExtend = true
  · rw [hcan]
    simp only [Bool.not_true, Bool.false_eq_true, if_false]
    refine ⟨hmax, hE, h1, fun _ => ?_⟩
    unfold MineFacility.canExtend at hcan
    simp only [Bool.and_eq_true, decide_eq_true_eq] at hcan
    rw [← hmax]
    exact hcan.1
  · have hcan0 : f.canExtend = false := by simpa using hcan
    rw [hcan0]
    simp only [Bool.not_false, if_true]
    exact ⟨hmax, h0, h1, h2⟩

theorem run_keeps_extension_bounds (constants : Constants)
    (hE : 0 ≤ constants.BaseMineExtensionTime) (maxDepth : Int) :
    ∀ (calls : List MineFacilityCall) (f : MineFacility),
      f.mMaxDepth = maxDepth → 0 ≤ f.mDigTurnsRemaining → f.mMine.depth ≤ maxDepth →
      (0 < f.mDigTurnsRemaining → f.mMine.depth < maxDepth) →
      (f.run constants calls).mMaxDepth = maxDepth ∧
      0 ≤ (f.run constants calls).mDigTurnsRemaining ∧
      (f.run constants calls).mMine.depth ≤ maxDepth ∧
      (0 < (f.run constants calls).mDigTurnsRemaining →
        (f.run constants calls).mMine.depth < maxDepth) := by
  intro calls
  induction calls with
  | nil => intro f hmax h0 h1 h2; exact ⟨hmax, h0, h1, h2⟩
  | cons call rest ih =>
    intro f hmax h0 h1 h2
    cases call with
    | extend =>
      obtain ⟨a, b, c, d⟩ := extend_keeps_extension_bounds constants f maxDepth hE hmax h0 h1 h2
      exact ih _ a b c d
    | think =>
      obtain ⟨a, b, c, d⟩ := think_keeps_extension_bounds constants f maxDepth hmax h0 h1 h2
      exact ih _ a b c d

/-- C20. `canExtend()` is true exactly when the depth of the deposit is below
the configured maximum depth and the digging countdown is zero, and
`extend()` changes nothing when `canExtend()` is false, so nothing while an
extension runs. With `BaseMineExtensionTime` not negative: from a state with
depth at most the maximum and no extension running, after every sequence of
calls of `extend()` and `think()` the countdown is not negative, the depth is
at most the configured maximum, which is unchanged, and the depth is below
the maximum while an extension runs. -/
theorem extend_respects_max_depth (constants : Constants)
    (hE : 0 ≤ constants.BaseMineExtensionTime) :
    (∀ f : MineFacility,
      f.canExtend = true ↔ (f.mMine.depth < f.mMaxDepth ∧ f.mDigTurnsRemaining = 0)) ∧
    (∀ f : MineFacility, f.canExtend = false → f.extend constants = f) ∧
    (∀ f : MineFacility, 0 < f.mDigTurnsRemaining → f.extend constants = f) ∧
    (∀ (f : MineFacility) (calls : List MineFacilityCall),
      f.mMine.depth ≤ f.mMaxDepth → f.mDigTurnsRemaining = 0 →
      (f.run constants calls).mMaxDepth = f.mMaxDepth ∧
      0 ≤ (f.run constants calls).mDigTurnsRemaining ∧
      (f.run constants calls).mMine.depth ≤ f.mMaxDepth ∧
      (0 < (f.run constants calls).mDigTurnsRemaining →
        (f.run constants calls).mMine.depth < f.mMaxDepth)) := by
  refine ⟨?_, ?_, ?_, ?_⟩
  · intro f
    unfold MineFacility.canExtend
    simp only [Bool.and_eq_true, decide_eq_true_eq]
  · intro f h
    unfold MineFacility.extend
    rw [h]
    rfl
  · intro f h
    have hcan : f.canExtend = false := by
      unfold MineFacility.canExtend
      have : ¬ f.mDigTurnsRemaining = 0 := by omega
      simp [this]
    unfold MineFacility.extend
    rw [hcan]
    rfl
  · intro f calls h1 h0
    exact run_keeps_extension_bounds constants hE f.mMaxDepth calls f rfl (by omega) h1
      (fun h => by omega)

/-- Witness of C20: with an extension time of 2, the facility at depth 2 of 3
ends at depth 3 with no extension running. -/
theorem extend_respects_max_depth_witness :
    (0 : Int) ≤ (⟨10, 2, 80⟩ : Constants).BaseMineExtensionTime ∧
    (deepFacility.run ⟨10, 2, 80⟩ extensionCalls).mMine.depth = 3 ∧
    (deepFacility.run ⟨10, 2, 80⟩ extensionCalls).mMaxDepth = deepFacility.mMaxDepth ∧
    0 ≤ (deepFacility.run ⟨10, 2, 80⟩ extensionCalls).mDigTurnsRemaining ∧
    (deepFacility.run ⟨10, 2, 80⟩ extensionCalls).mMine.depth ≤ deepFacility.mMaxDepth :=
  have h := (extend_respects_max_depth ⟨10, 2, 80⟩ (by decide)).2.2.2 deepFacility
    extensionCalls (by decide) rfl
  ⟨by decide, by decide, h.1, h.2.1, h.2.2.1⟩

theorem mem_pointsInRectangle_iff (size : Vector) (p : Point) :
    p ∈ pointsInRectangle size ↔ (0 ≤ p.x ∧ p.x < size.x ∧ 0 ≤ p.y ∧ p.y < size.y) := by
  constructor
  · exact mem_pointsInRectangle size p
  · rintro ⟨hx0, hx1, hy0, hy1⟩
    unfold pointsInRectangle
    rw [List.mem_flatMap]
    refine ⟨p.y.toNat, List.mem_range.2 (by omega), ?_⟩
    rw [List.mem_map]
    refine ⟨p.x.toNat, List.mem_range.2 (by omega), ?_⟩
    simp only [Int.ofNat_eq_coe]
    rw [Int.toNat_of_nonneg hx0, Int.toNat_of_nonneg hy0]

theorem mem_levels_iff (maxDepth depth : Int) :
    depth ∈ levels maxDepth ↔ (0 ≤ depth ∧ depth ≤ maxDepth) := by
  constructor
  · exact mem_levels maxDepth depth
  · rintro ⟨h0, h1⟩
    unfold levels
    rw [List.mem_map]
    refine ⟨depth.toNat, List.mem_range.2 (by omega), ?_⟩
    simp only [Int.ofNat_eq_coe]
    rw [Int.toNat_of_nonneg h0]

/-- The tiles after the inner loop of `buildTerrainMap`: the tile of every
visited position is the built tile, the others are untouched. -/
theorem buildTerrainMapPoints_tiles (heightmap : Image) (depth : Int) :
    ∀ (points : List Point) (m : TileMap), m.WellFormed →
      (∀ p ∈ points, m.InBounds ⟨p, depth⟩) →
      ∃ m1, buildTerrainMapPoints heightmap depth points m = Except.ok m1 ∧
        m1.WellFormed ∧ m1.SameShape m ∧
        (∀ q, m.InBounds q → q.z = depth → q.xy ∈ points →
          m1.getTile q = Except.ok (builtTile heightmap q)) ∧
        (∀ q, m.InBounds q → ¬ (q.z = depth ∧ q.xy ∈ points) → m1.getTile q = m.getTile q) := by
  intro points
  induction points with
  | nil =>
    intro m hm _
    refine ⟨m, rfl, hm, ⟨rfl, rfl⟩, ?_, fun _ _ _ => rfl⟩
    intro q _ _ h
    cases h
  | cons point rest ih =>
    intro m hm hall
    have hp := hall point (List.mem_cons_self _ _)
    obtain ⟨tile, ht⟩ := getTileMut_of_inBounds m hm ⟨point, depth⟩ hp
    simp only [buildTerrainMapPoints, ht]
    have hbuilt : (if depth > 0 then
        (Tile.create ⟨point, depth⟩ (((heightmap point).red.val : Int) / 50)).setExcavated false
        else Tile.create ⟨point, depth⟩ (((heightmap point).red.val : Int) / 50))
          = builtTile heightmap ⟨point, depth⟩ := rfl
    rw [hbuilt]
    obtain ⟨m1, hrun, hwf, hshape, hin, hout⟩ :=
      ih (m.writeTile (m.tileSlot ⟨point, depth⟩) (builtTile heightmap ⟨point, depth⟩))
        (wellFormed_writeTile m hm _ _) (by
          intro p hpm
          exact hall p (List.mem_cons_of_mem _ hpm))
    refine ⟨m1, hrun, hwf, hshape, ?_, ?_⟩
    · intro q hq hz hmem
      by_cases hrest : q.xy ∈ rest
      · exact hin q hq hz hrest
      · rw [hout q hq (fun h => hrest h.2)]
        have hqp : q = ⟨point, depth⟩ := by
          rcases List.mem_cons.1 hmem with h | h
          · cases q
            simp only at h hz
            rw [h, hz]
          · exact absurd h hrest
        rw [hqp]
        exact getTile_writeTile_same m hm _ hp _
    · intro q hq hnot
      have hrest : ¬ (q.z = depth ∧ q.xy ∈ rest) :=
        fun h => hnot ⟨h.1, List.mem_cons_of_mem _ h.2⟩
      rw [hout q hq hrest]
      have hne : q ≠ ⟨point, depth⟩ := by
        intro h
        apply hnot
        rw [h]
        exact ⟨rfl, List.mem_cons_self _ _⟩
      exact getTile_writeTile_other m hm _ q hp hq hne _

/-- The tiles after the outer loop of `buildTerrainMap`. -/
theorem buildTerrainMapLevels_tiles (heightmap : Image) :
    ∀ (depths : List Int) (m : TileMap), m.WellFormed →
      (∀ depth ∈ depths, 0 ≤ depth ∧ depth ≤ m.mMaxDepth) →
      ∃ m1, buildTerrainMapLevels heightmap depths m = Except.ok m1 ∧
        m1.WellFormed ∧ m1.SameShape m ∧
        (∀ q, m.InBounds q → q.z ∈ depths →
          m1.getTile q = Except.ok (builtTile heightmap q)) ∧
        (∀ q, m.InBounds q → q.z ∉ depths → m1.getTile q = m.getTile q) := by
  intro depths
  induction depths with
  | nil =>
    intro m hm _
    refine ⟨m, rfl, hm, ⟨rfl, rfl⟩, ?_, fun _ _ _ => rfl⟩
    intro q _ h
    cases h
  | cons depth rest ih =>
    intro m hm hall
    have hd := hall depth (List.mem_cons_self _ _)
    obtain ⟨m1, h1, hwf1, hs1, hin1, hout1⟩ := buildTerrainMapPoints_tiles heightmap depth
      (pointsInRectangle m.mSizeInTiles) m hm (by
        intro p hp
        obtain ⟨a, b, c, d⟩ := mem_pointsInRectangle _ p hp
        exact ⟨a, b, c, d, hd.1, hd.2⟩)
    obtain ⟨m2, h2, hwf2, hs2, hin2, hout2⟩ := ih m1 hwf1 (by
      intro d hdm
      have := hall d (List.mem_cons_of_mem _ hdm)
      rw [hs1.2]; exact this)
    have hb : ∀ q, m.InBounds q → m1.InBounds q := by
      intro q hq
      unfold TileMap.InBounds at hq ⊢
      rw [hs1.1, hs1.2]
      exact hq
    refine ⟨m2, ?_, hwf2, ⟨hs2.1.trans hs1.1, hs2.2.trans hs1.2⟩, ?_, ?_⟩
    · simp only [buildTerrainMapLevels, h1, h2]
    · intro q hq hz
      by_cases hrest : q.z ∈ rest
      · exact hin2 q (hb q hq) hrest
      · rw [hout2 q (hb q hq) hrest]
        have hzd : q.z = depth := by
          rcases List.mem_cons.1 hz with h | h
          · exact h
          · exact absurd h hrest
        exact hin1 q hq hzd
          ((mem_pointsInRectangle_iff _ _).2 ⟨hq.1, hq.2.1, hq.2.2.1, hq.2.2.2.1⟩)
    · intro q hq hz
      have hrest : q.z ∉ rest := fun h => hz (List.mem_cons_of_mem _ h)
      rw [hout2 q (hb q hq) hrest]
      exact hout1 q hq (fun h => hz (by rw [h.1]; exact List.mem_cons_self _ _))

/-- The tiles of the map that `buildTerrainMap` builds: every tile is the
built tile of its position. -/
theorem buildTerrainMap_tiles (m : TileMap) (heightmap : Image)
    (hw : 0 ≤ m.mSizeInTiles.x) (hh : 0 ≤ m.mSizeInTiles.y)
    (hwh : m.mSizeInTiles.x * m.mSizeInTiles.y < 2 ^ 31)
    (hd0 : 0 ≤ m.mMaxDepth) (hd1 : m.mMaxDepth < 2 ^ 31) :
    ∃ m1, m.buildTerrainMap heightmap = Except.ok m1 ∧
      m1.WellFormed ∧ m1.SameShape m ∧
      ∀ q, m1.InBounds q → m1.getTile q = Except.ok (builtTile heightmap q) := by
  have hwh0 : 0 ≤ m.mSizeInTiles.x * m.mSizeInTiles.y := Int.mul_nonneg hw hh
  have e1 : toSizeT (m.mSizeInTiles.x * m.mSizeInTiles.y)
      = (m.mSizeInTiles.x * m.mSizeInTiles.y).toNat := toSizeT_eq hwh0 (by omega)
  have e2 : toSizeT m.mMaxDepth = m.mMaxDepth.toNat := toSizeT_eq hd0 (by omega)
  have e3 : wrapSizeT (toSizeT m.mMaxDepth + 1) = m.mMaxDepth.toNat + 1 := by
    rw [e2]; unfold wrapSizeT; exact Nat.mod_eq_of_lt (by omega)
  have b1 : (m.mSizeInTiles.x * m.mSizeInTiles.y).toNat < 2 ^ 31 := by omega
  have b2 : m.mMaxDepth.toNat + 1 ≤ 2 ^ 31 := by omega
  have b3 : (m.mSizeInTiles.x * m.mSizeInTiles.y).toNat * (m.mMaxDepth.toNat + 1) < 2 ^ 64 := by
    calc (m.mSizeInTiles.x * m.mSizeInTiles.y).toNat * (m.mMaxDepth.toNat + 1)
        ≤ 2 ^ 31 * 2 ^ 31 := Nat.mul_le_mul (le_of_lt b1) b2
      _ < 2 ^ 64 := by norm_num
  have e4 : wrapSizeT (toSizeT (m.mSizeInTiles.x * m.mSizeInTiles.y)
      * wrapSizeT (toSizeT m.mMaxDepth + 1))
        = (m.mSizeInTiles.x * m.mSizeInTiles.y).toNat * (m.mMaxDepth.toNat + 1) := by
    rw [e1, e3]; unfold wrapSizeT; exact Nat.mod_eq_of_lt b3
  have hlen : ∀ n, (resize m.mTileMap n).length = n := by
    intro n
    unfold resize
    simp only [List.length_append, List.length_take, List.length_replicate]
    omega
  have hwf : ∀ n, n = (m.mSizeInTiles.x * m.mSizeInTiles.y).toNat * (m.mMaxDepth.toNat + 1) →
      ({ m with mTileMap := resize m.mTileMap n } : TileMap).WellFormed := by
    intro n hn'
    refine ⟨hw, hh, hd0, ?_, ?_⟩
    · show ((resize m.mTileMap n).length : Int) = _
      rw [hlen, hn']
      push_cast
      rw [Int.toNat_of_nonneg hwh0, Int.toNat_of_nonneg hd0]
    · show (resize m.mTileMap n).length < _
      rw [hlen, hn']; exact b3
  obtain ⟨m1, h1, hwf1, hs1, hin1, _⟩ := buildTerrainMapLevels_tiles heightmap
    (levels m.mMaxDepth) _ (hwf _ rfl) (fun depth hdm => mem_levels _ depth hdm)
  refine ⟨m1, ?_, hwf1, hs1, ?_⟩
  · unfold TileMap.buildTerrainMap
    simp only [e4]
    exact h1
  · intro q hq
    have hq0 : m.InBounds q := by
      unfold TileMap.InBounds at hq ⊢
      rw [hs1.1, hs1.2] at hq
      exact hq
    exact hin1 q hq0 ((mem_levels_iff _ _).2 ⟨hq0.2.2.2.2.1, hq0.2.2.2.2.2⟩)

/-- The mine part of `serialize` returns, with one record per listed location,
when every listed location holds a mine. -/
theorem serializeMines_spec (m : TileMap) :
    ∀ (locations : List Point), (∀ p ∈ locations, m.HasMineAt ⟨p, 0⟩) →
      ∃ records, serializeMines m locations = Except.ok records ∧
        mineRecordPoints records = locations := by
  intro locations
  induction locations with
  | nil => intro _; exact ⟨[], rfl, rfl⟩
  | cons location rest ih =>
    intro hall
    obtain ⟨tile, ht, hmine⟩ := hall location (List.mem_cons_self _ _)
    obtain ⟨records, hrec, hpts⟩ := ih (fun p hp => hall p (List.mem_cons_of_mem _ hp))
    have hmut : m.getTileMut ⟨location, 0⟩ = Except.ok (m.tileSlot ⟨location, 0⟩, tile) := by
      unfold TileMap.getTileMut
      rw [ht]
    obtain ⟨mine, hsome⟩ : ∃ mine, tile.mMine = some mine := by
      unfold Tile.hasMine at hmine
      exact Option.isSome_iff_exists.1 hmine
    refine ⟨mine.serialize location :: records, ?_, ?_⟩
    · simp only [serializeMines, hmut, hsome, hrec]
    · unfold mineRecordPoints at hpts ⊢
      simp only [List.map_cons, Mine.serialize, hpts]

/-- The records that the tile part of `serialize` writes for one level. -/
theorem serializeTilesPoints_spec (m : TileMap) (hm : m.WellFormed) (depth : Int) :
    ∀ (points : List Point), (∀ p ∈ points, m.InBounds ⟨p, depth⟩) →
      ∃ records, serializeTilesPoints m depth points = Except.ok records ∧
        ∀ r : TileRecord, r ∈ records ↔
          (r.depth = depth ∧ (⟨r.x, r.y⟩ : Point) ∈ points ∧
            ∃ tile, m.getTile ⟨⟨r.x, r.y⟩, r.depth⟩ = Except.ok tile ∧
              serializeTileTest r.depth tile = true ∧ r.index = tile.mIndex) := by
  intro points
  induction points with
  | nil =>
    intro _
    refine ⟨[], rfl, ?_⟩
    intro r
    constructor
    · intro h; cases h
    · rintro ⟨_, h, _⟩; cases h
  | cons point rest ih =>
    intro hall
    have hp := hall point (List.mem_cons_self _ _)
    obtain ⟨tile, ht⟩ := getTileMut_of_inBounds m hm ⟨point, depth⟩ hp
    have hget := (getTileMut_ok m _ _ _ ht).1
    obtain ⟨records, hrec, hmem⟩ := ih (fun p hpm => hall p (List.mem_cons_of_mem _ hpm))
    refine ⟨(if serializeTileTest depth tile = true then
        [{ x := point.x, y := point.y, depth := depth, index := tile.mIndex }]
      else []) ++ records, by simp only [serializeTilesPoints, ht, hrec], ?_⟩
    intro r
    rw [List.mem_append, hmem r]
    constructor
    · rintro (h | ⟨h1, h2, h3⟩)
      · split at h
        · rename_i htest
          rw [List.mem_singleton] at h
          subst h
          exact ⟨rfl, List.mem_cons_self _ _, tile, hget, htest, rfl⟩
        · cases h
      · exact ⟨h1, List.mem_cons_of_mem _ h2, h3⟩
    · rintro ⟨h1, h2, tile1, h3, h4, h5⟩
      rcases List.mem_cons.1 h2 with h | h
      · left
        have hpos : (⟨⟨r.x, r.y⟩, r.depth⟩ : MapCoordinate) = ⟨point, depth⟩ := by
          rw [h, h1]
        rw [hpos, hget] at h3
        cases h3
        rw [h1] at h4
        rw [if_pos h4, List.mem_singleton]
        cases r
        simp only at h h1 h5
        cases h
        rw [h1, h5]
      · right
        exact ⟨h1, h, tile1, h3, h4, h5⟩

/-- The records that the tile part of `serialize` writes for a list of levels. -/
theorem serializeTilesLevels_spec (m : TileMap) (hm : m.WellFormed) :
    ∀ (depths : List Int), (∀ depth ∈ depths, 0 ≤ depth ∧ depth ≤ m.mMaxDepth) →
      ∃ records, serializeTilesLevels m depths = Except.ok records ∧
        ∀ r : TileRecord, r ∈ records ↔
          (r.depth ∈ depths ∧
            ∃ tile, m.getTile ⟨⟨r.x, r.y⟩, r.depth⟩ = Except.ok tile ∧
              serializeTileTest r.depth tile = true ∧ r.index = tile.mIndex) := by
  intro depths
  induction depths with
  | nil =>
    intro _
    refine ⟨[], rfl, ?_⟩
    intro r
    constructor
    · intro h; cases h
    · rintro ⟨h, _⟩; cases h
  | cons depth rest ih =>
    intro hall
    have hd := hall depth (List.mem_cons_self _ _)
    obtain ⟨records, hrec, hmem⟩ := serializeTilesPoints_spec m hm depth
      (pointsInRectangle m.mSizeInTiles) (by
        intro p hp
        obtain ⟨a, b, c, d⟩ := mem_pointsInRectangle _ p hp
        exact ⟨a, b, c, d, hd.1, hd.2⟩)
    obtain ⟨later, hlater, hmem2⟩ := ih (fun d hdm => hall d (List.mem_cons_of_mem _ hdm))
    refine ⟨records ++ later, by simp only [serializeTilesLevels, hrec, hlater], ?_⟩
    intro r
    rw [List.mem_append, hmem r, hmem2 r]
    constructor
    · rintro (⟨h1, _, h3⟩ | ⟨h1, h3⟩)
      · exact ⟨by rw [h1]; exact List.mem_cons_self _ _, h3⟩
      · exact ⟨List.mem_cons_of_mem _ h1, h3⟩
    · rintro ⟨h1, tile, h3, h4, h5⟩
      rcases List.mem_cons.1 h1 with h | h
      · left
        have hb := inBounds_of_getTile_ok m _ tile h3
        exact ⟨h, (mem_pointsInRectangle_iff _ _).2 ⟨hb.1, hb.2.1, hb.2.2.1, hb.2.2.2.1⟩,
          tile, h3, h4, h5⟩
      · right
        exact ⟨h, tile, h3, h4, h5⟩

/-- The element that `serialize` fills, for a map whose listed mine locations
all hold a mine. -/
theorem serialize_spec (m : TileMap) (hm : m.WellFormed)
    (hmines : ∀ p ∈ m.mMineLocations, m.HasMineAt ⟨p, 0⟩) :
    ∃ saved, m.serialize = Except.ok saved ∧
      saved.currentdepth = m.mOriginTilePosition.z ∧
      saved.viewlocation_x = m.mOriginTilePosition.xy.x ∧
      saved.viewlocation_y = m.mOriginTilePosition.xy.y ∧
      mineRecordPoints saved.mines = m.mMineLocations ∧
      ∀ r : TileRecord, r ∈ saved.tiles ↔
        ∃ tile, m.getTile ⟨⟨r.x, r.y⟩, r.depth⟩ = Except.ok tile ∧
          serializeTileTest r.depth tile = true ∧ r.index = tile.mIndex := by
  obtain ⟨mines, hmrec, hpts⟩ := serializeMines_spec m m.mMineLocations hmines
  obtain ⟨tiles, htrec, hmem⟩ := serializeTilesLevels_spec m hm (levels m.mMaxDepth)
    (fun depth hdm => mem_levels _ depth hdm)
  refine ⟨⟨m.mOriginTilePosition.z, m.mOriginTilePosition.xy.x, m.mOriginTilePosition.xy.y,
    mines, tiles⟩, by simp only [TileMap.serialize, hmrec, htrec], rfl, rfl, rfl, hpts, ?_⟩
  intro r
  show r ∈ tiles ↔ _
  rw [hmem r]
  constructor
  · rintro ⟨_, h⟩; exact h
  · rintro ⟨tile, h3, h4, h5⟩
    have hb := inBounds_of_getTile_ok m _ tile h3
    exact ⟨(mem_levels_iff _ _).2 ⟨hb.2.2.2.2.1, hb.2.2.2.2.2⟩, tile, h3, h4, h5⟩

/-- The test of `serialize` against the tiles named by its comment: it also
passes the tiles below the surface that are bulldozed and not excavated. -/
theorem serializeTileTest_iff (depth : Int) (tile : Tile) (hd : 0 ≤ depth) :
    serializeTileTest depth tile = true ↔
      (writtenBySpecification depth tile = true ∨
        (depth > 0 ∧ tile.mExcavated = false ∧ tile.mIndex = TerrainType.Dozed ∧
          tile.empty = true ∧ tile.mMine = none)) := by
  unfold serializeTileTest writtenBySpecification
  cases hex : tile.mExcavated <;> cases hem : tile.empty <;> cases hmine : tile.mMine <;>
    by_cases hidx : tile.mIndex = TerrainType.Dozed <;>
    by_cases hpos : depth > 0 <;>
    simp [hidx, hpos] <;> omega

/-- The loop of `deserialize` over the `mine` elements leaves the view and the
excavated flag of every tile as they are. -/
theorem deserializeMines_tiles :
    ∀ (records : List MineRecord) (m : TileMap), m.WellFormed →
      (∀ r ∈ records, m.InBounds ⟨⟨r.x, r.y⟩, 0⟩) →
      ∃ m1, deserializeMines records m = Except.ok m1 ∧
        m1.WellFormed ∧ m1.SameShape m ∧
        m1.mOriginTilePosition = m.mOriginTilePosition ∧
        ∀ q tile0, m.getTile q = Except.ok tile0 →
          ∃ tile1, m1.getTile q = Except.ok tile1 ∧ tile1.mExcavated = tile0.mExcavated := by
  intro records
  induction records with
  | nil =>
    intro m hm _
    exact ⟨m, rfl, hm, ⟨rfl, rfl⟩, rfl, fun q tile0 h => ⟨tile0, h, rfl⟩⟩
  | cons rec rest ih =>
    intro m hm hall
    have hp := hall rec (List.mem_cons_self _ _)
    obtain ⟨tile, ht⟩ := getTileMut_of_inBounds m hm ⟨⟨rec.x, rec.y⟩, 0⟩ hp
    have hget := (getTileMut_ok m _ _ tile ht).1
    simp only [deserializeMines, ht]
    have hw := wellFormed_writeTile m hm (m.tileSlot ⟨⟨rec.x, rec.y⟩, 0⟩)
      ((tile.pushMine (some rec.mine)).setIndex TerrainType.Dozed)
    have hm' : ((m.writeTile (m.tileSlot ⟨⟨rec.x, rec.y⟩, 0⟩)
        ((tile.pushMine (some rec.mine)).setIndex TerrainType.Dozed)).pushMineLocation
          ⟨rec.x, rec.y⟩).WellFormed := ⟨hw.1, hw.2, hw.3, hw.4, hw.5⟩
    obtain ⟨m1, hrun, hwf, hshape, horigin, htiles⟩ := ih _ hm' (by
      intro r hr
      exact hall r (List.mem_cons_of_mem _ hr))
    refine ⟨m1, hrun, hwf, hshape, horigin, ?_⟩
    intro q tile0 hq
    have hqb := inBounds_of_getTile_ok m q tile0 hq
    have hcongr : ((m.writeTile (m.tileSlot ⟨⟨rec.x, rec.y⟩, 0⟩)
        ((tile.pushMine (some rec.mine)).setIndex TerrainType.Dozed)).pushMineLocation
          ⟨rec.x, rec.y⟩).getTile q
        = (m.writeTile (m.tileSlot ⟨⟨rec.x, rec.y⟩, 0⟩)
          ((tile.pushMine (some rec.mine)).setIndex TerrainType.Dozed)).getTile q :=
      getTile_congr _ _ rfl rfl rfl q
    by_cases hqp : q = ⟨⟨rec.x, rec.y⟩, 0⟩
    · have hnew : ((m.writeTile (m.tileSlot ⟨⟨rec.x, rec.y⟩, 0⟩)
          ((tile.pushMine (some rec.mine)).setIndex TerrainType.Dozed)).pushMineLocation
            ⟨rec.x, rec.y⟩).getTile q
          = Except.ok ((tile.pushMine (some rec.mine)).setIndex TerrainType.Dozed) := by
        rw [hcongr, hqp]
        exact getTile_writeTile_same m hm _ hp _
      obtain ⟨tile1, h1, h2⟩ := htiles q _ hnew
      refine ⟨tile1, h1, ?_⟩
      rw [h2]
      rw [hqp, hget] at hq
      cases hq
      rfl
    · have hold : ((m.writeTile (m.tileSlot ⟨⟨rec.x, rec.y⟩, 0⟩)
          ((tile.pushMine (some rec.mine)).setIndex TerrainType.Dozed)).pushMineLocation
            ⟨rec.x, rec.y⟩).getTile q = Except.ok tile0 := by
        rw [hcongr, getTile_writeTile_other m hm _ q hp hqb hqp, hq]
      exact htiles q tile0 hold

/-- The loop of `deserialize` over the `tile` elements: a tile without record
is left as it is; a tile with records gets the terrain category of its
records and, below the surface, the excavated flag. -/
theorem deserializeTiles_tiles :
    ∀ (records : List TileRecord) (m : TileMap), m.WellFormed →
      (∀ r ∈ records, m.InBounds ⟨⟨r.x, r.y⟩, r.depth⟩) →
      ∃ m1, deserializeTiles records m = Except.ok m1 ∧
        m1.WellFormed ∧ m1.SameShape m ∧
        m1.mOriginTilePosition = m.mOriginTilePosition ∧
        ∀ q tile0, m.getTile q = Except.ok tile0 →
          ∃ tile1, m1.getTile q = Except.ok tile1 ∧
            ((∀ r ∈ records, (⟨⟨r.x, r.y⟩, r.depth⟩ : MapCoordinate) ≠ q) → tile1 = tile0) ∧
            (∀ index : Int, (∃ r ∈ records, (⟨⟨r.x, r.y⟩, r.depth⟩ : MapCoordinate) = q) →
              (∀ r ∈ records, (⟨⟨r.x, r.y⟩, r.depth⟩ : MapCoordinate) = q → r.index = index) →
              tile1.mIndex = index ∧
              tile1.mExcavated = (decide (q.z > 0) || tile0.mExcavated)) := by
  intro records
  induction records with
  | nil =>
    intro m hm _
    refine ⟨m, rfl, hm, ⟨rfl, rfl⟩, rfl, fun q tile0 h => ⟨tile0, h, fun _ => rfl, ?_⟩⟩
    rintro index ⟨r, hr, _⟩
    cases hr
  | cons rec rest ih =>
    intro m hm hall
    have hp := hall rec (List.mem_cons_self _ _)
    obtain ⟨tile, ht⟩ := getTileMut_of_inBounds m hm ⟨⟨rec.x, rec.y⟩, rec.depth⟩ hp
    have hget := (getTileMut_ok m _ _ tile ht).1
    simp only [deserializeTiles, ht]
    have hw := wellFormed_writeTile m hm (m.tileSlot ⟨⟨rec.x, rec.y⟩, rec.depth⟩)
      (if rec.depth > 0 then (tile.setIndex rec.index).setExcavated true
        else tile.setIndex rec.index)
    obtain ⟨m1, hrun, hwf, hshape, horigin, htiles⟩ := ih _ hw (by
      intro r hr
      exact hall r (List.mem_cons_of_mem _ hr))
    refine ⟨m1, hrun, hwf, hshape, horigin, ?_⟩
    intro q tile0 hq
    have hqb := inBounds_of_getTile_ok m q tile0 hq
    by_cases hqp : q = ⟨⟨rec.x, rec.y⟩, rec.depth⟩
    · have hnew : (m.writeTile (m.tileSlot ⟨⟨rec.x, rec.y⟩, rec.depth⟩)
          (if rec.depth > 0 then (tile.setIndex rec.index).setExcavated true
            else tile.setIndex rec.index)).getTile q
          = Except.ok (if rec.depth > 0 then (tile.setIndex rec.index).setExcavated true
            else tile.setIndex rec.index) := by
        rw [hqp]
        exact getTile_writeTile_same m hm _ hp _
      have htile : tile = tile0 := by
        rw [hqp, hget] at hq
        cases hq
        rfl
      have hz : q.z = rec.depth := by rw [hqp]
      obtain ⟨tile1, h1, hnone, hsome⟩ := htiles q _ hnew
      refine ⟨tile1, h1, ?_, ?_⟩
      · intro hno
        exact absurd hqp.symm (hno rec (List.mem_cons_self _ _))
      · intro index _ hall2
        have hidx : rec.index = index := hall2 rec (List.mem_cons_self _ _) hqp.symm
        by_cases hrest : ∃ r ∈ rest, (⟨⟨r.x, r.y⟩, r.depth⟩ : MapCoordinate) = q
        · obtain ⟨e1, e2⟩ := hsome index hrest
            (fun r hr hrq => hall2 r (List.mem_cons_of_mem _ hr) hrq)
          refine ⟨e1, ?_⟩
          rw [e2, hz, ← htile]
          by_cases hd : rec.depth > 0
          · simp [hd]
          · simp [hd, Tile.setIndex]
        · have hno : ∀ r ∈ rest, (⟨⟨r.x, r.y⟩, r.depth⟩ : MapCoordinate) ≠ q :=
            fun r hr hrq => hrest ⟨r, hr, hrq⟩
          rw [hnone hno, hz, ← htile, ← hidx]
          by_cases hd : rec.depth > 0
          · simp [hd, Tile.setIndex, Tile.setExcavated]
          · simp [hd, Tile.setIndex]
    · have hold : (m.writeTile (m.tileSlot ⟨⟨rec.x, rec.y⟩, rec.depth⟩)
          (if rec.depth > 0 then (tile.setIndex rec.index).setExcavated true
            else tile.setIndex rec.index)).getTile q = Except.ok tile0 := by
        rw [getTile_writeTile_other m hm _ q hp hqb hqp, hq]
      obtain ⟨tile1, h1, hnone, hsome⟩ := htiles q tile0 hold
      refine ⟨tile1, h1, ?_, ?_⟩
      · intro hno
        exact hnone (fun r hr => hno r (List.mem_cons_of_mem _ hr))
      · rintro index ⟨r, hr, hrq⟩ hall2
        have hr' : r ∈ rest := by
          rcases List.mem_cons.1 hr with h | h
          · subst h; exact absurd hrq.symm hqp
          · exact h
        exact hsome index ⟨r, hr', hrq⟩
          (fun r2 hr2 hrq2 => hall2 r2 (List.mem_cons_of_mem _ hr2) hrq2)

/-- Loading what `serialize` wrote into a well-formed map of the same
dimensions: the load returns, the view is the one that `mapViewLocation`
sets from the saved parameters, and every tile with a record has the terrain
category of the original tile and is excavated when it lies below the surface
or was excavated in the map loaded into. -/
theorem serialize_deserialize (m fresh : TileMap) (hm : m.WellFormed)
    (hfresh : fresh.WellFormed) (hshape : fresh.SameShape m)
    (hmines : ∀ p ∈ m.mMineLocations, m.HasMineAt ⟨p, 0⟩) :
    ∃ saved loaded, m.serialize = Except.ok saved ∧
      fresh.deserialize saved = Except.ok loaded ∧
      loaded.WellFormed ∧ loaded.SameShape m ∧
      loaded.mOriginTilePosition = (fresh.mapViewLocation
        ⟨⟨m.mOriginTilePosition.xy.x, m.mOriginTilePosition.xy.y⟩,
          m.mOriginTilePosition.z⟩).mOriginTilePosition ∧
      (∀ r : TileRecord, r ∈ saved.tiles ↔
        ∃ tile, m.getTile ⟨⟨r.x, r.y⟩, r.depth⟩ = Except.ok tile ∧
          serializeTileTest r.depth tile = true ∧ r.index = tile.mIndex) ∧
      ∀ r ∈ saved.tiles, ∃ original freshTile loadedTile,
        m.getTile ⟨⟨r.x, r.y⟩, r.depth⟩ = Except.ok original ∧
        fresh.getTile ⟨⟨r.x, r.y⟩, r.depth⟩ = Except.ok freshTile ∧
        loaded.getTile ⟨⟨r.x, r.y⟩, r.depth⟩ = Except.ok loadedTile ∧
        loadedTile.mIndex = original.mIndex ∧
        loadedTile.mExcavated = (decide (r.depth > 0) || freshTile.mExcavated) := by
  obtain ⟨saved, hsave, hz, hx, hy, hpts, hrecords⟩ := serialize_spec m hm hmines
  have hb : ∀ q, m.InBounds q → fresh.InBounds q := by
    intro q hq
    unfold TileMap.InBounds at hq ⊢
    rw [hshape.1, hshape.2]
    exact hq
  have hv : (fresh.mapViewLocation
      ⟨⟨saved.viewlocation_x, saved.viewlocation_y⟩, saved.currentdepth⟩).WellFormed :=
    ⟨hfresh.1, hfresh.2, hfresh.3, hfresh.4, hfresh.5⟩
  have hminesIn : ∀ r ∈ saved.mines, fresh.InBounds ⟨⟨r.x, r.y⟩, 0⟩ := by
    intro r hr
    have hmem : (⟨r.x, r.y⟩ : Point) ∈ m.mMineLocations := by
      rw [← hpts]
      unfold mineRecordPoints
      exact List.mem_map.2 ⟨r, hr, rfl⟩
    obtain ⟨tile, ht, _⟩ := hmines _ hmem
    exact hb _ (inBounds_of_getTile_ok m _ tile ht)
  have htilesIn : ∀ r ∈ saved.tiles, fresh.InBounds ⟨⟨r.x, r.y⟩, r.depth⟩ := by
    intro r hr
    obtain ⟨tile, ht, _⟩ := (hrecords r).1 hr
    exact hb _ (inBounds_of_getTile_ok m _ tile ht)
  obtain ⟨m2, h2, hwf2, hs2, ho2, ht2⟩ := deserializeMines_tiles saved.mines _ hv hminesIn
  obtain ⟨m3, h3, hwf3, hs3, ho3, ht3⟩ := deserializeTiles_tiles saved.tiles m2 hwf2 (by
    intro r hr
    have := htilesIn r hr
    unfold TileMap.InBounds at this ⊢
    rw [hs2.1, hs2.2]
    exact this)
  refine ⟨saved, m3, hsave, ?_, hwf3,
    ⟨(hs3.1.trans hs2.1).trans hshape.1, (hs3.2.trans hs2.2).trans hshape.2⟩, ?_, hrecords, ?_⟩
  · unfold TileMap.deserialize
    simp only [h2, h3]
  · rw [ho3, ho2, hx, hy, hz]
  · intro r hr
    obtain ⟨original, horig, _, hindex⟩ := (hrecords r).1 hr
    obtain ⟨freshTile, hf⟩ := getTile_of_inBounds fresh hfresh _ (htilesIn r hr)
    have hfv : (fresh.mapViewLocation
        ⟨⟨saved.viewlocation_x, saved.viewlocation_y⟩, saved.currentdepth⟩).getTile
          ⟨⟨r.x, r.y⟩, r.depth⟩ = fresh.getTile ⟨⟨r.x, r.y⟩, r.depth⟩ :=
      getTile_congr _ _ rfl rfl rfl _
    obtain ⟨tile2, hg2, hex2⟩ := ht2 ⟨⟨r.x, r.y⟩, r.depth⟩ _ (hfv.trans hf)
    obtain ⟨tile3, hg3, _, hsome⟩ := ht3 ⟨⟨r.x, r.y⟩, r.depth⟩ tile2 hg2
    obtain ⟨e1, e2⟩ := hsome original.mIndex ⟨r, hr, rfl⟩ (by
      intro r2 hr2 hpos
      obtain ⟨tile, ht, _, hidx⟩ := (hrecords r2).1 hr2
      rw [hpos, horig] at ht
      cases ht
      exact hidx)
    refine ⟨original, _, tile3, horig, hf, hg3, e1, ?_⟩
    rw [e2, hex2]

theorem cellarMap_wellFormed : cellarMap.WellFormed :=
  ⟨by decide, by decide, by decide, by decide, by decide⟩

theorem smallMapFresh_wellFormed : smallMapFresh.WellFormed :=
  ⟨by decide, by decide, by decide, by decide, by decide⟩

theorem smallMapMoved_wellFormed : smallMapMoved.WellFormed :=
  ⟨by decide, by decide, by decide, by decide, by decide⟩

/-! ## Saving and loading -/

/-- C21. For a well-formed map whose listed mine locations all hold a mine,
`TileMap::serialize` returns, and it writes a tile record with the values
`(x, y, depth, terrain category)` of a tile exactly when the tile passes the
test of the code. That test passes the tiles without occupant and without
deposit that are on the surface and bulldozed or below the surface and
excavated, as the specification says, and one more kind: the tiles below the
surface that are bulldozed and not excavated. -/
theorem serialize_tile_records (m : TileMap) (hm : m.WellFormed)
    (hmines : ∀ p ∈ m.mMineLocations, m.HasMineAt ⟨p, 0⟩) :
    ∃ saved, m.serialize = Except.ok saved ∧
      (∀ r : TileRecord, r ∈ saved.tiles ↔
        ∃ tile, m.getTile ⟨⟨r.x, r.y⟩, r.depth⟩ = Except.ok tile ∧
          serializeTileTest r.depth tile = true ∧ r.index = tile.mIndex) ∧
      (∀ position tile, m.getTile position = Except.ok tile →
        ((⟨position.xy.x, position.xy.y, position.z, tile.mIndex⟩ : TileRecord) ∈ saved.tiles ↔
          (writtenBySpecification position.z tile = true ∨
            (position.z > 0 ∧ tile.mExcavated = false ∧ tile.mIndex = TerrainType.Dozed ∧
              tile.empty = true ∧ tile.mMine = none)))) := by
  obtain ⟨saved, hsave, _, _, _, _, hrecords⟩ := serialize_spec m hm hmines
  refine ⟨saved, hsave, hrecords, ?_⟩
  intro position tile ht
  have hb := inBounds_of_getTile_ok m position tile ht
  rw [hrecords, ← serializeTileTest_iff position.z tile hb.2.2.2.2.1]
  constructor
  · rintro ⟨tile1, h1, h2, _⟩
    have h1' : m.getTile position = Except.ok tile1 := h1
    rw [ht] at h1'
    cases h1'
    exact h2
  · intro h
    exact ⟨tile, ht, h, rfl⟩

/-- Witness of C21, the failing input: in the map of one tile on two levels
built from the black height map, the tile of level 1 is bulldozed and not
excavated, the specification names no record for it, and `serialize` writes
the record `(0, 0, 1, 0)`. -/
theorem serialize_tile_records_witness :
    cellarMap.getTile ⟨⟨0, 0⟩, 1⟩
      = Except.ok { mPosition := ⟨⟨0, 0⟩, 1⟩, mExcavated := false } ∧
    writtenBySpecification 1 { mPosition := ⟨⟨0, 0⟩, 1⟩, mExcavated := false } = false ∧
    ∃ saved, cellarMap.serialize = Except.ok saved ∧
      (⟨0, 0, 1, 0⟩ : TileRecord) ∈ saved.tiles := by
  obtain ⟨saved, hsave, _, hspec⟩ := serialize_tile_records cellarMap cellarMap_wellFormed
    (by intro p hp; cases hp)
  refine ⟨rfl, rfl, saved, hsave, ?_⟩
  exact (hspec ⟨⟨0, 0⟩, 1⟩ { mPosition := ⟨⟨0, 0⟩, 1⟩, mExcavated := false } rfl).2
    (Or.inr ⟨by decide, rfl, rfl, rfl, rfl⟩)

/-- C22. For a well-formed map whose listed mine locations all hold a mine:
`serialize` returns, the fresh map of the same dimensions built from a height
source exists, `deserialize` of the saved element into it returns, and every
tile for which `serialize` wrote a record has in the loaded map the terrain
category of the original tile and is excavated. So the excavated flag of such
a tile is reproduced exactly when the original tile is excavated; the records
written for tiles below the surface that are bulldozed and not excavated are
loaded as excavated tiles. -/
theorem serialize_deserialize_tiles (m : TileMap) (heightmap : Image) (hm : m.WellFormed)
    (hwh : m.mSizeInTiles.x * m.mSizeInTiles.y < 2 ^ 31) (hd1 : m.mMaxDepth < 2 ^ 31)
    (hmines : ∀ p ∈ m.mMineLocations, m.HasMineAt ⟨p, 0⟩) :
    ∃ fresh saved loaded,
      (blankMap m.mSizeInTiles m.mMaxDepth).buildTerrainMap heightmap = Except.ok fresh ∧
      m.serialize = Except.ok saved ∧
      fresh.deserialize saved = Except.ok loaded ∧
      ∀ r ∈ saved.tiles, ∃ original loadedTile,
        m.getTile ⟨⟨r.x, r.y⟩, r.depth⟩ = Except.ok original ∧
        serializeTileTest r.depth original = true ∧
        loaded.getTile ⟨⟨r.x, r.y⟩, r.depth⟩ = Except.ok loadedTile ∧
        loadedTile.mIndex = original.mIndex ∧
        loadedTile.mExcavated = true ∧
        (loadedTile.mExcavated = original.mExcavated ↔ original.mExcavated = true) := by
  obtain ⟨fresh, hbuild, hfresh, hshape, hbuilt⟩ :=
    buildTerrainMap_tiles (blankMap m.mSizeInTiles m.mMaxDepth) heightmap hm.1 hm.2 hwh hm.3 hd1
  have hshape' : fresh.SameShape m := hshape
  obtain ⟨saved, loaded, hsave, hload, _, _, _, hrecords, hall⟩ :=
    serialize_deserialize m fresh hm hfresh hshape' hmines
  refine ⟨fresh, saved, loaded, hbuild, hsave, hload, ?_⟩
  intro r hr
  obtain ⟨original, freshTile, loadedTile, h1, h2, h3, h4, h5⟩ := hall r hr
  obtain ⟨tile, ht, htest, _⟩ := (hrecords r).1 hr
  rw [h1] at ht
  cases ht
  have hb := inBounds_of_getTile_ok fresh _ freshTile h2
  rw [hbuilt _ hb] at h2
  cases h2
  have hex : loadedTile.mExcavated = true := by
    rw [h5]
    by_cases hd : r.depth > 0
    · simp [hd]
    · simp [hd, builtTile, Tile.create]
  refine ⟨original, loadedTile, h1, htest, h3, h4, hex, ?_⟩
  rw [hex]
  exact eq_comm

/-- Witness of C22, the failing input: the map of one tile on two levels built
from the black height map is saved and loaded into the map built from the
same height map. The tile of level 1 is not excavated in the original and has
a record; in the loaded map it is excavated. -/
theorem serialize_deserialize_tiles_witness :
    (blankMap ⟨1, 1⟩ 1).buildTerrainMap darkHeightmap = Except.ok cellarMap ∧
    cellarMap.serialize = Except.ok ⟨0, 0, 0, [], [⟨0, 0, 0, 0⟩, ⟨0, 0, 1, 0⟩]⟩ ∧
    cellarMap.getTile ⟨⟨0, 0⟩, 1⟩
      = Except.ok { mPosition := ⟨⟨0, 0⟩, 1⟩, mExcavated := false } ∧
    ∃ loaded, cellarMap.deserialize ⟨0, 0, 0, [], [⟨0, 0, 0, 0⟩, ⟨0, 0, 1, 0⟩]⟩
        = Except.ok loaded ∧
      ∃ loadedTile, loaded.getTile ⟨⟨0, 0⟩, 1⟩ = Except.ok loadedTile ∧
        loadedTile.mExcavated = true := by
  obtain ⟨fresh, saved, loaded, hbuild, hsave, hload, hall⟩ :=
    serialize_deserialize_tiles cellarMap darkHeightmap cellarMap_wellFormed
      (by decide) (by decide) (by intro p hp; cases hp)
  have hbuild' : (blankMap ⟨1, 1⟩ 1).buildTerrainMap darkHeightmap = Except.ok cellarMap := rfl
  have hsave' : cellarMap.serialize
      = Except.ok ⟨0, 0, 0, [], [⟨0, 0, 0, 0⟩, ⟨0, 0, 1, 0⟩]⟩ := rfl
  have hfresh : fresh = cellarMap := by
    have h := hbuild.symm.trans hbuild'
    cases h
    rfl
  have hsaved : saved = ⟨0, 0, 0, [], [⟨0, 0, 0, 0⟩, ⟨0, 0, 1, 0⟩]⟩ := by
    have h := hsave.symm.trans hsave'
    cases h
    rfl
  subst hfresh hsaved
  obtain ⟨_, loadedTile, _, _, h3, _, h5, _⟩ := hall ⟨0, 0, 1, 0⟩ (by decide)
  exact ⟨hbuild', hsave', rfl, loaded, hload, loadedTile, h3, h5⟩

/-- C23. For a well-formed map whose listed mine locations all hold a mine,
whose current depth is a level of the map and whose view origin lies in
`[0, size - e]` on each axis, `e` being the edge length of the map loaded
into (0 for a map in its initial state): `serialize` returns and writes the
current depth and the origin as the view parameters, and `deserialize` of the
saved element into a well-formed map of the same width, height and maximum
depth returns and gives the view origin and the current depth of the
original. -/
theorem serialize_deserialize_view (m fresh : TileMap) (hm : m.WellFormed)
    (hfresh : fresh.WellFormed) (hshape : fresh.SameShape m)
    (hmines : ∀ p ∈ m.mMineLocations, m.HasMineAt ⟨p, 0⟩)
    (hdepth : m.DepthInMap)
    (hx0 : 0 ≤ m.mOriginTilePosition.xy.x)
    (hx1 : m.mOriginTilePosition.xy.x ≤ fresh.mSizeInTiles.x - fresh.mEdgeLength)
    (hy0 : 0 ≤ m.mOriginTilePosition.xy.y)
    (hy1 : m.mOriginTilePosition.xy.y ≤ fresh.mSizeInTiles.y - fresh.mEdgeLength) :
    ∃ saved loaded, m.serialize = Except.ok saved ∧
      saved.currentdepth = m.mOriginTilePosition.z ∧
      saved.viewlocation_x = m.mOriginTilePosition.xy.x ∧
      saved.viewlocation_y = m.mOriginTilePosition.xy.y ∧
      fresh.deserialize saved = Except.ok loaded ∧
      loaded.mOriginTilePosition = m.mOriginTilePosition := by
  obtain ⟨saved, hsave, hz, hx, hy, _, _⟩ := serialize_spec m hm hmines
  obtain ⟨saved2, loaded, hsave2, hload, _, _, horigin, _, _⟩ :=
    serialize_deserialize m fresh hm hfresh hshape hmines
  have hs : saved2 = saved := by
    have h := hsave2.symm.trans hsave
    cases h
    rfl
  subst hs
  refine ⟨saved2, loaded, hsave, hz, hx, hy, hload, ?_⟩
  rw [horigin]
  obtain ⟨hd0, hd1⟩ := hdepth
  have hmax : fresh.mMaxDepth = m.mMaxDepth := hshape.2
  have cx : clamp m.mOriginTilePosition.xy.x 0 (fresh.mSizeInTiles.x - fresh.mEdgeLength)
      = m.mOriginTilePosition.xy.x := by
    unfold clamp
    rw [if_neg (by omega), if_neg (by omega)]
  have cy : clamp m.mOriginTilePosition.xy.y 0 (fresh.mSizeInTiles.y - fresh.mEdgeLength)
      = m.mOriginTilePosition.xy.y := by
    unfold clamp
    rw [if_neg (by omega), if_neg (by omega)]
  have cz : clamp m.mOriginTilePosition.z 0 fresh.mMaxDepth = m.mOriginTilePosition.z := by
    unfold clamp
    rw [if_neg (by omega), if_neg (by omega)]
  simp only [TileMap.mapViewLocation, TileMap.currentDepth, cx, cy, cz]

/-- Witness of C23: the small map with the view moved to (1, 1), loaded into a
map of the same dimensions in its initial state. -/
theorem serialize_deserialize_view_witness :
    smallMapMoved.mOriginTilePosition = ⟨⟨1, 1⟩, 0⟩ ∧
    ∃ saved loaded, smallMapMoved.serialize = Except.ok saved ∧
      saved.currentdepth = 0 ∧ saved.viewlocation_x = 1 ∧ saved.viewlocation_y = 1 ∧
      smallMapFresh.deserialize saved = Except.ok loaded ∧
      loaded.mOriginTilePosition = ⟨⟨1, 1⟩, 0⟩ :=
  ⟨rfl, serialize_deserialize_view smallMapMoved smallMapFresh smallMapMoved_wellFormed
    smallMapFresh_wellFormed ⟨rfl, rfl⟩
    (by
      intro p hp
      have : p = ⟨1, 0⟩ := by simpa [smallMapMoved, smallMap, TileMap.mapViewLocation,
        TileMap.currentDepth] using hp
      subst this
      exact ⟨_, rfl, rfl⟩)
    (by decide) (by decide) (by decide) (by decide) (by decide)⟩

/-! ## Terrain categories -/

/-- C26. For a map of `int` dimensions, `buildTerrainMap` returns and every
tile of the map it builds has as terrain category the red value of its pixel
divided by 50. For the red values 0 to 255 this category lies in the range 0
to 5: it is 0, the category `Dozed`, for a red value below 50, it is 5, above
every category, for a red value from 250 on, and it lies in the range 1 to 4
of the comment exactly for the red values 50 to 249. -/
theorem buildTerrainMap_categories (m : TileMap) (heightmap : Image)
    (hw : 0 ≤ m.mSizeInTiles.x) (hh : 0 ≤ m.mSizeInTiles.y)
    (hwh : m.mSizeInTiles.x * m.mSizeInTiles.y < 2 ^ 31)
    (hd0 : 0 ≤ m.mMaxDepth) (hd1 : m.mMaxDepth < 2 ^ 31) :
    ∃ m1, m.buildTerrainMap heightmap = Except.ok m1 ∧
      ∀ q, m1.InBounds q → ∃ tile, m1.getTile q = Except.ok tile ∧
        tile.mIndex = ((heightmap q.xy).red.val : Int) / 50 ∧
        0 ≤ tile.mIndex ∧ tile.mIndex ≤ 5 ∧
        (tile.mIndex = TerrainType.Dozed ↔ (heightmap q.xy).red.val < 50) ∧
        (tile.mIndex = 5 ↔ 250 ≤ (heightmap q.xy).red.val) ∧
        ((1 ≤ tile.mIndex ∧ tile.mIndex ≤ 4) ↔
          (50 ≤ (heightmap q.xy).red.val ∧ (heightmap q.xy).red.val < 250)) := by
  obtain ⟨m1, hbuild, _, _, hbuilt⟩ := buildTerrainMap_tiles m heightmap hw hh hwh hd0 hd1
  refine ⟨m1, hbuild, ?_⟩
  intro q hq
  have hidx : (builtTile heightmap q).mIndex = ((heightmap q.xy).red.val : Int) / 50 := by
    unfold builtTile
    simp only
    split <;> rfl
  have hred := (heightmap q.xy).red.isLt
  have key : ∀ n : Nat, n < 256 →
      (0 : Int) ≤ (n : Int) / 50 ∧ (n : Int) / 50 ≤ 5 ∧
      ((n : Int) / 50 = 0 ↔ n < 50) ∧ ((n : Int) / 50 = 5 ↔ 250 ≤ n) ∧
      ((1 ≤ (n : Int) / 50 ∧ (n : Int) / 50 ≤ 4) ↔ (50 ≤ n ∧ n < 250)) := by
    intro n hn
    refine ⟨by omega, by omega, ?_, ?_, ?_⟩ <;> constructor <;> intro h <;> omega
  refine ⟨builtTile heightmap q, hbuilt q hq, hidx, ?_⟩
  rw [hidx]
  exact key _ hred

/-- Witness of C26, the failing input: on the map of one tile on two levels the
black height map gives the terrain category 0 and the white height map the
terrain category 5. -/
theorem buildTerrainMap_categories_witness :
    (∃ m1, (blankMap ⟨1, 1⟩ 1).buildTerrainMap darkHeightmap = Except.ok m1 ∧
      ∃ tile, m1.getTile ⟨⟨0, 0⟩, 0⟩ = Except.ok tile ∧ tile.mIndex = 0) ∧
    (∃ m1, (blankMap ⟨1, 1⟩ 1).buildTerrainMap brightHeightmap = Except.ok m1 ∧
      ∃ tile, m1.getTile ⟨⟨0, 0⟩, 0⟩ = Except.ok tile ∧ tile.mIndex = 5) := by
  constructor
  · obtain ⟨m1, hbuild, hall⟩ := buildTerrainMap_categories (blankMap ⟨1, 1⟩ 1) darkHeightmap
      (by decide) (by decide) (by decide) (by decide) (by decide)
    have hm1 : m1 = cellarMap := by
      have h := hbuild.symm.trans
        (rfl : (blankMap ⟨1, 1⟩ 1).buildTerrainMap darkHeightmap = Except.ok cellarMap)
      cases h
      rfl
    obtain ⟨tile, ht, hidx, _⟩ := hall ⟨⟨0, 0⟩, 0⟩ (by rw [hm1]; decide)
    exact ⟨m1, hbuild, tile, ht, by rw [hidx]; rfl⟩
  · exact ⟨_, rfl, _, rfl, rfl⟩

theorem plainMap_wellFormed : plainMap.WellFormed := by
  refine ⟨by decide, by decide, by decide, ?_, ?_⟩
  · simp [plainMap]
  · simp [plainMap]

/-! ## Connectivity check -/

/-- C24, counterexample. On the small map the command centre is placed at
(0, 0), a tile of the map that holds no structure: `checkConnectedness`
throws the runtime error of its third statement. -/
theorem checkConnectedness_throws :
    (⟨0, 0⟩ : Point) ≠ sampleCcNotPlaced ∧
    smallMap.getTile ⟨⟨0, 0⟩, 0⟩ = Except.ok { mPosition := ⟨⟨0, 0⟩, 0⟩ } ∧
    MapViewState.checkConnectedness sampleCcNotPlaced sampleStructures idleWalk
        ⟨smallMap, ⟨0, 0⟩⟩
      = Except.error
          (Error.runtimeError "CC coordinates do not actually point to a Command Center.") :=
  ⟨by decide, rfl, rfl⟩

/-- C24, amended. `checkConnectedness` does nothing when the command centre is
not placed. When it is placed on a tile of the map: if no structure is on the
tile, the call throws `std::runtime_error` with the text "CC coordinates do
not actually point to a Command Center."; if the structure is under
construction the call does nothing; otherwise the call marks the tile
connected and runs the walk from it, and the state of the map is the one the
walk leaves. -/
theorem checkConnectedness_outcomes (CcNotPlaced : Point) (structures : Nat → Structure)
    (graphWalker : Point → Int → TileMap → TileMap) (s : MapViewState) :
    (s.ccLocation = CcNotPlaced →
      s.checkConnectedness CcNotPlaced structures graphWalker = Except.ok s) ∧
    (∀ t, s.ccLocation ≠ CcNotPlaced →
      s.mTileMap.getTile ⟨s.ccLocation, 0⟩ = Except.ok t →
      (t.structure = none →
        s.checkConnectedness CcNotPlaced structures graphWalker
          = Except.error (Error.runtimeError
              "CC coordinates do not actually point to a Command Center.")) ∧
      (∀ cc, t.structure = some cc →
        (structures cc).mStructureState = StructureState.UnderConstruction →
        s.checkConnectedness CcNotPlaced structures graphWalker = Except.ok s) ∧
      (∀ cc, t.structure = some cc →
        (structures cc).mStructureState ≠ StructureState.UnderConstruction →
        s.checkConnectedness CcNotPlaced structures graphWalker
          = Except.ok ⟨graphWalker s.ccLocation 0
              (s.mTileMap.writeTile (s.mTileMap.tileSlot ⟨s.ccLocation, 0⟩)
                (t.setConnected true)), s.ccLocation⟩)) := by
  constructor
  · intro h
    unfold MapViewState.checkConnectedness
    rw [if_pos h]
  · intro t hne ht
    have hmut : s.mTileMap.getTileMut ⟨s.ccLocation, 0⟩
        = Except.ok (s.mTileMap.tileSlot ⟨s.ccLocation, 0⟩, t) := by
      unfold TileMap.getTileMut
      rw [ht]
    refine ⟨?_, ?_, ?_⟩
    · intro hnone
      unfold MapViewState.checkConnectedness
      rw [if_neg hne]
      simp only [hmut, hnone]
    · intro cc hsome hstate
      unfold MapViewState.checkConnectedness
      rw [if_neg hne]
      simp only [hmut, hsome, hstate, if_true]
    · intro cc hsome hstate
      unfold MapViewState.checkConnectedness
      rw [if_neg hne]
      simp only [hmut, hsome, hstate, if_false]

/-- Witness of C24 (amended): on the strip map the command centre is placed on
the tile at (1, 0), which holds an operational structure; the call marks the
tile connected. -/
theorem checkConnectedness_outcomes_witness :
    MapViewState.checkConnectedness sampleCcNotPlaced sampleStructures idleWalk
        ⟨stripMap 1 1 (none, none), ⟨1, 0⟩⟩
      = Except.ok ⟨idleWalk ⟨1, 0⟩ 0
          ((stripMap 1 1 (none, none)).writeTile
            ((stripMap 1 1 (none, none)).tileSlot ⟨⟨1, 0⟩, 0⟩)
            ((stripRoadTile 1).setConnected true)), ⟨1, 0⟩⟩ :=
  ((checkConnectedness_outcomes sampleCcNotPlaced sampleStructures idleWalk
    ⟨stripMap 1 1 (none, none), ⟨1, 0⟩⟩).2 (stripRoadTile 1) (by decide) rfl).2.2 0 rfl
    (by decide)

/-! ## Mine placement, indices -/

/-- C25. For a map of at least 10 by 10 tiles (of `int` size): for every draw
with `x` in `[5, width - 5]` and `y` in `[5, height - 5]` and every tile of
its 3x3 neighbourhood, the index `x + width * y` lies in `[0, width * height)`.
With all draws in that range no access of `generateMineLocations` to
`usedLocations` is outside the vector: the call returns when `reserve`
accepts the count, and throws from `reserve`, before any access, when it
does not (`std::length_error` for a count above the `max_size()` of the
vector of locations, `std::bad_alloc` when the allocation fails). Every
location it returns is such a draw, hence a valid position of depth 0 with
`5 <= x <= width - 5` and `5 <= y <= height - 5`, and `placeMines` with the
returned locations returns for every well-formed map of that size and every
hostility. -/
theorem generateMineLocations_indices (mapSize : Vector)
    (hw : 10 ≤ mapSize.x) (hh : 10 ≤ mapSize.y) (hwh : mapSize.x * mapSize.y < 2 ^ 31) :
    (∀ point, DrawInRange mapSize point → ∀ offset ∈ DirectionScan3x3,
      0 ≤ usedIndex mapSize (point.add offset) ∧
      usedIndex mapSize (point.add offset) < mapSize.x * mapSize.y) ∧
    (∀ (limits : VectorLimits) (mineCount : Nat) (randPoint : Nat → Point),
      (∀ k, DrawInRange mapSize (randPoint k)) →
      (limits.Accepts mineCount →
        ∃ locations,
          generateMineLocations limits mapSize mineCount randPoint = Except.ok locations) ∧
      (limits.maxSize < mineCount →
        generateMineLocations limits mapSize mineCount randPoint
          = Except.error Error.lengthError) ∧
      (mineCount ≤ limits.maxSize → limits.available < mineCount →
        generateMineLocations limits mapSize mineCount randPoint
          = Except.error Error.badAlloc) ∧
      ∀ locations,
        generateMineLocations limits mapSize mineCount randPoint = Except.ok locations →
        (∀ p ∈ locations, DrawInRange mapSize p) ∧
        ∀ (m : TileMap) (hostility : Hostility) (randValue : Nat → Int),
          m.WellFormed → m.mSizeInTiles = mapSize →
          (∀ p ∈ locations, m.isValidPosition ⟨p, 0⟩ = true) ∧
          ∃ m1, placeMines m hostility locations randValue = Except.ok m1) := by
  constructor
  · intro point hp offset ho
    exact usedIndex_in_range mapSize point offset hw hp ho
  · intro limits mineCount randPoint hdraw
    refine ⟨?_, ?_, ?_, ?_⟩
    · intro hsize
      obtain ⟨final, _, hgen, _, _⟩ :=
        generateMineLocations_returns limits mapSize mineCount randPoint hsize hw hh hwh hdraw
      exact ⟨final.locations, hgen⟩
    · intro hsize
      exact (generateMineLocations_throws limits mapSize mineCount randPoint hsize).2
    · intro h1 h2
      exact generateMineLocations_badAlloc limits mapSize mineCount randPoint h1 h2
    · intro locations hgen
      obtain ⟨final, _, hl, hinv, _⟩ := generateMineLocations_ok_inv limits mapSize mineCount
        randPoint locations hw hh hwh hdraw hgen
      subst hl
      refine ⟨hinv.in_range, ?_⟩
      intro m hostility randValue hm hsize
      have hin : ∀ p ∈ final.locations, m.InBounds ⟨p, 0⟩ := by
        intro p hp
        obtain ⟨h1, h2, h3, h4⟩ := hinv.in_range p hp
        have := hm.depth_nonneg
        unfold TileMap.InBounds
        rw [hsize]
        exact ⟨by show 0 ≤ p.x; omega, by show p.x < mapSize.x; omega,
          by show 0 ≤ p.y; omega, by show p.y < mapSize.y; omega, le_refl _, this⟩
      refine ⟨fun p hp => (isValidPosition_iff m _).2 (hin p hp), ?_⟩
      unfold placeMines
      cases hostility
      · obtain ⟨m1, h1, _⟩ :=
          placeMinesLoop_spec (30, 50, 20) randValue final.locations 0 m hm hin
        exact ⟨m1, h1⟩
      · obtain ⟨m1, h1, _⟩ :=
          placeMinesLoop_spec (45, 35, 20) randValue final.locations 0 m hm hin
        exact ⟨m1, h1⟩
      · obtain ⟨m1, h1, _⟩ :=
          placeMinesLoop_spec (35, 20, 45) randValue final.locations 0 m hm hin
        exact ⟨m1, h1⟩

/-- Witness of C25: the map of 12 by 10 tiles with the draws (5, 5) and (7, 5). -/
theorem generateMineLocations_indices_witness :
    (10 : Int) ≤ 12 ∧ (10 : Int) ≤ 10 ∧ (12 : Int) * 10 < 2 ^ 31 ∧
    (0 ≤ usedIndex ⟨12, 10⟩ ((⟨7, 5⟩ : Point).add ⟨1, 1⟩) ∧
      usedIndex ⟨12, 10⟩ ((⟨7, 5⟩ : Point).add ⟨1, 1⟩) < 12 * 10) ∧
    ∃ locations, generateMineLocations sampleLimits ⟨12, 10⟩ 2 closeDraws
        = Except.ok locations ∧
      (∀ p ∈ locations, DrawInRange ⟨12, 10⟩ p) ∧
      ∃ m1, placeMines plainMap Hostility.Low locations (fun _ => 1) = Except.ok m1 := by
  have h := generateMineLocations_indices ⟨12, 10⟩ (by decide) (by decide) (by decide)
  obtain ⟨hreturn, _, _, hall⟩ := h.2 sampleLimits 2 closeDraws closeDraws_inRange
  obtain ⟨locations, h1⟩ := hreturn (by decide)
  obtain ⟨h2, h3⟩ := hall locations h1
  exact ⟨by decide, by decide, by decide, h.1 ⟨7, 5⟩ (by decide) ⟨1, 1⟩ (by decide),
    locations, h1, h2, (h3 plainMap Hostility.Low (fun _ => 1) plainMap_wellFormed rfl).2⟩

/-! ## View window, centring -/

/-- C27. For a map whose view edge length `e` satisfies `1 <= e <= width` and
`e <= height`, and every valid position `p`: after `centerOn(p)` the position
is visible, `isVisibleTile(p)` is true, and the current depth is the depth of
`p`. -/
theorem centerOn_shows_position (m : TileMap) (he : 1 ≤ m.mEdgeLength)
    (_hw : m.mEdgeLength ≤ m.mSizeInTiles.x) (_hh : m.mEdgeLength ≤ m.mSizeInTiles.y)
    (p : MapCoordinate) (hp : m.isValidPosition p = true) :
    (m.centerOn p).isVisibleTile p = true ∧ (m.centerOn p).mOriginTilePosition.z = p.z := by
  obtain ⟨hx0, hx1, hy0, hy1, hz0, hz1⟩ := (isValidPosition_iff m p).1 hp
  have hhalf0 : 0 ≤ m.mEdgeLength.tdiv 2 := Int.tdiv_nonneg (by omega) (by decide)
  have hhalf1 : m.mEdgeLength.tdiv 2 < m.mEdgeLength := by
    rw [Int.tdiv_eq_ediv (by omega) (by decide)]
    omega
  have hz : clamp p.z 0 m.mMaxDepth = p.z := by
    unfold clamp
    rw [if_neg (by omega), if_neg (by omega)]
  have hcx : clamp (p.xy.x - m.mEdgeLength.tdiv 2) 0 (m.mSizeInTiles.x - m.mEdgeLength) ≤ p.xy.x ∧
      p.xy.x < clamp (p.xy.x - m.mEdgeLength.tdiv 2) 0 (m.mSizeInTiles.x - m.mEdgeLength)
        + m.mEdgeLength := by
    unfold clamp
    split_ifs <;> constructor <;> omega
  have hcy : clamp (p.xy.y - m.mEdgeLength.tdiv 2) 0 (m.mSizeInTiles.y - m.mEdgeLength) ≤ p.xy.y ∧
      p.xy.y < clamp (p.xy.y - m.mEdgeLength.tdiv 2) 0 (m.mSizeInTiles.y - m.mEdgeLength)
        + m.mEdgeLength := by
    unfold clamp
    split_ifs <;> constructor <;> omega
  constructor
  · simp only [TileMap.isVisibleTile, TileMap.viewArea, TileMap.centerOn, TileMap.mapViewLocation,
      TileMap.currentDepth, Rectangle.contains, Point.sub, Vector.divScalar, hz,
      Bool.and_eq_true, decide_eq_true_eq]
    exact ⟨⟨⟨⟨hcx.1, hcx.2⟩, hcy.1⟩, hcy.2⟩, trivial⟩
  · simp only [TileMap.centerOn, TileMap.mapViewLocation, TileMap.currentDepth, hz]

/-- Witness of C27: the map of 300 by 150 tiles with a view of 3 tiles, centred
on the tile in its bottom right corner. -/
theorem centerOn_shows_position_witness :
    (1 : Int) ≤ viewAtCorner.mEdgeLength ∧
    viewAtCorner.isValidPosition ⟨⟨299, 149⟩, 0⟩ = true ∧
    (viewAtCorner.centerOn ⟨⟨299, 149⟩, 0⟩).isVisibleTile ⟨⟨299, 149⟩, 0⟩ = true ∧
    (viewAtCorner.centerOn ⟨⟨299, 149⟩, 0⟩).mOriginTilePosition.z = 0 :=
  ⟨by decide, by decide,
    centerOn_shows_position viewAtCorner (by decide) (by decide) (by decide)
      ⟨⟨299, 149⟩, 0⟩ (by decide)⟩

/-! ## Mine placement, distinct locations -/

/-- C28. For every map size (of `int` size), count and sequence of draws in
the range of `randPoint`, the locations that `generateMineLocations` returns
are pairwise distinct, and a location returned later lies outside the 3x3
block claimed by a location returned earlier: the two differ by at least 2 in
`x` or by at least 2 in `y`. The call returns when `reserve` accepts the
count. -/
theorem generateMineLocations_distinct (limits : VectorLimits) (mapSize : Vector) (mineCount : Nat)
    (randPoint : Nat → Point) (hwh : mapSize.x * mapSize.y < 2 ^ 31)
    (hdraw : ∀ k, DrawInRange mapSize (randPoint k)) :
    (∀ locations,
      generateMineLocations limits mapSize mineCount randPoint = Except.ok locations →
      locations.Nodup ∧
      ∀ i j : Fin locations.length, i < j →
        Separated 2 (locations.get i) (locations.get j) ∧
        (∀ offset ∈ DirectionScan3x3, (locations.get i).add offset ≠ locations.get j) ∧
        locations.get i ≠ locations.get j) ∧
    (limits.Accepts mineCount →
      ∃ locations,
        generateMineLocations limits mapSize mineCount randPoint = Except.ok locations) := by
  obtain ⟨h1, h2, h3, h4⟩ := hdraw 0
  constructor
  · intro locations hgen
    obtain ⟨final, _, hl, hinv, _⟩ := generateMineLocations_ok_inv limits mapSize mineCount
      randPoint locations (by omega) (by omega) hwh hdraw hgen
    subst hl
    refine ⟨hinv.separated.imp (fun h => separated_ne _ _ h), ?_⟩
    intro i j hij
    have hsep := List.pairwise_iff_get.1 hinv.separated i j hij
    refine ⟨hsep, ?_, separated_ne _ _ hsep⟩
    intro offset ho heq
    obtain ⟨o1, o2, o3, o4⟩ := offset_small offset ho
    have hx : (final.locations.get j).x = (final.locations.get i).x + offset.x := by
      rw [← heq]; rfl
    have hy : (final.locations.get j).y = (final.locations.get i).y + offset.y := by
      rw [← heq]; rfl
    unfold Separated at hsep
    omega
  · intro hsize
    obtain ⟨final, _, hgen, _, _⟩ := generateMineLocations_returns limits mapSize mineCount
      randPoint hsize (by omega) (by omega) hwh hdraw
    exact ⟨final.locations, hgen⟩

/-- Witness of C28: the map of 12 by 10 tiles with the draws (5, 5) and (7, 5). -/
theorem generateMineLocations_distinct_witness :
    (12 : Int) * 10 < 2 ^ 31 ∧
    ∃ locations, generateMineLocations sampleLimits ⟨12, 10⟩ 2 closeDraws
        = Except.ok locations ∧
      locations.Nodup :=
  have h := generateMineLocations_distinct sampleLimits ⟨12, 10⟩ 2 closeDraws (by decide)
    closeDraws_inRange
  ⟨by decide,
    (h.2 (by decide)).elim fun locations hl => ⟨locations, hl, (h.1 locations hl).1⟩⟩

theorem selectionByNameLoop_bound (toLowercase : String → String) (target : String) :
    ∀ (items : List ListBoxItem) (k i : Nat),
      selectionByNameLoop toLowercase target items k = some i → k ≤ i ∧ i < k + items.length := by
  intro items
  induction items with
  | nil => intro k i h; cases h
  | cons item rest ih =>
    intro k i h
    simp only [selectionByNameLoop] at h
    split at h
    · cases h
      simp only [List.length_cons]
      omega
    · obtain ⟨h1, h2⟩ := ih (k + 1) i h
      simp only [List.length_cons]
      omega

theorem addItem_selectionValid (constants : UiConstants) (l : ListBox) (item : String)
    (tag : Int) (h : l.SelectionValid constants) :
    (l.addItem item tag).SelectionValid constants := by
  unfold ListBox.SelectionValid ListBox.addItem at *
  simp only [List.length_append, List.length_singleton]
  rcases h with h | h
  · exact Or.inl h
  · exact Or.inr (by omega)

theorem removeItem_selectionValid (constants : UiConstants) (l : ListBox) (item : String)
    (h : l.SelectionValid constants) : (l.removeItem constants item).SelectionValid constants := by
  unfold ListBox.removeItem
  split_ifs
  · exact h
  · exact Or.inl rfl
  · exact h

theorem setSelectionByName_selectionValid (constants : UiConstants)
    (toLowercase : String → String) (l : ListBox) (item : String)
    (h : l.SelectionValid constants) :
    (l.setSelectionByName toLowercase item).SelectionValid constants := by
  unfold ListBox.setSelectionByName
  split
  · rename_i i hi
    obtain ⟨_, h2⟩ := selectionByNameLoop_bound toLowercase _ _ _ _ hi
    exact Or.inr (by simpa using h2)
  · exact h

theorem run_selectionValid (constants : UiConstants) (toLowercase : String → String) :
    ∀ (calls : List ListBoxCall) (l : ListBox), l.SelectionValid constants →
      (∀ c ∈ calls, c ≠ ListBoxCall.dropAllItems) →
      (ListBox.run constants toLowercase calls l).SelectionValid constants := by
  intro calls
  induction calls with
  | nil => intro l h _; exact h
  | cons c rest ih =>
    intro l h hall
    have hrest : ∀ c ∈ rest, c ≠ ListBoxCall.dropAllItems :=
      fun c hc => hall c (List.mem_cons_of_mem _ hc)
    have hc := hall c (List.mem_cons_self _ _)
    simp only [ListBox.run]
    apply ih _ _ hrest
    cases c with
    | addItem item tag => exact addItem_selectionValid constants l item tag h
    | removeItem item => exact removeItem_selectionValid constants l item h
    | dropAllItems => exact absurd rfl hc
    | setSelectionByName item =>
      exact setSelectionByName_selectionValid constants toLowercase l item h

/-! ## List box selection -/

/-- C29. With a selection that is `NO_SELECTION` or an index below the number
of items, `selectionText()` and `selectionTag()` index inside the item list,
and `addItem`, `removeItem` and `setSelectionByName` keep the selection so,
also over every sequence of these calls. The method `dropAllItems` does not:
it empties the list and sets the selection to 0, so when `NO_SELECTION` is
not 0 the selection is an index that is not below the number of items, and
both accessors index outside the item list. -/
theorem listBox_selection (constants : UiConstants) (toLowercase : String → String)
    (hno : constants.NO_SELECTION ≠ 0) :
    (∀ l : ListBox, l.SelectionValid constants →
      (l.selectionText constants).isSome = true ∧ (l.selectionTag constants).isSome = true) ∧
    (∀ (l : ListBox) (calls : List ListBoxCall), l.SelectionValid constants →
      (∀ c ∈ calls, c ≠ ListBoxCall.dropAllItems) →
      (ListBox.run constants toLowercase calls l).SelectionValid constants) ∧
    (∀ l : ListBox,
      l.dropAllItems.mItems = [] ∧ l.dropAllItems.mCurrentSelection = 0 ∧
      ¬ l.dropAllItems.SelectionValid constants ∧
      l.dropAllItems.selectionText constants = none ∧
      l.dropAllItems.selectionTag constants = none) := by
  refine ⟨?_, ?_, ?_⟩
  · intro l h
    unfold ListBox.selectionText ListBox.selectionTag
    rcases h with h | h
    · rw [if_pos h, if_pos h]
      exact ⟨rfl, rfl⟩
    · by_cases hsel : l.mCurrentSelection = constants.NO_SELECTION
      · rw [if_pos hsel, if_pos hsel]
        exact ⟨rfl, rfl⟩
      · rw [if_neg hsel, if_neg hsel, List.getElem?_eq_getElem h]
        exact ⟨rfl, rfl⟩
  · intro l calls h hall
    exact run_selectionValid constants toLowercase calls l h hall
  · intro l
    have hne : ¬ (0 = constants.NO_SELECTION) := fun h => hno h.symm
    refine ⟨rfl, rfl, ?_, ?_, ?_⟩
    · unfold ListBox.SelectionValid ListBox.dropAllItems
      simp only [List.length_nil, Nat.lt_irrefl, or_false]
      exact hne
    · unfold ListBox.selectionText ListBox.dropAllItems
      simp only [if_neg hne]
      rfl
    · unfold ListBox.selectionTag ListBox.dropAllItems
      simp only [if_neg hne]
      rfl

/-- Witness of C29, the failing input: with `NO_SELECTION` the largest
`std::size_t`, the list box with two items, the second selected, has a valid
selection; after `dropAllItems()` the selection is 0 in an empty list and
`selectionText()` and `selectionTag()` index outside it. -/
theorem listBox_selection_witness :
    sampleUiConstants.NO_SELECTION ≠ 0 ∧
    twoItems.SelectionValid sampleUiConstants ∧
    twoItems.selectionText sampleUiConstants = some "beta" ∧
    twoItems.dropAllItems.mCurrentSelection = 0 ∧
    twoItems.dropAllItems.mItems = [] ∧
    twoItems.dropAllItems.selectionText sampleUiConstants = none ∧
    twoItems.dropAllItems.selectionTag sampleUiConstants = none :=
  have h := (listBox_selection sampleUiConstants id (by decide)).2.2 twoItems
  ⟨by decide, by decide, by decide, h.2.1, h.1, h.2.2.2.1, h.2.2.2.2⟩

theorem zipWith_rect (f : Nat → AreaRectangle) :
    ∀ (panels : List CategoryPanel) (indices : List Nat), indices.length = panels.length →
      (List.zipWith (fun (i : Nat) (panel : CategoryPanel) => { panel with rect := f i })
        indices panels).map CategoryPanel.rect = indices.map f := by
  intro panels
  induction panels with
  | nil =>
    intro indices h
    cases indices with
    | nil => rfl
    | cons i rest => cases h
  | cons panel rest ih =>
    intro indices h
    cases indices with
    | nil => cases h
    | cons i more =>
      simp only [List.zipWith_cons_cons, List.map_cons]
      rw [ih more (by simpa using h)]

theorem selectFront_rect (panels : List CategoryPanel) :
    (selectFront panels).map CategoryPanel.rect = panels.map CategoryPanel.rect := by
  cases panels with
  | nil => rfl
  | cons front rest => rfl

/-! ## Research report layout -/

/-- C30. With no category panel `ResearchReport::refresh` returns without
changing anything. With two or more panels the divisor of the padding, the
number of panels minus one, is not zero, and the call gives the panel number
`i` the rectangle at `(x + 10, y + 10 + i * 64 + i * padding)`. With exactly
one panel the call passes the test `size() < 1` and divides by
`size() - 1 = 0`: the behaviour is undefined. -/
theorem refresh_padding (r : ResearchReport) :
    (r.CategoryPanels.length = 0 → r.refresh = some r) ∧
    (r.CategoryPanels.length = 1 →
      intDivide ((r.rect.size.y - 20) - CategoryIconSize * (r.CategoryPanels.length : Int))
        ((r.CategoryPanels.length - 1 : Nat) : Int) = none ∧
      r.refresh = none) ∧
    (2 ≤ r.CategoryPanels.length →
      ∃ padding r1,
        intDivide ((r.rect.size.y - 20) - CategoryIconSize * (r.CategoryPanels.length : Int))
          ((r.CategoryPanels.length - 1 : Nat) : Int) = some padding ∧
        r.refresh = some r1 ∧
        r1.CategoryPanels.map CategoryPanel.rect
          = (List.range r.CategoryPanels.length).map (panelRect r padding)) := by
  refine ⟨?_, ?_, ?_⟩
  · intro h
    unfold ResearchReport.refresh
    rw [if_pos (by omega)]
  · intro h
    have hdiv : intDivide
        ((r.rect.size.y - 20) - CategoryIconSize * (r.CategoryPanels.length : Int))
        ((r.CategoryPanels.length - 1 : Nat) : Int) = none := by
      unfold intDivide
      rw [if_pos (by rw [h]; rfl)]
    refine ⟨hdiv, ?_⟩
    unfold ResearchReport.refresh
    rw [if_neg (by omega)]
    simp only [hdiv]
  · intro h
    have hne : ¬ (((r.CategoryPanels.length - 1 : Nat) : Int) = 0) := by omega
    obtain ⟨padding, hdiv⟩ : ∃ padding, intDivide
        ((r.rect.size.y - 20) - CategoryIconSize * (r.CategoryPanels.length : Int))
        ((r.CategoryPanels.length - 1 : Nat) : Int) = some padding := by
      unfold intDivide
      rw [if_neg hne]
      exact ⟨_, rfl⟩
    have hrun : ∃ r1, r.refresh = some r1 ∧
        r1.CategoryPanels = selectFront (List.zipWith
          (fun (i : Nat) (panel : CategoryPanel) => { panel with rect := panelRect r padding i })
          (List.range r.CategoryPanels.length) r.CategoryPanels) := by
      unfold ResearchReport.refresh
      rw [if_neg (by omega)]
      simp only [hdiv]
      exact ⟨_, rfl, rfl⟩
    obtain ⟨r1, hr1, hpanels⟩ := hrun
    refine ⟨padding, r1, hdiv, hr1, ?_⟩
    rw [hpanels, selectFront_rect, zipWith_rect _ _ _ (List.length_range _)]

/-- Witness of C30, the failing input: a report with a single category panel;
and a report with two panels, whose padding is (600 - 20 - 128) / 1 = 452. -/
theorem refresh_padding_witness :
    singleCategoryReport.CategoryPanels.length = 1 ∧
    singleCategoryReport.refresh = none ∧
    ∃ r1, twoCategoryReport.refresh = some r1 ∧
      r1.CategoryPanels.map CategoryPanel.rect
        = [⟨⟨10, 10⟩, ⟨64, 64⟩⟩, ⟨⟨10, 526⟩, ⟨64, 64⟩⟩] := by
  refine ⟨rfl, ((refresh_padding singleCategoryReport).2.1 rfl).2, ?_⟩
  exact ⟨_, rfl, by decide⟩

end OPHD
